import Mathlib

/-!
# buildfs: the disk image cache and the build pipeline

A shallow embedding of `pkg/str/hash.go`, `pkg/disk/disk.go`, `pkg/ext4/ext4.go` and
`pkg/rootfs/build.go`, with the parsing of the image argument in `pkg/rootfs/unpack.go`.

* Go strings are Lean strings; a file's contents are a string as well.
* A path is the list of its components (`Path`) as `filepath.Clean` leaves them;
  `filepath.Join` of a path with plain names appends them, and `render` gives the Go string
  back. The names that `os.MkdirTemp` and `os.CreateTemp` return are shown in that form too.
  There are no symbolic links, and a relative path is taken from one current directory.
* The file system is a map from paths to nodes. A directory node carries the names that
  `readdir` reports for it, so that a name whose node has vanished models a failing `Info()`.
* Everything outside the program (the clock, the random part of temporary names, the image
  copy, the unpacker, `du`, `mke2fs`, the caller's context) is read from an `Env`.
* A `World` is the file system together with the calls made on collaborators and the
  sequence of file system states the run went through.
-/

namespace Buildfs

/-! ## crypto/sha256 and `str.HashString` -/

namespace Sha256

/-- Round constants of SHA-256. -/
def K : List Nat := [
  0x428a2f98, 0x71374491, 0xb5c0fbcf, 0xe9b5dba5, 0x3956c25b, 0x59f111f1, 0x923f82a4, 0xab1c5ed5,
  0xd807aa98, 0x12835b01, 0x243185be, 0x550c7dc3, 0x72be5d74, 0x80deb1fe, 0x9bdc06a7, 0xc19bf174,
  0xe49b69c1, 0xefbe4786, 0x0fc19dc6, 0x240ca1cc, 0x2de92c6f, 0x4a7484aa, 0x5cb0a9dc, 0x76f988da,
  0x983e5152, 0xa831c66d, 0xb00327c8, 0xbf597fc7, 0xc6e00bf3, 0xd5a79147, 0x06ca6351, 0x14292967,
  0x27b70a85, 0x2e1b2138, 0x4d2c6dfc, 0x53380d13, 0x650a7354, 0x766a0abb, 0x81c2c92e, 0x92722c85,
  0xa2bfe8a1, 0xa81a664b, 0xc24b8b70, 0xc76c51a3, 0xd192e819, 0xd6990624, 0xf40e3585, 0x106aa070,
  0x19a4c116, 0x1e376c08, 0x2748774c, 0x34b0bcb5, 0x391c0cb3, 0x4ed8aa4a, 0x5b9cca4f, 0x682e6ff3,
  0x748f82ee, 0x78a5636f, 0x84c87814, 0x8cc70208, 0x90befffa, 0xa4506ceb, 0xbef9a3f7, 0xc67178f2]

/-- The eight 32-bit words of the running digest. -/
structure State where
  a : Nat
  b : Nat
  c : Nat
  d : Nat
  e : Nat
  f : Nat
  g : Nat
  h : Nat

/-- Initial digest value. -/
def init : State :=
  ⟨0x6a09e667, 0xbb67ae85, 0x3c6ef372, 0xa54ff53a, 0x510e527f, 0x9b05688c, 0x1f83d9ab, 0x5be0cd19⟩

/-- Truncation to a 32-bit word. -/
def w32 (x : Nat) : Nat := x % 4294967296

/-- Rotation of a 32-bit word to the right. -/
def rotr (x n : Nat) : Nat := w32 ((x >>> n) ||| (x <<< (32 - n)))

def bigS0 (x : Nat) : Nat := rotr x 2 ^^^ rotr x 13 ^^^ rotr x 22

def bigS1 (x : Nat) : Nat := rotr x 6 ^^^ rotr x 11 ^^^ rotr x 25

def smallS0 (x : Nat) : Nat := rotr x 7 ^^^ rotr x 18 ^^^ (x >>> 3)

def smallS1 (x : Nat) : Nat := rotr x 17 ^^^ rotr x 19 ^^^ (x >>> 10)

def ch (x y z : Nat) : Nat := (x &&& y) ^^^ ((x ^^^ 4294967295) &&& z)

def maj (x y z : Nat) : Nat := (x &&& y) ^^^ (x &&& z) ^^^ (y &&& z)

/-- One round of the compression function, with round constant `k` and schedule word `w`. -/
def round (s : State) (k w : Nat) : State :=
  let t1 := w32 (s.h + bigS1 s.e + ch s.e s.f s.g + k + w)
  let t2 := w32 (bigS0 s.a + maj s.a s.b s.c)
  ⟨w32 (t1 + t2), s.a, s.b, s.c, w32 (s.d + t1), s.e, s.f, s.g⟩

/-- Extends the message schedule by `n` words; `rev` holds the schedule, latest word first. -/
def extend : Nat → List Nat → List Nat
  | 0, rev => rev
  | n + 1, rev =>
    extend n
      (w32 (smallS1 (rev.getD 1 0) + rev.getD 6 0 + smallS0 (rev.getD 14 0) + rev.getD 15 0) :: rev)

/-- The 64 schedule words of a block of 16 words. -/
def schedule (block : List Nat) : List Nat := (extend 48 block.reverse).reverse

def rounds : State → List Nat → List Nat → State
  | s, k :: ks, w :: ws => rounds (round s k w) ks ws
  | s, _, _ => s

/-- Compression of one block into the running digest. -/
def compress (s : State) (block : List Nat) : State :=
  let t := rounds s K (schedule block)
  ⟨w32 (s.a + t.a), w32 (s.b + t.b), w32 (s.c + t.c), w32 (s.d + t.d),
   w32 (s.e + t.e), w32 (s.f + t.f), w32 (s.g + t.g), w32 (s.h + t.h)⟩

/-- Big-endian bytes of a 32-bit word. -/
def be32 (w : Nat) : List Nat := [w >>> 24 % 256, w >>> 16 % 256, w >>> 8 % 256, w % 256]

/-- Big-endian bytes of a 64-bit length. -/
def be64 (n : Nat) : List Nat := be32 (n >>> 32) ++ be32 n

/-- Message padding: a one bit, zeros up to 56 modulo 64, and the length in bits. -/
def pad (msg : List Nat) : List Nat :=
  msg ++ [128] ++ List.replicate ((119 - msg.length % 64) % 64) 0 ++ be64 (8 * msg.length)

/-- Big-endian words of a byte list, four bytes at a time; `fuel` bounds the number of words. -/
def words : Nat → List Nat → List Nat
  | fuel + 1, b0 :: b1 :: b2 :: b3 :: rest =>
    (b0 * 16777216 + b1 * 65536 + b2 * 256 + b3) :: words fuel rest
  | _, _ => []

/-- Folds the compression function over the 16-word blocks of `ws`. -/
def blocks : Nat → State → List Nat → State
  | fuel + 1, s, ws =>
    if ws.length < 16 then s else blocks fuel (compress s (ws.take 16)) (ws.drop 16)
  | 0, s, _ => s

/-- Digest of a byte list: `sha256.Sum256`, 32 bytes. -/
def sum (msg : List Nat) : List Nat :=
  let p := pad msg
  let s := blocks p.length init (words p.length p)
  be32 s.a ++ be32 s.b ++ be32 s.c ++ be32 s.d ++ be32 s.e ++ be32 s.f ++ be32 s.g ++ be32 s.h

end Sha256

/-- The digit of `n` in lowercase hexadecimal. -/
def hexDigit (n : Nat) : Char := "0123456789abcdef".data.getD n '0'

/-- Two hexadecimal digits of a byte, as `%x` prints it. -/
def hexByte (b : Nat) : List Char := [hexDigit (b / 16), hexDigit (b % 16)]

/-- Bytes of a Go string: `[]byte(s)`. -/
def bytesOf (s : String) : List Nat :=
  s.data.flatMap fun c => (String.utf8EncodeChar c).map UInt8.toNat

/-- Function `fmt.Sprintf("%x", digest)`. -/
def hexString (digest : List Nat) : String := String.mk (digest.flatMap hexByte)

/-- Function `str.HashString`: `fmt.Sprintf("%x", sha256.Sum256([]byte(input)))`. -/
def HashString (input : String) : String := hexString (Sha256.sum (bytesOf input))

/-- Function `singleflightKey`: the loop appends the digest of each argument to `h`, and the
result is the digest of `h`. -/
def singleflightKey (args : List String) : String :=
  HashString (args.foldl (fun h s => h ++ HashString s) "")

/-! ## Paths -/

/-- A path, as the list of its components. The absolute path `/tmp/ws` is `["", "tmp", "ws"]`,
the relative path `ws/x` is `["ws", "x"]`, and the empty list is the empty string. -/
abbrev Path := List String

/-- Splits at every `sep`, as `strings.Split` does for a one-character separator; `cur` holds
the piece being read, reversed. -/
def splitAt (sep : Char) : List Char → List Char → List String
  | [], cur => [String.mk cur.reverse]
  | c :: cs, cur =>
    if c = sep then String.mk cur.reverse :: splitAt sep cs [] else splitAt sep cs (c :: cur)

/-- The pass of `filepath.Clean` over the components of a path. `rev` holds the components
kept so far, last first. An empty component and `.` are dropped; `..` takes the component
before it away, stays when the path is relative and nothing but `..` is before it, and is
dropped at the root. -/
def cleanRev (rooted : Bool) : List String → List String → List String
  | [], rev => rev
  | c :: cs, rev =>
    if c = "" ∨ c = "." then cleanRev rooted cs rev
    else if c = ".." then
      match rev with
      | [] => cleanRev rooted cs (if rooted then [] else [".."])
      | top :: rest =>
        if top = ".." then cleanRev rooted cs (".." :: top :: rest) else cleanRev rooted cs rest
    else cleanRev rooted cs (c :: rev)

/-- The path a Go string names: the components of `filepath.Clean(s)`. With plain names
`a`, `b`, the list `pathOf s ++ [a, b]` is `filepath.Join(s, a, b)`; the empty string and `.`
both give the empty list, the current directory. -/
def pathOf (s : String) : Path :=
  match s.data with
  | '/' :: cs => "" :: (cleanRev true (splitAt '/' cs []) []).reverse
  | cs => (cleanRev false (splitAt '/' cs []) []).reverse

/-- The Go string of a path. -/
def render (p : Path) : String := if p = [""] then "/" else "/".intercalate p

/-- Constant `diskImageFileName`. -/
def diskImageFileName : String := "containerfs.ext4"

/-- Function `Builder.getLocalImagePath`: `filepath.Join(workspaceDir, "containers", hash)`. -/
def getLocalImagePath (workspaceDir containerImage : String) : Path :=
  pathOf workspaceDir ++ ["containers", HashString containerImage]

/-! ## The file system -/

/-- A file or a directory. `modTime` is in nanoseconds since the epoch. A directory lists its
names in the order in which `os.ReadDir` reports them, which is by name. -/
inductive Node where
  | file (content : String) (modTime : Int)
  | dir (names : List String) (modTime : Int)
deriving DecidableEq, Repr

/-- The file system: the node at each path, if any. -/
abbrev FS := Path → Option Node

inductive Errno where
  | ENOENT
  | ENOTDIR
  | EEXIST
  | EISDIR
  | ENOTEMPTY
deriving DecidableEq, Repr

/-- Go error values. -/
inductive Err where
  | path (op : String) (p : Path) (errno : Errno)
  | context (msg : String)
  | tool (msg : String)
  | wrapped (msg : String) (inner : Err)
deriving DecidableEq, Repr

/-- Function `os.IsNotExist`: it looks inside a path error, not inside an `fmt.Errorf` wrapper,
and holds for `ENOENT` only. -/
def IsNotExist : Err → Bool
  | .path _ _ .ENOENT => true
  | _ => false

/-- What `Stat` and `Info` report. -/
structure FileInfo where
  isDir : Bool
  size : Nat
  modTime : Int
deriving DecidableEq, Repr

/-- Method `time.Time.Unix`: whole seconds since the epoch. -/
def FileInfo.unix (fi : FileInfo) : Int := fi.modTime / 1000000000

def Node.isDir : Node → Bool
  | .dir _ _ => true
  | .file _ _ => false

/-- What `stat` reports for a node. The size a directory reports depends on the file system;
4096 stands for it. -/
def Node.info : Node → FileInfo
  | .file content t => ⟨false, content.utf8ByteSize, t⟩
  | .dir _ t => ⟨true, 4096, t⟩

/-- Whether a regular file sits at `p`. -/
def isFileAt (fs : FS) (p : Path) : Bool :=
  match fs p with
  | some (.file _ _) => true
  | _ => false

/-- Whether a directory sits at `p`. -/
def isDirAt (fs : FS) (p : Path) : Bool :=
  match fs p with
  | some (.dir _ _) => true
  | _ => false

/-- The nearest ancestor of a path that exists; the path is given reversed, last component
first. -/
def nearestAncestor (fs : FS) : List String → Option Node
  | [] => none
  | _ :: up =>
    match fs up.reverse with
    | some n => some n
    | none => nearestAncestor fs up

/-- The error of a lookup that finds nothing at `p`: the walk towards `p` stops below the
nearest ancestor that exists, with `ENOTDIR` when that is a regular file and `ENOENT` when it
is a directory. -/
def missingErrno (fs : FS) (p : Path) : Errno :=
  match nearestAncestor fs p.reverse with
  | some (.file _ _) => .ENOTDIR
  | _ => .ENOENT

/-- Function `os.Stat`. -/
def Stat (fs : FS) (p : Path) : Except Err FileInfo :=
  match fs p with
  | some n => .ok n.info
  | none => .error (.path "stat" p (missingErrno fs p))

/-- A directory entry: its name, whether `readdir` typed it as a directory, and what a later
`Info()` returns (`none` when it fails). -/
structure DirEntry where
  name : String
  isDir : Bool
  info : Option FileInfo
deriving DecidableEq, Repr

/-- The entry `ReadDir` builds for the name `name` of the directory `p`. -/
def dirEntry (fs : FS) (p : Path) (name : String) : DirEntry :=
  match fs (p ++ [name]) with
  | some n => ⟨name, n.isDir, some n.info⟩
  | none => ⟨name, false, none⟩

/-- Function `os.ReadDir`. -/
def ReadDir (fs : FS) (p : Path) : Except Err (List DirEntry) :=
  match fs p with
  | some (.dir names _) => .ok (names.map (dirEntry fs p))
  | some (.file _ _) => .error (.path "open" p .ENOTDIR)
  | none => .error (.path "open" p (missingErrno fs p))

/-! ## sort.Slice -/

/-- The contract of `sort.Slice`: the result is a rearrangement of the slice, in order for the
comparison. Nothing is promised about elements that compare equal. -/
structure SliceSort where
  apply : (DirEntry → DirEntry → Bool) → List DirEntry → List DirEntry
  perm : ∀ less xs, (apply less xs).Perm xs
  sorted : ∀ (key : DirEntry → Int) xs,
    (apply (fun a b => decide (key a < key b)) xs).Pairwise (fun a b => key a ≤ key b)

/-- The insertion step of Go's sort: `x` moves left past every element it is less than.
`rev` is the part already in order, last element first. -/
def insertLeft (less : DirEntry → DirEntry → Bool) (x : DirEntry) : List DirEntry → List DirEntry
  | [] => [x]
  | y :: ys => if less x y then y :: insertLeft less x ys else x :: y :: ys

/-- Insertion sort, which `sort.Slice` runs on a slice of at most 12 elements. -/
def insertionSort (less : DirEntry → DirEntry → Bool) (xs : List DirEntry) : List DirEntry :=
  (xs.foldl (fun rev x => insertLeft less x rev) []).reverse

/-- The sort that Go runs on short slices, as an instance of the contract. -/
def goSort : SliceSort where
  apply := insertionSort
  perm := by
    intro less xs
    have hins : ∀ (x : DirEntry) (l : List DirEntry), (insertLeft less x l).Perm (x :: l) := by
      intro x l
      induction l with
      | nil => simp [insertLeft]
      | cons y ys ih =>
        simp only [insertLeft]
        split
        · exact (List.Perm.cons y ih).trans (List.Perm.swap x y ys)
        · exact List.Perm.refl _
    have hfold : ∀ (ys acc : List DirEntry),
        (ys.foldl (fun rev x => insertLeft less x rev) acc).Perm (ys ++ acc) := by
      intro ys
      induction ys with
      | nil => intro acc; simp
      | cons x ys ih =>
        intro acc
        simp only [List.foldl_cons]
        refine (ih _).trans ?_
        refine (List.Perm.append_left ys (hins x acc)).trans ?_
        simp [List.perm_middle]
    unfold insertionSort
    refine (List.reverse_perm _).trans ?_
    simpa using hfold xs []
  sorted := by
    intro key xs
    have hins : ∀ (x : DirEntry) (l : List DirEntry),
        (insertLeft (fun a b => decide (key a < key b)) x l).Perm (x :: l) := by
      intro x l
      induction l with
      | nil => simp [insertLeft]
      | cons y ys ih =>
        simp only [insertLeft]
        split
        · exact (List.Perm.cons y ih).trans (List.Perm.swap x y ys)
        · exact List.Perm.refl _
    have hdesc : ∀ (x : DirEntry) (l : List DirEntry), l.Pairwise (fun a b => key b ≤ key a) →
        (insertLeft (fun a b => decide (key a < key b)) x l).Pairwise
          (fun a b => key b ≤ key a) := by
      intro x l
      induction l with
      | nil => intro _; simp [insertLeft]
      | cons y ys ih =>
        intro h
        simp only [insertLeft]
        rw [List.pairwise_cons] at h
        by_cases hxy : key x < key y
        · simp only [hxy, decide_True, if_true, List.pairwise_cons]
          refine ⟨?_, ih h.2⟩
          intro z hz
          rcases List.mem_cons.mp ((hins x ys).mem_iff.mp hz) with hz | hz
          · subst hz; omega
          · exact h.1 z hz
        · simp only [hxy, decide_False, Bool.false_eq_true, if_false, List.pairwise_cons]
          refine ⟨?_, h⟩
          intro z hz
          rcases List.mem_cons.mp hz with hz | hz
          · subst hz; omega
          · have := h.1 z hz; omega
    have hfold : ∀ (ys acc : List DirEntry), acc.Pairwise (fun a b => key b ≤ key a) →
        (ys.foldl (fun rev x => insertLeft (fun a b => decide (key a < key b)) x rev) acc).Pairwise
          (fun a b => key b ≤ key a) := by
      intro ys
      induction ys with
      | nil => intro acc h; simpa using h
      | cons x ys ih => intro acc h; exact ih _ (hdesc x acc h)
    unfold insertionSort
    rw [List.pairwise_reverse]
    exact hfold xs [] List.Pairwise.nil

/-! ## Collaborators, events and the world -/

/-- Struct `PullCredentials`. -/
structure PullCredentials where
  Username : String
  Password : String
deriving DecidableEq, Repr

/-- Method `PullCredentials.IsEmpty`. -/
def PullCredentials.IsEmpty (p : PullCredentials) : Bool := p.Username == "" && p.Password == ""

/-- Struct `PullOptions`. -/
structure PullOptions where
  Arch : String
  OS : String
  SrcImage : String
  DestImage : String
deriving DecidableEq, Repr

/-- A call the program makes on something outside it. -/
inductive Event where
  | logInfo (msg : String) (kv : List (String × String))
  | doChan (key : String)
  | pull (options : PullOptions)
  | unpack (rootless : Bool) (imagePath tag rootfsPath : String)
  | du (inputDir : String)
  | mke2fs (args : List String)
deriving DecidableEq, Repr

/-- What a run of an external tool left behind: the nodes at and below its destination, by
path relative to the destination, and its error. -/
structure ToolRun where
  tree : Path → Option Node
  err : Option String

/-- Everything the program reads from outside itself.
* `now`: the clock, stamped on every node the run writes.
* `isRoot`: the package variable set by `init`.
* `tempDirRandom`, `tempFileRandom`: the random part `os.MkdirTemp` and `os.CreateTemp` put
  in place of the `*` of their pattern.
* `pull`, `unpack`: the image copy and the layer unpacker. Each writes at and below its
  destination directory only.
* `du`: the combined output of `du -sk` and the error of the run.
* `mke2fs`: the contents `mke2fs` leaves in its output file (`none` when it leaves the file
  alone) and the error of the run.
* `ctxDone`: the error of the caller's context when the `select` of `CreateDiskImage` takes
  the `ctx.Done()` branch, `none` when it takes the result.
* `f2iOverflow`: the value of a conversion of an out-of-range float64 to int64, which Go
  leaves to the implementation. -/
structure Env where
  now : Int
  isRoot : Bool
  tempDirRandom : String
  tempFileRandom : String
  pull : PullOptions → ToolRun
  unpack : Bool → String → String → String → ToolRun
  du : String → String × Option String
  mke2fs : List String → Option String × Option String
  ctxDone : Option Err
  f2iOverflow : Int

/-- The file system, the calls made so far (oldest first) and the file system states the run
has gone through (oldest first; the state after every change). -/
structure World where
  fs : FS
  trace : List Event
  history : List FS

/-- Records a call. -/
def World.emit (w : World) (e : Event) : World := { w with trace := w.trace ++ [e] }

/-- Installs a new file system state. -/
def World.write (w : World) (fs : FS) : World := { w with fs := fs, history := w.history ++ [fs] }

/-- A world that starts at `fs`. -/
def World.start (fs : FS) : World := ⟨fs, [], [fs]⟩

/-! ## Operations of package os -/

/-- Puts `n` at `p`, or clears `p`. -/
def setNode (fs : FS) (p : Path) (n : Option Node) : FS := fun q => if q = p then n else fs q

/-- Lists `name` in the directory at `dir` and stamps the directory. -/
def addName (fs : FS) (dir : Path) (name : String) (now : Int) : FS :=
  match fs dir with
  | some (.dir names _) =>
    setNode fs dir (some (.dir (if name ∈ names then names else names ++ [name]) now))
  | _ => fs

/-- Drops `name` from the directory at `dir` and stamps the directory. -/
def removeName (fs : FS) (dir : Path) (name : String) (now : Int) : FS :=
  match fs dir with
  | some (.dir names _) => setNode fs dir (some (.dir (names.filter (fun x => x ≠ name)) now))
  | _ => fs

/-- System call `mkdir` of `name` in the directory `parent`. -/
def mkdirAt (env : Env) (w : World) (parent : Path) (name : String) : Option Err × World :=
  match w.fs (parent ++ [name]) with
  | some _ => (some (.path "mkdir" (parent ++ [name]) .EEXIST), w)
  | none =>
    match w.fs parent with
    | some (.dir _ _) =>
      (none, w.write (setNode (addName w.fs parent name env.now) (parent ++ [name])
        (some (.dir [] env.now))))
    | _ => (some (.path "mkdir" (parent ++ [name]) (missingErrno w.fs (parent ++ [name]))), w)

/-- The recursion of `os.MkdirAll`, on the path reversed: a directory that is there ends it,
a file is an error, and otherwise the parent is made first and then the directory. -/
def MkdirAllRev (env : Env) : List String → World → Option Err × World
  | [], w => (none, w)
  | name :: up, w =>
    match w.fs (up.reverse ++ [name]) with
    | some (.dir _ _) => (none, w)
    | some (.file _ _) => (some (.path "mkdir" (up.reverse ++ [name]) .ENOTDIR), w)
    | none =>
      match MkdirAllRev env up w with
      | (some err, w) => (some err, w)
      | (none, w) => mkdirAt env w up.reverse name

/-- Function `os.MkdirAll`. -/
def MkdirAll (env : Env) (w : World) (p : Path) : Option Err × World :=
  if p = [] then (some (.path "mkdir" p .ENOENT), w) else MkdirAllRev env p.reverse w

/-- The lookup of the components of a directory name as the system makes it, where it differs
from the pass of `filepath.Clean`: a `..` is looked up in the directory reached so far, which
has to be there. `rev` holds the components of that directory below `root`, last first. The
result is the error of the lookup, `none` when there is none; the directory reached is then
the one `filepath.Clean` names (there are no symbolic links here). -/
def lookupRev (fs : FS) (root : Path) : List String → List String → Option Errno
  | [], _ => none
  | c :: cs, rev =>
    if c = "" ∨ c = "." then lookupRev fs root cs rev
    else if c = ".." then
      match rev with
      | [] => lookupRev fs root cs (if root = [] then [".."] else [])
      | top :: rest =>
        if top = ".." then lookupRev fs root cs (".." :: top :: rest)
        else
          match fs (root ++ (top :: rest).reverse) with
          | some (.dir _ _) => lookupRev fs root cs rest
          | some (.file _ _) => some .ENOTDIR
          | none => some (missingErrno fs (root ++ (top :: rest).reverse))
    else lookupRev fs root cs (c :: rev)

/-- The error of the lookup of the directory that the Go string `dir` names, `none` when the
lookup reaches `pathOf dir`. -/
def lookupErr (fs : FS) (dir : String) : Option Errno :=
  match dir.data with
  | '/' :: cs => lookupRev fs [""] (splitAt '/' cs []) []
  | cs => lookupRev fs [] (splitAt '/' cs []) []

/-- Function `os.IsExist`. -/
def IsExist : Err → Bool
  | .path _ _ .EEXIST => true
  | _ => false

/-- The loop of `os.MkdirTemp` in the directory at `dir`. The name that is tried is the final
one, so that a name that exists ends in the error Go gives when it runs out of attempts; when
`mkdir` fails with not-exist and so does `os.Stat(dir)`, the error of `os.Stat` is the
result. -/
def mkdirTempAt (env : Env) (w : World) (dir : Path) (pre suf : String) :
    (Path × Option Err) × World :=
  let name := pre ++ env.tempDirRandom ++ suf
  match mkdirAt env w dir name with
  | (none, w) => ((dir ++ [name], none), w)
  | (some err, w) =>
    if IsExist err then (([], some (.path "mkdirtemp" (dir ++ [pre ++ "*" ++ suf]) .EEXIST)), w)
    else if IsNotExist err then
      match Stat w.fs dir with
      | .error serr => if IsNotExist serr then (([], some serr), w) else (([], some err), w)
      | .ok _ => (([], some err), w)
    else (([], some err), w)

/-- Function `os.MkdirTemp(dir, pre + "*" + suf)`. For an empty `dir` Go takes
`os.TempDir()`; the embedding takes that to be the current directory (`TMPDIR=.`), which
`pathOf ""` names. -/
def MkdirTemp (env : Env) (w : World) (dir : String) (pre suf : String) :
    (Path × Option Err) × World :=
  match lookupErr w.fs dir with
  | some .ENOENT => (([], some (.path "stat" (pathOf dir) .ENOENT)), w)
  | some errno =>
    (([], some (.path "mkdir" (pathOf dir ++ [pre ++ env.tempDirRandom ++ suf]) errno)), w)
  | none => mkdirTempAt env w (pathOf dir) pre suf

/-- The loop of `os.CreateTemp` in the directory at `dir`: a new empty file. -/
def createTempAt (env : Env) (w : World) (dir : Path) (pre suf : String) :
    (Path × Option Err) × World :=
  let name := pre ++ env.tempFileRandom ++ suf
  match w.fs (dir ++ [name]) with
  | some _ => (([], some (.path "createtemp" (dir ++ [pre ++ "*" ++ suf]) .EEXIST)), w)
  | none =>
    match w.fs dir with
    | some (.dir _ _) =>
      ((dir ++ [name], none),
        w.write (setNode (addName w.fs dir name env.now) (dir ++ [name]) (some (.file "" env.now))))
    | _ => (([], some (.path "open" (dir ++ [name]) (missingErrno w.fs (dir ++ [name])))), w)

/-- Function `os.CreateTemp(dir, pre + "*" + suf)`, with an empty `dir` taken as in
`MkdirTemp`. -/
def CreateTemp (env : Env) (w : World) (dir : String) (pre suf : String) :
    (Path × Option Err) × World :=
  match lookupErr w.fs dir with
  | some errno =>
    (([], some (.path "open" (pathOf dir ++ [pre ++ env.tempFileRandom ++ suf]) errno)), w)
  | none => createTempAt env w (pathOf dir) pre suf

/-- Function `os.RemoveAll`: the node at `p` and everything below it go. -/
def RemoveAll (env : Env) (w : World) (p : Path) : World :=
  match w.fs p, p.getLast? with
  | some _, some name =>
    w.write (fun q => if p.isPrefixOf q then none else removeName w.fs p.dropLast name env.now q)
  | _, _ => w

/-- Function `os.Rename`: the node at `oldpath`, with everything below it, moves to `newpath`
and replaces what is there. -/
def Rename (env : Env) (w : World) (oldpath newpath : Path) : Option Err × World :=
  match w.fs oldpath, oldpath.getLast?, newpath.getLast? with
  | some n, some oldName, some newName =>
    match w.fs newpath.dropLast with
    | some (.dir _ _) =>
      match n, w.fs newpath with
      | .file _ _, some (.dir _ _) => (some (.path "rename" newpath .EISDIR), w)
      | .dir _ _, some (.file _ _) => (some (.path "rename" newpath .ENOTDIR), w)
      | .dir _ _, some (.dir (_ :: _) _) => (some (.path "rename" newpath .ENOTEMPTY), w)
      | _, _ =>
        let fs2 := addName (removeName w.fs oldpath.dropLast oldName env.now)
          newpath.dropLast newName env.now
        (none, w.write (fun q =>
          if newpath.isPrefixOf q then w.fs (oldpath ++ q.drop newpath.length)
          else if oldpath.isPrefixOf q then none
          else fs2 q))
    | _ => (some (.path "rename" newpath (missingErrno w.fs newpath)), w)
  | none, _, _ => (some (.path "rename" oldpath (missingErrno w.fs oldpath)), w)
  | _, _, _ => (some (.path "rename" oldpath .ENOENT), w)

/-- The file system after a tool wrote `tree` at and below `dest`. -/
def graft (fs : FS) (dest : Path) (tree : Path → Option Node) : FS :=
  fun q => if dest.isPrefixOf q then tree (q.drop dest.length) else fs q

/-- The file system after a tool wrote `content` to the file at `p`. -/
def writeFile (fs : FS) (p : Path) (content : String) (now : Int) : FS :=
  match fs p.dropLast, p.getLast? with
  | some (.dir _ _), some name => setNode (addName fs p.dropLast name now) p (some (.file content now))
  | _, _ => fs

/-! ## Package disk -/

/-- Function `disk.EnsureDirectoryExists`. -/
def EnsureDirectoryExists (env : Env) (w : World) (dir : Path) : Option Err × World :=
  match Stat w.fs dir with
  | .error err => if IsNotExist err then MkdirAll env w dir else (none, w)
  | .ok _ => (none, w)

/-- Function `disk.FileExists`. -/
def FileExists (fs : FS) (fullPath : Path) : Bool × Option Err :=
  match Stat fs fullPath with
  | .ok _ => (true, none)
  | .error err => if IsNotExist err then (false, none) else (false, some err)

/-! ## Machine arithmetic -/

/-- Truncation of an integer to int64, as Go's integer arithmetic wraps. -/
def wrap64 (x : Int) : Int := (x + 9223372036854775808) % 18446744073709551616 - 9223372036854775808

/-- The number of binary digits of `n`, with `fuel` steps at most. -/
def bitLengthAux : Nat → Nat → Nat
  | 0, _ => 0
  | fuel + 1, n => if n = 0 then 0 else bitLengthAux fuel (n / 2) + 1

/-- The number of binary digits of `n`. -/
def bitLength (n : Nat) : Nat := bitLengthAux n n

/-- Rounding of the magnitude `n * 2^e` to a binary64 value, `m * 2^e'` with `m` below
`2^53`: to nearest, ties to even. (No magnitude that occurs here leaves the exponent range.) -/
def roundF64 (n : Nat) (e : Int) : Nat × Int :=
  let bits := bitLength n
  if bits ≤ 53 then (n, e)
  else
    let sh := bits - 53
    let q := n / 2 ^ sh
    let r := n % 2 ^ sh
    let half := 2 ^ (sh - 1)
    (if half < r ∨ (r = half ∧ q % 2 = 1) then q + 1 else q, e + sh)

/-- The significand of the float64 constant `1.2`, which is `5404319552844595 * 2^-52`. -/
def f64_1_2 : Nat := 5404319552844595

/-- Expression `int64(float64(x)*1.2)`: the conversion to float64 rounds, the product
rounds, and the conversion back truncates towards zero. -/
def scaleBy1_2 (env : Env) (x : Int) : Int :=
  let a := roundF64 x.natAbs 0
  let b := roundF64 (a.1 * f64_1_2) (a.2 - 52)
  let mag : Nat := if 0 ≤ b.2 then b.1 * 2 ^ b.2.toNat else b.1 / 2 ^ (-b.2).toNat
  let v : Int := if x < 0 then -(mag : Int) else mag
  if v < -9223372036854775808 ∨ 9223372036854775808 ≤ v then env.f2iOverflow else v

/-- Function `strconv.Atoi`: an optional sign and decimal digits, within the range of int. -/
def Atoi (s : String) : Option Int :=
  let (neg, digits) :=
    match s.data with
    | '-' :: r => (true, r)
    | '+' :: r => (false, r)
    | r => (false, r)
  if digits = [] ∨ ¬ digits.all Char.isDigit then none
  else
    let n : Nat := digits.foldl (fun a c => 10 * a + (c.toNat - 48)) 0
    let v : Int := if neg then -(n : Int) else n
    if v < -9223372036854775808 ∨ 9223372036854775807 < v then none else some v

/-! ## Package ext4 -/

/-- Function `ext4.DiskSizeBytes`. -/
def DiskSizeBytes (env : Env) (w : World) (inputDir : Path) : (Int × Option Err) × World :=
  let w := w.emit (.du (render inputDir))
  match env.du (render inputDir) with
  | (out, some err) => ((0, some (.wrapped ("failed to run du -sk: " ++ out) (.tool err))), w)
  | (out, none) =>
    match splitAt '\t' out.data [] with
    | [size, _] =>
      match Atoi size with
      | none => ((0, some (.tool "du output did not match SIZE /file/path")), w)
      | some s => ((wrap64 (s * 1000), none), w)
    | _ => ((0, some (.tool "du output did not match SIZE /file/path")), w)

/-- Function `ext4.checkImageOutputPath`. -/
def checkImageOutputPath (fs : FS) (path : Path) : Option Err :=
  match Stat fs path with
  | .error err =>
    if IsNotExist err then none
    else some (.wrapped ("failed to stat output path: " ++ render path) err)
  | .ok stat =>
    if stat.size > 0 then some (.tool ("failed to stat output path: " ++ render path ++
      ", file already exists"))
    else none

/-- The size argument of `mke2fs`: `fmt.Sprintf("%dK", sizeBytes/1e3)`, an integer division
that truncates towards zero. -/
def sizeArg (sizeBytes : Int) : String := toString (Int.tdiv sizeBytes 1000) ++ "K"

/-- A run of `mke2fs` with the arguments `args`, which writes to `outputFile`; the result is
the error of the run. -/
def runMke2fs (env : Env) (w : World) (args : List String) (outputFile : Path) :
    Option String × World :=
  match env.mke2fs args with
  | (some content, err) =>
    (err, ((w.emit (.mke2fs args)).write (writeFile w.fs outputFile content env.now)))
  | (none, err) => (err, w.emit (.mke2fs args))

/-- Function `ext4.DirectoryToImage`. -/
def DirectoryToImage (env : Env) (w : World) (inputDir outputFile : Path) (sizeBytes : Int) :
    Option Err × World :=
  match checkImageOutputPath w.fs outputFile with
  | some err => (some err, w)
  | none =>
    match runMke2fs env w ["/sbin/mke2fs", "-L", "''", "-N", "0", "-d", render inputDir,
        "-m", "5", "-r", "1", render outputFile, sizeArg sizeBytes] outputFile with
    | (some err, w) => (some (.wrapped "failed to run mke2fs" (.tool err)), w)
    | (none, w) => (none, w)

/-- Function `ext4.MakeEmptyImage`. -/
def MakeEmptyImage (env : Env) (w : World) (outputFile : Path) (sizeBytes : Int) :
    Option Err × World :=
  match checkImageOutputPath w.fs outputFile with
  | some err => (some err, w)
  | none =>
    match runMke2fs env w ["/sbin/mke2fs", "-L", "", "-N", "0", "-O", "^64bit", "-m", "5",
        "-r", "1", "-t", "ext4", render outputFile, sizeArg sizeBytes] outputFile with
    | (some err, w) => (some (.wrapped "failed to run mke2fs" (.tool err)), w)
    | (none, w) => (none, w)

/-- The size `DirectoryToImageAutoSize` picks:
`imageSizeBytes := int64(float64(dirSizeBytes)*1.2) + 1000000`. -/
def imageSizeBytes (env : Env) (dirSizeBytes : Int) : Int :=
  wrap64 (scaleBy1_2 env dirSizeBytes + 1000000)

/-- Function `ext4.DirectoryToImageAutoSize`. -/
def DirectoryToImageAutoSize (env : Env) (w : World) (inputDir outputFile : Path) :
    Option Err × World :=
  match DiskSizeBytes env w inputDir with
  | ((_, some err), w) => (some err, w)
  | ((dirSizeBytes, none), w) =>
    DirectoryToImage env w inputDir outputFile (imageSizeBytes env dirSizeBytes)

/-! ## Package rootfs -/

/-- Method `ImagePuller.Pull`, the image source fetcher: it copies the image that
`options.SrcImage` names into the layout that `options.DestImage` names. `dest` is the
directory of that layout. -/
def Pull (env : Env) (w : World) (options : PullOptions) (dest : Path) : Option Err × World :=
  let w := w.emit (.pull options)
  let run := env.pull options
  let w := w.write (graft w.fs dest run.tree)
  (run.err.map Err.tool, w)

/-- The split of `unrawpack`: at the first `:`, the text before it and the text after it; the
whole text and `latest` when there is none. -/
def splitImage (image : String) : String × String :=
  match image.data.span (fun c => c ≠ ':') with
  | (before, _ :: after) => (String.mk before, String.mk after)
  | (before, []) => (String.mk before, "latest")

/-- Function `unrawpack`, the root file system unpacker: it opens the layout at `imagePath`,
resolves `tag` and unpacks into `rootfsPath`. `rootfs` is the directory `rootfsPath` names. -/
def unrawpack (env : Env) (w : World) (rootless : Bool) (image rootfsPath : String)
    (rootfs : Path) : Option Err × World :=
  let imagePath := (splitImage image).1
  let tag := (splitImage image).2
  let w := w.emit (.unpack rootless imagePath tag rootfsPath)
  let run := env.unpack rootless imagePath tag rootfsPath
  let w := w.write (graft w.fs rootfs run.tree)
  (run.err.map Err.tool, w)

/-- The body of `pullContainerToExt4FS` once the temporary directory is made, that is, under
the deferred `os.RemoveAll(rootUnpackDir)`. -/
def pullContainerToExt4FSBody (env : Env) (w : World) (srcImage workspaceDir : String)
    (rootUnpackDir : Path) : (Path × Option Err) × World :=
  let ociImageDir := rootUnpackDir ++ ["image"]
  match EnsureDirectoryExists env w ociImageDir with
  | (some serr, w) =>
    (([], some (.wrapped ("failed to create directory: " ++ render ociImageDir) serr)), w)
  | (none, w) =>
    let ociOutputRef := "oci:" ++ render ociImageDir ++ ":latest"
    match Pull env w { SrcImage := srcImage, DestImage := ociOutputRef, OS := "linux", Arch := "" }
        ociImageDir with
    | (some err, w) =>
      (([], some (.wrapped ("failed to pull image, src: " ++ srcImage ++ ", dest: " ++
        ociOutputRef) err)), w)
    | (none, w) =>
      let w := w.emit (.logInfo "Unpacking OCI image" [("image", srcImage)])
      let rootFSDir := rootUnpackDir ++ ["rootfs"]
      match EnsureDirectoryExists env w rootFSDir with
      | (some serr, w) =>
        (([], some (.wrapped ("failed to create rootfs directory: " ++ render rootFSDir) serr)), w)
      | (none, w) =>
        match unrawpack env w (!env.isRoot) (render ociImageDir) (render rootFSDir) rootFSDir with
        | (some err, w) => (([], some (.wrapped "failed to unpack OCI image" err)), w)
        | (none, w) =>
          match CreateTemp env w workspaceDir "containerfs-" ".ext4" with
          | ((_, some err), w) =>
            (([], some (.wrapped ("failed to create temp file: " ++ workspaceDir) err)), w)
          | ((imageFile, none), w) =>
            match DirectoryToImageAutoSize env w rootFSDir imageFile with
            | (some serr, w) => (([], some serr), w)
            | (none, w) => ((imageFile, none), w)

/-- Function `Builder.pullContainerToExt4FS`. -/
def pullContainerToExt4FS (env : Env) (w : World) (srcImage workspaceDir : String) :
    (Path × Option Err) × World :=
  let w := w.emit (.logInfo "pull image" [("src", srcImage)])
  match MkdirTemp env w workspaceDir "container-unpack-" "" with
  | ((_, some err), w) => (([], some err), w)
  | ((rootUnpackDir, none), w) =>
    let r := pullContainerToExt4FSBody env w srcImage workspaceDir rootUnpackDir
    (r.1, RemoveAll env r.2 rootUnpackDir)

/-- Function `Builder.hashFile`: the digest of the whole file, in lowercase hexadecimal. -/
def hashFile (fs : FS) (filename : Path) : String × Option Err :=
  match fs filename with
  | some (.file content _) => (hexString (Sha256.sum (bytesOf content)), none)
  | some (.dir _ _) => ("", some (.path "read" filename .EISDIR))
  | none => ("", some (.path "open" filename (missingErrno fs filename)))

/-- Function `Builder.createExt4Image`. -/
def createExt4Image (env : Env) (w : World) (workspaceDir containerImage : String) :
    (Path × Option Err) × World :=
  let containerImagesPath := getLocalImagePath workspaceDir containerImage
  match pullContainerToExt4FS env w containerImage workspaceDir with
  | ((_, some err), w) => (([], some err), w)
  | ((tmpImagePath, none), w) =>
    match hashFile w.fs tmpImagePath with
    | (_, some err) => (([], some err), w)
    | (imageHash, none) =>
      let containerImageHome := containerImagesPath ++ [imageHash]
      let w := w.emit (.logInfo "pulled image"
        [("path", render tmpImagePath), ("rootfs-path", render containerImageHome)])
      match EnsureDirectoryExists env w containerImageHome with
      | (some serr, w) => (([], some serr), w)
      | (none, w) =>
        let containerImagePath := containerImageHome ++ [diskImageFileName]
        match Rename env w tmpImagePath containerImagePath with
        | (some serr, w) => (([], some serr), w)
        | (none, w) => ((containerImagePath, none), w)

/-- The key of the comparison in `cachedDiskImagePath`: `fi.ModTime().Unix()`, and 0 when
`Info()` fails. -/
def modUnix (e : DirEntry) : Int :=
  match e.info with
  | some fi => fi.unix
  | none => 0

/-- The comparison passed to `sort.Slice`: `iUnix < jUnix`. -/
def lessByModTime (a b : DirEntry) : Bool := decide (modUnix a < modUnix b)

/-- Function `Builder.cachedDiskImagePath`. The result is the pair `(string, error)`; the
empty path is the empty string. -/
def cachedDiskImagePath (S : SliceSort) (w : World) (workspaceDir containerImage : String) :
    (Path × Option Err) × World :=
  let containerImagesPath := getLocalImagePath workspaceDir containerImage
  match ReadDir w.fs containerImagesPath with
  | .error err => if IsNotExist err then (([], none), w) else (([], some err), w)
  | .ok files =>
    if files.length = 0 then (([], none), w)
    else
      match (S.apply lessByModTime files).getLast? with
      | none => (([], none), w)
      | some last =>
        let diskImagePath := containerImagesPath ++ [last.name, diskImageFileName]
        let w := w.emit (.logInfo "check image cache" [("path", render diskImagePath)])
        match FileExists w.fs diskImagePath with
        | (_, some err) => (([], some err), w)
        | (false, none) => (([], none), w)
        | (true, none) => ((diskImagePath, none), w)

/-- Function `Builder.CreateDiskImage`, for one caller and no conversion in flight:
`DoChan` then starts the function it is given, which runs to its end whatever the caller's
context does, and the `select` returns the context's error or the result. -/
def CreateDiskImage (S : SliceSort) (env : Env) (w : World) (workspaceDir containerImage : String)
    (creds : PullCredentials) : (Path × Option Err) × World :=
  match cachedDiskImagePath S w workspaceDir containerImage with
  | ((_, some err), w) => (([], some err), w)
  | ((existingPath, none), w) =>
    if existingPath ≠ [] then ((existingPath, none), w)
    else
      let conversionOpKey :=
        singleflightKey [workspaceDir, containerImage, creds.Username, creds.Password]
      let w := w.emit (.doChan conversionOpKey)
      let res := createExt4Image env w workspaceDir containerImage
      match env.ctxDone with
      | some err => (([], some err), res.2)
      | none =>
        match res.1 with
        | (_, some err) => (([], some err), res.2)
        | (val, none) => ((val, none), res.2)

/-! ## States, collaborators and predicates of the theorems -/

/-- A file system given by the list of its nodes. -/
def fsOf (nodes : List (Path × Node)) : FS := fun p => nodes.lookup p

/-- State (a): nothing is at the entry path, and the lookup reports that it does not exist. -/
def entryMissing (fs : FS) (entry : Path) : Prop :=
  fs entry = none ∧ missingErrno fs entry = .ENOENT

/-- State (b): the entry directory is there and lists nothing. -/
def entryEmpty (fs : FS) (entry : Path) : Prop := ∃ t, fs entry = some (.dir [] t)

/-- The modification time of the node at `p`, in nanoseconds; 0 when nothing is there. -/
def modTimeAt (fs : FS) (p : Path) : Int :=
  match fs p with
  | some n => n.info.modTime
  | none => 0

/-- State (c) as the claim words it: among the subdirectories of the entry directory, one
that no other was modified after is there and holds no `containerfs.ext4`. -/
def newestSubdirLacksImage (fs : FS) (entry : Path) : Prop :=
  ∃ names t, fs entry = some (.dir names t) ∧
    ∃ d ∈ names, isDirAt fs (entry ++ [d]) = true ∧
      (∀ d' ∈ names, isDirAt fs (entry ++ [d']) = true →
        modTimeAt fs (entry ++ [d']) ≤ modTimeAt fs (entry ++ [d])) ∧
      fs (entry ++ [d, diskImageFileName]) = none

/-- State (c) as the code reads it: every entry of the entry directory, of any kind, that no
other entry comes after in whole seconds of modification time is a directory and holds no
`containerfs.ext4`. -/
def newestEntriesLackImage (fs : FS) (entry : Path) : Prop :=
  ∃ names t, fs entry = some (.dir names t) ∧ names ≠ [] ∧
    ∀ n ∈ names,
      (∀ n' ∈ names, modUnix (dirEntry fs entry n') ≤ modUnix (dirEntry fs entry n)) →
      isDirAt fs (entry ++ [n]) = true ∧ fs (entry ++ [n, diskImageFileName]) = none

/-- The workspace `/ws` in which `containers` is a regular file. -/
def containersIsFileFS : FS := fsOf [
  ([""], .dir ["ws"] 0),
  (["", "ws"], .dir ["containers"] 0),
  (["", "ws", "containers"], .file "x" 0)]

/-- The entry directory of `img` in `/ws` with the empty subdirectory `aaa`, modified at
second 100, and the regular file `zzz`, modified at second 200. -/
def staleFileFS : FS := fsOf [
  ([""], .dir ["ws"] 0),
  (["", "ws"], .dir ["containers"] 0),
  (["", "ws", "containers"], .dir [HashString "img"] 0),
  (getLocalImagePath "/ws" "img", .dir ["aaa", "zzz"] 0),
  (getLocalImagePath "/ws" "img" ++ ["aaa"], .dir [] 100000000000),
  (getLocalImagePath "/ws" "img" ++ ["zzz"], .file "x" 200000000000)]

/-- A workspace `/ws` that is there and empty. -/
def emptyWorkspaceFS : FS := fsOf [([""], .dir ["ws"] 0), (["", "ws"], .dir [] 0)]

/-- A state of kind (b): the entry directory of `img` in `/ws` is there and lists nothing. -/
def emptyEntryFS : FS := fsOf [
  ([""], .dir ["ws"] 0),
  (["", "ws"], .dir ["containers"] 0),
  (["", "ws", "containers"], .dir [HashString "img"] 0),
  (getLocalImagePath "/ws" "img", .dir [] 0)]

/-- A state of kind (c): the entry directory holds one empty subdirectory. -/
def interruptedBuildFS : FS := fsOf [
  ([""], .dir ["ws"] 0),
  (["", "ws"], .dir ["containers"] 0),
  (["", "ws", "containers"], .dir [HashString "img"] 0),
  (getLocalImagePath "/ws" "img", .dir ["aaa"] 0),
  (getLocalImagePath "/ws" "img" ++ ["aaa"], .dir [] 100000000000)]

/-- The entry directory of `img` in `/ws` with a cached image under `aaa`, modified at
second 100, and the regular file `zzz`, modified at second 200. -/
def strayFileFS : FS := fsOf [
  ([""], .dir ["ws"] 0),
  (["", "ws"], .dir ["containers"] 0),
  (["", "ws", "containers"], .dir [HashString "img"] 0),
  (getLocalImagePath "/ws" "img", .dir ["aaa", "zzz"] 0),
  (getLocalImagePath "/ws" "img" ++ ["aaa"], .dir [diskImageFileName] 100000000000),
  (getLocalImagePath "/ws" "img" ++ ["aaa", diskImageFileName], .file "IMAGE" 100000000000),
  (getLocalImagePath "/ws" "img" ++ ["zzz"], .file "x" 200000000000)]

/-- Name `n` is listed in the directory `entry`, and no listed entry comes after it in whole
seconds of modification time: it is an entry that `sort.Slice` can leave last. -/
def sortsLast (fs : FS) (entry : Path) (n : String) : Prop :=
  ∃ names t, fs entry = some (.dir names t) ∧ n ∈ names ∧
    ∀ n' ∈ names, modUnix (dirEntry fs entry n') ≤ modUnix (dirEntry fs entry n)

/-- The entry directory of `img` in `/ws` with two cached images: under `aaa`, modified at
second 100.9, and under `bbb`, modified at second 100.1 and listed after `aaa`. -/
def sameSecondFS : FS := fsOf [
  ([""], .dir ["ws"] 0),
  (["", "ws"], .dir ["containers"] 0),
  (["", "ws", "containers"], .dir [HashString "img"] 0),
  (getLocalImagePath "/ws" "img", .dir ["aaa", "bbb"] 0),
  (getLocalImagePath "/ws" "img" ++ ["aaa"], .dir [diskImageFileName] 100900000000),
  (getLocalImagePath "/ws" "img" ++ ["aaa", diskImageFileName], .file "NEWER" 100900000000),
  (getLocalImagePath "/ws" "img" ++ ["bbb"], .dir [diskImageFileName] 100100000000),
  (getLocalImagePath "/ws" "img" ++ ["bbb", diskImageFileName], .file "OLDER" 100100000000)]

/-- The entry directory of `img` in `/ws` with two cached images: under `aaa`, modified at
second 200, and under `bbb`, modified at second 100. -/
def twoImagesFS : FS := fsOf [
  ([""], .dir ["ws"] 0),
  (["", "ws"], .dir ["containers"] 0),
  (["", "ws", "containers"], .dir [HashString "img"] 0),
  (getLocalImagePath "/ws" "img", .dir ["aaa", "bbb"] 0),
  (getLocalImagePath "/ws" "img" ++ ["aaa"], .dir [diskImageFileName] 200000000000),
  (getLocalImagePath "/ws" "img" ++ ["aaa", diskImageFileName], .file "SECOND" 200000000000),
  (getLocalImagePath "/ws" "img" ++ ["bbb"], .dir [diskImageFileName] 100000000000),
  (getLocalImagePath "/ws" "img" ++ ["bbb", diskImageFileName], .file "FIRST" 100000000000)]

/-- World `w'` continues `w`: the calls added satisfy `Q`, and the states added, like the
final state, differ from the state of `w` inside `T` only. -/
def Step (T : Path → Prop) (Q : Event → Prop) (w w' : World) : Prop :=
  (∃ es, w'.trace = w.trace ++ es ∧ ∀ e ∈ es, Q e) ∧
  (∃ hs, w'.history = w.history ++ hs ∧ ∀ fs ∈ hs, ∀ q, ¬ T q → fs q = w.fs q) ∧
  (∀ q, ¬ T q → w'.fs q = w.fs q)

/-- Whether `q` lies at or below `<workspace>/containers`. -/
def inCache (workspaceDir : String) (q : Path) : Prop :=
  (pathOf workspaceDir ++ ["containers"]) <+: q

/-- The options of the image copy in `pullContainerToExt4FS`. -/
def pipelinePullOptions (env : Env) (workspaceDir srcImage : String) : PullOptions :=
  { SrcImage := srcImage,
    DestImage := ("oci:" ++ render (pathOf workspaceDir ++
      ["container-unpack-" ++ env.tempDirRandom ++ ""] ++ ["image"]) ++ ":latest"),
    OS := "linux",
    Arch := "" }

/-- The calls the pipeline makes for `srcImage` in `workspaceDir`: never `DoChan`, and an
image copy with these options only. -/
def pipelineCall (env : Env) (workspaceDir srcImage : String) : Event → Prop
  | .doChan _ => False
  | .pull o => o = pipelinePullOptions env workspaceDir srcImage
  | _ => True

/-- Collaborators that all succeed: the image copy leaves `index.json`, the unpacker leaves
`bin`, `du` measures 12 blocks and `mke2fs` writes `IMAGE`. -/
def demoEnv : Env where
  now := 5000000000
  isRoot := false
  tempDirRandom := "123"
  tempFileRandom := "456"
  pull := fun _ => ⟨fsOf [([], .dir ["index.json"] 1), (["index.json"], .file "x" 1)], none⟩
  unpack := fun _ _ _ _ => ⟨fsOf [([], .dir ["bin"] 1), (["bin"], .dir [] 1)], none⟩
  du := fun _ => ("12\t/ws/container-unpack-123/rootfs\n", none)
  mke2fs := fun _ => (some "IMAGE", none)
  ctxDone := none
  f2iOverflow := -9223372036854775808

/-- The entry directory of `img` in `/ws` with one cached image, under `aaa`. -/
def cachedFS : FS := fsOf [
  ([""], .dir ["ws"] 0),
  (["", "ws"], .dir ["containers"] 0),
  (["", "ws", "containers"], .dir [HashString "img"] 0),
  (getLocalImagePath "/ws" "img", .dir ["aaa"] 0),
  (getLocalImagePath "/ws" "img" ++ ["aaa"], .dir [diskImageFileName] 100000000000),
  (getLocalImagePath "/ws" "img" ++ ["aaa", diskImageFileName], .file "IMAGE" 100000000000)]

/-- The options of the image copies among `es`. -/
def pullCalls (es : List Event) : List PullOptions :=
  es.filterMap fun e =>
    match e with
    | .pull o => some o
    | _ => none

/-- The name of the content-digest directory of a run of `createExt4Image`: the digest that
`hashFile` computes of the file the conversion step returns. -/
def builtImageHash (env : Env) (w : World) (workspaceDir containerImage : String) : String :=
  (hashFile (pullContainerToExt4FS env w containerImage workspaceDir).2.fs
    (pullContainerToExt4FS env w containerImage workspaceDir).1.1).1

/-- Every subdirectory of `entry` holds a file `containerfs.ext4`. -/
def subdirsHoldImage (fs : FS) (entry : Path) : Prop :=
  ∀ name, isDirAt fs (entry ++ [name]) = true →
    isFileAt fs (entry ++ [name, diskImageFileName]) = true

/-- Every subdirectory of `entry`, the one named `d` apart, holds a file
`containerfs.ext4`. -/
def subdirsHoldImageBut (d : String) (fs : FS) (entry : Path) : Prop :=
  ∀ name, isDirAt fs (entry ++ [name]) = true →
    isFileAt fs (entry ++ [name, diskImageFileName]) = true ∨ name = d

/-- The paths of the subdirectories of `entry` other than `d`, and of their image files. -/
def otherSubdirPath (entry : Path) (d : String) (q : Path) : Prop :=
  ∃ name, name ≠ d ∧ (q = entry ++ [name] ∨ q = entry ++ [name, diskImageFileName])

/-- States `fs` and `fs0` hold the same nodes on `R`. -/
def AgreeOn (R : Path → Prop) (fs0 fs : FS) : Prop := ∀ q, R q → fs q = fs0 q

/-- Nothing is at the entry path, nor below it. -/
def entryAbsent (fs : FS) (entry : Path) : Prop := ∀ q, entry <+: q → fs q = none

/-- The entry directory is there and lists nothing, and nothing is below it. -/
def entryVacant (fs : FS) (entry : Path) : Prop :=
  (∃ t, fs entry = some (.dir [] t)) ∧ ∀ q, entry <+: q → q ≠ entry → fs q = none

/-- Collaborators like those of `demoEnv`, with a `du` that measures 100000000000005 blocks. -/
def hugeDirEnv : Env := { demoEnv with du := fun _ => ("100000000000005\t/data\n", none) }

/-- The workspace `/ws` with the image `out.ext4`, which is not empty, and the empty file
`new.ext4`. -/
def outputFilesFS : FS := fsOf [
  ([""], .dir ["ws"] 0),
  (["", "ws"], .dir ["new.ext4", "out.ext4"] 0),
  (["", "ws", "new.ext4"], .file "" 0),
  (["", "ws", "out.ext4"], .file "IMAGE" 0)]

/-- The entry directory of `img` in `/ws` with the regular file `README` and nothing else. -/
def loneFileFS : FS := fsOf [
  ([""], .dir ["ws"] 0),
  (["", "ws"], .dir ["containers"] 0),
  (["", "ws", "containers"], .dir [HashString "img"] 0),
  (getLocalImagePath "/ws" "img", .dir ["README"] 0),
  (getLocalImagePath "/ws" "img" ++ ["README"], .file "x" 100000000000)]

/-- The string that `singleflightKey` passes to its final `HashString`: the value of `h` when
the loop ends, the digests of the arguments one after the other. -/
def keyMaterial (args : List String) : String := args.foldl (fun h s => h ++ HashString s) ""

/-- Whether `c` is one of `0` to `9` or `a` to `f`. -/
def isLowerHex (c : Char) : Bool :=
  (48 ≤ c.toNat && c.toNat ≤ 57) || (97 ≤ c.toNat && c.toNat ≤ 102)

/-- The calls of the unpacker among `es`: rootless, image path, tag and destination. -/
def unpackCalls (es : List Event) : List (Bool × String × String × String) :=
  es.filterMap fun e =>
    match e with
    | .unpack r p t d => some (r, p, t, d)
    | _ => none

/-- The temporary directory that `pullContainerToExt4FS` makes in `workspaceDir`. -/
def stagingDir (env : Env) (workspaceDir : String) : Path :=
  pathOf workspaceDir ++ ["container-unpack-" ++ env.tempDirRandom ++ ""]

/-- Calls in which the image copy and the unpacker agree: a copy is told to write to
`oci:<staging>/image:latest`, and an unpacker opens `<staging>/image` at the tag `latest`. -/
def fetchUnpackAgree (env : Env) (workspaceDir : String) : Event → Prop
  | .pull o => o.DestImage = "oci:" ++ render (stagingDir env workspaceDir ++ ["image"]) ++ ":latest"
  | .unpack _ imagePath tag _ =>
    imagePath = render (stagingDir env workspaceDir ++ ["image"]) ∧ tag = "latest"
  | _ => True

/-- The workspace `/tmp/a:b`, there and empty. -/
def colonWorkspaceFS : FS := fsOf [
  ([""], .dir ["tmp"] 0),
  (["", "tmp"], .dir ["a:b"] 0),
  (["", "tmp", "a:b"], .dir [] 0)]

/-- The file the conversion step of a run of `createExt4Image` leaves: the node at the path
that `pullContainerToExt4FS` returns, in the state it ends in. -/
def builtImageNode (env : Env) (w : World) (workspaceDir containerImage : String) : Option Node :=
  (pullContainerToExt4FS env w containerImage workspaceDir).2.fs
    (pullContainerToExt4FS env w containerImage workspaceDir).1.1

/-- World `w'` continues `w`: the states added, like the final state, are related by `R` to
the state of `w`. -/
def Run (R : FS → FS → Prop) (w w' : World) : Prop :=
  (∃ hs, w'.history = w.history ++ hs ∧ ∀ fs ∈ hs, R w.fs fs) ∧ R w.fs w'.fs

/-- State `b` differs from state `a` at the directory `p` at most in that `p`, absent in
`a`, is the directory `mkdir` makes, listing nothing; the node at `p/containerfs.ext4` is
that of `a`. -/
def madeDir (now : Int) (p : Path) (a b : FS) : Prop :=
  b (p ++ [diskImageFileName]) = a (p ++ [diskImageFileName]) ∧
  (b p = a p ∨ (a p = none ∧ b p = some (.dir [] now)))

/-- The content-digest directory `d` of `entry` holds the image that was built: it is a
directory, the node at `d/containerfs.ext4` is the file `built` that the conversion step
left, and `d` is the SHA-256 digest of its contents, in lowercase hexadecimal. -/
def publishedIn (built : Option Node) (d : String) (fs : FS) (entry : Path) : Prop :=
  isDirAt fs (entry ++ [d]) = true ∧ fs (entry ++ [d, diskImageFileName]) = built ∧
    ∃ content t, built = some (.file content t) ∧ hexString (Sha256.sum (bytesOf content)) = d

/-- What a state `fs` of a run from `fs0` holds at the content-digest directory `d` of
`entry`: what `fs0` holds there; or the directory `mkdir` has made, absent in `fs0` and
listing nothing; or the image that was built. -/
def digestDirState (now : Int) (built : Option Node) (d : String) (fs0 fs : FS)
    (entry : Path) : Prop :=
  (fs (entry ++ [d]) = fs0 (entry ++ [d]) ∧
    fs (entry ++ [d, diskImageFileName]) = fs0 (entry ++ [d, diskImageFileName])) ∨
  (fs0 (entry ++ [d]) = none ∧ fs (entry ++ [d]) = some (.dir [] now) ∧
    fs (entry ++ [d, diskImageFileName]) = fs0 (entry ++ [d, diskImageFileName])) ∨
  publishedIn built d fs entry

/-- Every subdirectory of `entry` holds a file `containerfs.ext4`, except that the directory
`d`, when it is absent in `fs0`, may be the directory `mkdir` has made, listing nothing. -/
def subdirsHoldImageOrNew (now : Int) (d : String) (fs0 fs : FS) (entry : Path) : Prop :=
  ∀ name, isDirAt fs (entry ++ [name]) = true →
    isFileAt fs (entry ++ [name, diskImageFileName]) = true ∨
    (name = d ∧ fs0 (entry ++ [d]) = none ∧ fs (entry ++ [d]) = some (.dir [] now))

/-- What a state `fs` of a run from `fs0` holds in the entry directory, with `d` the
content-digest directory of the run and `built` the image file the run built: the
subdirectories other than `d` and their image files are those of `fs0`; the directory `d` is
as in `fs0`, or new and empty, or holds the image that was built; and so every subdirectory
holds an image file, the new and empty `d` apart. -/
def entryState (now : Int) (built : Option Node) (d : String) (fs0 fs : FS)
    (entry : Path) : Prop :=
  AgreeOn (otherSubdirPath entry d) fs0 fs ∧ digestDirState now built d fs0 fs entry ∧
    subdirsHoldImageOrNew now d fs0 fs entry

/-! ## Theorems -/

theorem getLast_max {α : Type} (R : α → α → Prop) (l : List α) (x : α)
    (h : l.Pairwise R) (hx : l.getLast? = some x) : ∀ y ∈ l, y = x ∨ R y x := by
  obtain ⟨l', rfl⟩ : ∃ l', l = l' ++ [x] := by
    rcases List.eq_nil_or_concat l with h0 | ⟨l', a, rfl⟩
    · simp [h0] at hx
    · simp at hx; exact ⟨l', by simp [hx]⟩
  intro y hy
  rw [List.pairwise_append] at h
  rcases List.mem_append.mp hy with hy | hy
  · exact Or.inr (h.2.2 y hy x (by simp))
  · simp at hy; exact Or.inl hy

set_option maxRecDepth 100000 in
/-- The embedding of `HashString` yields the SHA-256 test vectors of the empty string and of
`abc`, in lowercase hexadecimal. -/
theorem HashString_test_vectors :
    HashString "" = "e3b0c44298fc1c149afbf4c8996fb92427ae41e4649b934ca495991b7852b855" ∧
    HashString "abc" = "ba7816bf8f01cfea414140de5dae2223b00361a396177a9cb410ff61f20015ad" := by
  decide

/-- The embedding of `int64(float64(x)*1.2)` on small values: the product of 3 by the
float64 nearest to 1.2 is just below 3.6, that of 1000 is 1200 exactly. -/
theorem scaleBy1_2_samples (env : Env) :
    scaleBy1_2 env 3 = 3 ∧ scaleBy1_2 env 4 = 4 ∧ scaleBy1_2 env 1000 = 1200 ∧
    scaleBy1_2 env (-1000) = -1200 :=
  ⟨rfl, rfl, rfl, rfl⟩

theorem dirEntry_name (fs : FS) (p : Path) (n : String) : (dirEntry fs p n).name = n := by
  unfold dirEntry
  split <;> rfl

theorem missingErrno_child_of_dir (fs : FS) (p : Path) (n : String)
    (h : isDirAt fs p = true) : missingErrno fs (p ++ [n]) = .ENOENT := by
  unfold isDirAt at h
  unfold missingErrno
  simp only [List.reverse_append, List.reverse_cons, List.reverse_nil, List.nil_append,
    List.singleton_append, nearestAncestor, List.reverse_reverse]
  split at h
  · rename_i names t heq
    simp [heq]
  · simp at h

theorem FileExists_absent_in_dir (fs : FS) (p : Path) (n : String)
    (hd : isDirAt fs p = true) (hn : fs (p ++ [n]) = none) :
    FileExists fs (p ++ [n]) = (false, none) := by
  simp [FileExists, Stat, hn, missingErrno_child_of_dir fs p n hd, IsNotExist]

theorem sorted_last_is_newest (S : SliceSort) (files : List DirEntry) (last : DirEntry)
    (h : (S.apply lessByModTime files).getLast? = some last) :
    last ∈ files ∧ ∀ e ∈ files, modUnix e ≤ modUnix last := by
  have hperm := S.perm lessByModTime files
  have hsorted : (S.apply lessByModTime files).Pairwise (fun a b => modUnix a ≤ modUnix b) :=
    S.sorted modUnix files
  have hmem : last ∈ S.apply lessByModTime files := List.mem_of_getLast?_eq_some h
  refine ⟨hperm.mem_iff.mp hmem, ?_⟩
  intro e he
  rcases getLast_max _ _ _ hsorted h e (hperm.mem_iff.mpr he) with h1 | h1
  · rw [h1]
  · exact h1

/-- Claim C1, as amended. `cachedDiskImagePath` returns the empty path and a nil error when
(a) nothing is at the entry path and the listing reports not-exist, or (b) the entry
directory lists nothing, or (c) every entry that sorts last (any kind of entry, by whole
seconds of modification time) is a directory that holds no `containerfs.ext4`. -/
theorem cachedDiskImagePath_miss (S : SliceSort) (w : World) (workspaceDir containerImage : String)
    (h : entryMissing w.fs (getLocalImagePath workspaceDir containerImage) ∨
      entryEmpty w.fs (getLocalImagePath workspaceDir containerImage) ∨
      newestEntriesLackImage w.fs (getLocalImagePath workspaceDir containerImage)) :
    (cachedDiskImagePath S w workspaceDir containerImage).1 = ([], none) := by
  unfold cachedDiskImagePath
  rcases h with ⟨h1, h2⟩ | ⟨t, h1⟩ | ⟨names, t, h1, hne, h2⟩
  · simp [ReadDir, h1, h2, IsNotExist]
  · simp [ReadDir, h1]
  · simp only [ReadDir, h1, List.length_map, List.length_eq_zero, hne, if_false]
    cases hl : (S.apply lessByModTime (names.map (dirEntry w.fs
        (getLocalImagePath workspaceDir containerImage)))).getLast? with
    | none => rfl
    | some last =>
      obtain ⟨hmem, hmax⟩ := sorted_last_is_newest S _ last hl
      obtain ⟨n, hn, rfl⟩ := List.mem_map.mp hmem
      have hn2 := h2 n hn (fun n' hn' => hmax _ (List.mem_map.mpr ⟨n', hn', rfl⟩))
      have hfe := FileExists_absent_in_dir w.fs
        (getLocalImagePath workspaceDir containerImage ++ [n]) diskImageFileName hn2.1
        (by simpa using hn2.2)
      simp only [dirEntry_name, World.emit]
      have happ : getLocalImagePath workspaceDir containerImage ++ [n, diskImageFileName] =
          getLocalImagePath workspaceDir containerImage ++ [n] ++ [diskImageFileName] := by simp
      rw [happ, hfe]

set_option maxRecDepth 100000 in
theorem cachedDiskImagePath_miss_witness :
    (entryMissing emptyWorkspaceFS (getLocalImagePath "/ws/." "img") ∧
      (cachedDiskImagePath goSort (World.start emptyWorkspaceFS) "/ws/." "img").1 = ([], none)) ∧
    (entryEmpty emptyEntryFS (getLocalImagePath "/ws" "img") ∧
      (cachedDiskImagePath goSort (World.start emptyEntryFS) "/ws" "img").1 = ([], none)) ∧
    (newestEntriesLackImage interruptedBuildFS (getLocalImagePath "/ws" "img") ∧
      (cachedDiskImagePath goSort (World.start interruptedBuildFS) "/ws" "img").1 = ([], none)) :=
  have ha : entryMissing emptyWorkspaceFS (getLocalImagePath "/ws/." "img") :=
    ⟨by decide, by decide⟩
  have hb : entryEmpty emptyEntryFS (getLocalImagePath "/ws" "img") := ⟨0, by decide⟩
  have hc : newestEntriesLackImage interruptedBuildFS (getLocalImagePath "/ws" "img") :=
    ⟨["aaa"], 0, by decide, by decide, by decide⟩
  ⟨⟨ha, cachedDiskImagePath_miss goSort (World.start emptyWorkspaceFS) "/ws/." "img" (Or.inl ha)⟩,
    ⟨hb, cachedDiskImagePath_miss goSort (World.start emptyEntryFS) "/ws" "img"
      (Or.inr (Or.inl hb))⟩,
    ⟨hc, cachedDiskImagePath_miss goSort (World.start interruptedBuildFS) "/ws" "img"
      (Or.inr (Or.inr hc))⟩⟩

set_option maxRecDepth 100000 in
/-- Claim C1, counterexample. In `/ws`, the entry directory of `img` holds the empty
subdirectory `aaa`, modified at second 100, and the regular file `zzz`, modified at second
200. The most recently modified subdirectory is `aaa` and holds no `containerfs.ext4`, which
is state (c); `cachedDiskImagePath` looks under `zzz` and returns the error of `stat`.
Likewise, when `containers` is a regular file the entry directory is not there, which is
state (a), and `cachedDiskImagePath` returns the error of the listing. -/
theorem cachedDiskImagePath_miss_counterexample :
    (newestSubdirLacksImage staleFileFS (getLocalImagePath "/ws" "img") ∧
      (cachedDiskImagePath goSort (World.start staleFileFS) "/ws" "img").1 =
        ([], some (.path "stat" (getLocalImagePath "/ws" "img" ++ ["zzz", diskImageFileName])
          .ENOTDIR))) ∧
    (containersIsFileFS (getLocalImagePath "/ws" "img") = none ∧
      (cachedDiskImagePath goSort (World.start containersIsFileFS) "/ws" "img").1 =
        ([], some (.path "open" (getLocalImagePath "/ws" "img") .ENOTDIR))) :=
  ⟨⟨⟨["aaa", "zzz"], 0, by decide, "aaa", by decide, by decide, by decide, by decide⟩, by decide⟩,
    by decide, by decide⟩

/-- Claim C2, as amended. When the entry directory lists at least one entry and every entry
that can sort last (no listed entry has a later modification time in whole seconds) is a
subdirectory, the path that `cachedDiskImagePath` checks (it logs it) is
`<entry directory>/<name>/containerfs.ext4`, where `<name>` is a subdirectory whose
modification time in whole seconds is at least that of every listed entry, hence of every
subdirectory; it returns that path when something is there, and the empty path with a nil
error when nothing is. -/
theorem cachedDiskImagePath_selects_newest (S : SliceSort) (w : World)
    (workspaceDir containerImage : String) (names : List String) (t : Int)
    (hdir : w.fs (getLocalImagePath workspaceDir containerImage) = some (.dir names t))
    (hne : names ≠ [])
    (hlast : ∀ n, sortsLast w.fs (getLocalImagePath workspaceDir containerImage) n →
      isDirAt w.fs (getLocalImagePath workspaceDir containerImage ++ [n]) = true) :
    ∃ n, sortsLast w.fs (getLocalImagePath workspaceDir containerImage) n ∧
      isDirAt w.fs (getLocalImagePath workspaceDir containerImage ++ [n]) = true ∧
      (cachedDiskImagePath S w workspaceDir containerImage).2.trace =
        w.trace ++ [.logInfo "check image cache" [("path",
          render (getLocalImagePath workspaceDir containerImage ++ [n, diskImageFileName]))]] ∧
      ((w.fs (getLocalImagePath workspaceDir containerImage ++ [n, diskImageFileName])).isSome →
        (cachedDiskImagePath S w workspaceDir containerImage).1 =
          (getLocalImagePath workspaceDir containerImage ++ [n, diskImageFileName], none)) ∧
      (w.fs (getLocalImagePath workspaceDir containerImage ++ [n, diskImageFileName]) = none →
        (cachedDiskImagePath S w workspaceDir containerImage).1 = ([], none)) := by
  have hread : ReadDir w.fs (getLocalImagePath workspaceDir containerImage) =
      .ok (names.map (dirEntry w.fs (getLocalImagePath workspaceDir containerImage))) := by
    simp [ReadDir, hdir]
  have hne2 : names.map (dirEntry w.fs (getLocalImagePath workspaceDir containerImage)) ≠ [] := by
    simpa using hne
  have hperm := S.perm lessByModTime
    (names.map (dirEntry w.fs (getLocalImagePath workspaceDir containerImage)))
  cases hl : (S.apply lessByModTime
      (names.map (dirEntry w.fs (getLocalImagePath workspaceDir containerImage)))).getLast? with
  | none =>
    rw [List.getLast?_eq_none_iff] at hl
    rw [hl] at hperm
    exact absurd hperm.symm.eq_nil hne2
  | some last =>
    obtain ⟨hmem, hmax⟩ := sorted_last_is_newest S _ last hl
    obtain ⟨n, hn, rfl⟩ := List.mem_map.mp hmem
    have hsl : sortsLast w.fs (getLocalImagePath workspaceDir containerImage) n :=
      ⟨names, t, hdir, hn, fun n' hn' => hmax _ (List.mem_map.mpr ⟨n', hn', rfl⟩)⟩
    have hnd := hlast n hsl
    refine ⟨n, hsl, hnd, ?_, ?_, ?_⟩
    · simp only [cachedDiskImagePath, hread, List.length_eq_zero, hne2, if_false, hl, World.emit,
        dirEntry_name]
      cases hfe : FileExists w.fs
        (getLocalImagePath workspaceDir containerImage ++ [n, diskImageFileName]) with
      | mk b err => cases err <;> cases b <;> rfl
    · intro hsome
      obtain ⟨node, hnode⟩ := Option.isSome_iff_exists.mp hsome
      simp [cachedDiskImagePath, hread, hne, hl, World.emit, FileExists, Stat, hnode,
        dirEntry_name]
    · intro hnone
      have happ : getLocalImagePath workspaceDir containerImage ++ [n, diskImageFileName] =
          getLocalImagePath workspaceDir containerImage ++ [n] ++ [diskImageFileName] := by simp
      have hfe := FileExists_absent_in_dir w.fs
        (getLocalImagePath workspaceDir containerImage ++ [n]) diskImageFileName hnd
        (by rw [← happ]; exact hnone)
      simp only [cachedDiskImagePath, hread, List.length_eq_zero, hne2, if_false, hl, World.emit,
        dirEntry_name]
      rw [happ, hfe]

set_option maxRecDepth 100000 in
theorem cachedDiskImagePath_selects_newest_witness :
    (∀ n, sortsLast twoImagesFS (getLocalImagePath "/ws" "img") n →
      isDirAt twoImagesFS (getLocalImagePath "/ws" "img" ++ [n]) = true) ∧
    (∃ n, sortsLast twoImagesFS (getLocalImagePath "/ws" "img") n ∧
      isDirAt twoImagesFS (getLocalImagePath "/ws" "img" ++ [n]) = true ∧
      (cachedDiskImagePath goSort (World.start twoImagesFS) "/ws" "img").2.trace =
        (World.start twoImagesFS).trace ++ [.logInfo "check image cache" [("path",
          render (getLocalImagePath "/ws" "img" ++ [n, diskImageFileName]))]] ∧
      ((twoImagesFS (getLocalImagePath "/ws" "img" ++ [n, diskImageFileName])).isSome →
        (cachedDiskImagePath goSort (World.start twoImagesFS) "/ws" "img").1 =
          (getLocalImagePath "/ws" "img" ++ [n, diskImageFileName], none)) ∧
      (twoImagesFS (getLocalImagePath "/ws" "img" ++ [n, diskImageFileName]) = none →
        (cachedDiskImagePath goSort (World.start twoImagesFS) "/ws" "img").1 = ([], none))) ∧
    (cachedDiskImagePath goSort (World.start twoImagesFS) "/ws" "img").1 =
      (getLocalImagePath "/ws" "img" ++ ["aaa", diskImageFileName], none) :=
  have hdir : twoImagesFS (getLocalImagePath "/ws" "img") = some (.dir ["aaa", "bbb"] 0) := by
    decide
  have hlast : ∀ n, sortsLast twoImagesFS (getLocalImagePath "/ws" "img") n →
      isDirAt twoImagesFS (getLocalImagePath "/ws" "img" ++ [n]) = true := by
    intro n hn
    obtain ⟨names, t, hfs, hmem, _⟩ := hn
    rw [hdir] at hfs
    cases hfs
    have hcases : n = "aaa" ∨ n = "bbb" := by simpa using hmem
    rcases hcases with rfl | rfl <;> decide
  ⟨hlast,
    cachedDiskImagePath_selects_newest goSort (World.start twoImagesFS) "/ws" "img"
      ["aaa", "bbb"] 0 hdir (by simp) hlast,
    by decide⟩

set_option maxRecDepth 100000 in
/-- Claim C2, counterexample. In `/ws`, the entry directory of `img` holds the subdirectories
`aaa`, modified at second 100.9, and `bbb`, modified at second 100.1, each with a cached
image. The two compare equal in whole seconds, the sort leaves `bbb` last, and
`cachedDiskImagePath` checks and returns the path under `bbb`, whose modification time is
less than that of `aaa`. -/
theorem cachedDiskImagePath_same_second_counterexample :
    isDirAt sameSecondFS (getLocalImagePath "/ws" "img" ++ ["aaa"]) = true ∧
    isDirAt sameSecondFS (getLocalImagePath "/ws" "img" ++ ["bbb"]) = true ∧
    modTimeAt sameSecondFS (getLocalImagePath "/ws" "img" ++ ["bbb"]) <
      modTimeAt sameSecondFS (getLocalImagePath "/ws" "img" ++ ["aaa"]) ∧
    (cachedDiskImagePath goSort (World.start sameSecondFS) "/ws" "img").2.trace =
      [.logInfo "check image cache" [("path",
        render (getLocalImagePath "/ws" "img" ++ ["bbb", diskImageFileName]))]] ∧
    (cachedDiskImagePath goSort (World.start sameSecondFS) "/ws" "img").1 =
      (getLocalImagePath "/ws" "img" ++ ["bbb", diskImageFileName], none) := by
  decide

set_option maxRecDepth 100000 in
/-- A state that the statement above leaves out: in `/ws`, the entry directory of `img` holds
the subdirectory `aaa` with a cached image, modified at second 100, and the regular file
`zzz`, modified at second 200. The path `cachedDiskImagePath` checks is the one under `zzz`,
and it returns the error of `os.Stat` there, not the cached image under `aaa`. -/
theorem cachedDiskImagePath_stray_file_sample :
    isFileAt strayFileFS (getLocalImagePath "/ws" "img" ++ ["aaa", diskImageFileName]) = true ∧
    isDirAt strayFileFS (getLocalImagePath "/ws" "img" ++ ["zzz"]) = false ∧
    (cachedDiskImagePath goSort (World.start strayFileFS) "/ws" "img").2.trace =
      [.logInfo "check image cache" [("path",
        render (getLocalImagePath "/ws" "img" ++ ["zzz", diskImageFileName]))]] ∧
    (cachedDiskImagePath goSort (World.start strayFileFS) "/ws" "img").1 =
      ([], some (.path "stat" (getLocalImagePath "/ws" "img" ++ ["zzz", diskImageFileName])
        .ENOTDIR)) := by
  decide

theorem tempDir_name_ne (r s : String) : "container-unpack-" ++ r ++ s ≠ "containers" := by
  intro h
  have h2 := congrArg String.data h
  simp only [String.data_append] at h2
  simp at h2

theorem tempFile_name_ne (r : String) : "containerfs-" ++ r ++ ".ext4" ≠ "containers" := by
  intro h
  have h2 := congrArg String.data h
  simp only [String.data_append] at h2
  simp at h2

theorem tempFile_name_ne_tempDir (r r' s : String) :
    "containerfs-" ++ r ++ ".ext4" ≠ "container-unpack-" ++ r' ++ s := by
  intro h
  have h2 := congrArg String.data h
  simp only [String.data_append] at h2
  simp at h2

theorem Step.refl (T : Path → Prop) (Q : Event → Prop) (w : World) : Step T Q w w :=
  ⟨⟨[], by simp, by simp⟩, ⟨[], by simp, by simp⟩, fun _ _ => rfl⟩

theorem Step.trans {T : Path → Prop} {Q : Event → Prop} {w w' w'' : World}
    (h1 : Step T Q w w') (h2 : Step T Q w' w'') : Step T Q w w'' := by
  obtain ⟨⟨es1, ht1, hq1⟩, ⟨hs1, hh1, hf1⟩, hfs1⟩ := h1
  obtain ⟨⟨es2, ht2, hq2⟩, ⟨hs2, hh2, hf2⟩, hfs2⟩ := h2
  refine ⟨⟨es1 ++ es2, by rw [ht2, ht1, List.append_assoc], ?_⟩,
    ⟨hs1 ++ hs2, by rw [hh2, hh1, List.append_assoc], ?_⟩, ?_⟩
  · intro e he
    rcases List.mem_append.mp he with he | he
    · exact hq1 e he
    · exact hq2 e he
  · intro fs hfs q hq
    rcases List.mem_append.mp hfs with hfs | hfs
    · exact hf1 fs hfs q hq
    · rw [hf2 fs hfs q hq, hfs1 q hq]
  · intro q hq
    rw [hfs2 q hq, hfs1 q hq]

theorem Step.mono {T U : Path → Prop} {Q V : Event → Prop} {w w' : World}
    (h : Step T Q w w') (hT : ∀ q, T q → U q) (hQ : ∀ e, Q e → V e) : Step U V w w' := by
  obtain ⟨⟨es1, ht1, hq1⟩, ⟨hs1, hh1, hf1⟩, hfs1⟩ := h
  exact ⟨⟨es1, ht1, fun e he => hQ e (hq1 e he)⟩,
    ⟨hs1, hh1, fun fs hfs q hq => hf1 fs hfs q (fun h => hq (hT q h))⟩,
    fun q hq => hfs1 q (fun h => hq (hT q h))⟩

theorem Step.emit (T : Path → Prop) {Q : Event → Prop} (w : World) (e : Event) (h : Q e) :
    Step T Q w (w.emit e) :=
  ⟨⟨[e], rfl, by simpa using h⟩, ⟨[], by simp [World.emit], by simp⟩, fun _ _ => rfl⟩

theorem Step.write {T : Path → Prop} (Q : Event → Prop) (w : World) (fs : FS)
    (h : ∀ q, ¬ T q → fs q = w.fs q) : Step T Q w (w.write fs) :=
  ⟨⟨[], by simp [World.write], by simp⟩, ⟨[fs], rfl, by simpa using h⟩, h⟩

theorem setNode_ne (fs : FS) (p q : Path) (n : Option Node) (h : q ≠ p) : setNode fs p n q = fs q := by
  simp [setNode, h]

theorem setNode_eq (fs : FS) (p : Path) (n : Option Node) : setNode fs p n p = n := by
  simp [setNode]

theorem addName_ne (fs : FS) (dir q : Path) (name : String) (now : Int) (h : q ≠ dir) :
    addName fs dir name now q = fs q := by
  unfold addName
  cases hd : fs dir with
  | none => rfl
  | some n =>
    cases n with
    | file c t => rfl
    | dir names t => exact setNode_ne _ _ _ _ h

theorem removeName_ne (fs : FS) (dir q : Path) (name : String) (now : Int) (h : q ≠ dir) :
    removeName fs dir name now q = fs q := by
  unfold removeName
  cases hd : fs dir with
  | none => rfl
  | some n =>
    cases n with
    | file c t => rfl
    | dir names t => exact setNode_ne _ _ _ _ h

theorem mkdirAt_step (Q : Event → Prop) (env : Env) (w : World) (parent : Path) (name : String) :
    Step (fun q => q = parent ∨ q = parent ++ [name]) Q w (mkdirAt env w parent name).2 := by
  unfold mkdirAt
  split
  · exact Step.refl _ _ _
  · split
    · refine Step.write Q w _ ?_
      intro q hq
      rw [not_or] at hq
      rw [setNode_ne _ _ _ _ hq.2, addName_ne _ _ _ _ _ hq.1]
    · exact Step.refl _ _ _

theorem MkdirAllRev_step (Q : Event → Prop) (env : Env) (rev : List String) (w : World) :
    Step (fun q => q <+: rev.reverse) Q w (MkdirAllRev env rev w).2 := by
  induction rev generalizing w with
  | nil => exact Step.refl _ _ _
  | cons name up ih =>
    unfold MkdirAllRev
    split
    · exact Step.refl _ _ _
    · exact Step.refl _ _ _
    · have h1 := ih w
      cases hr : MkdirAllRev env up w with
      | mk e w1 =>
        rw [hr] at h1
        have h1' : Step (fun q => q <+: (name :: up).reverse) Q w w1 :=
          h1.mono (fun q hq => by
            simp only [List.reverse_cons]
            exact hq.trans (List.prefix_append _ _)) (fun _ h => h)
        cases e with
        | some err => exact h1'
        | none =>
          refine h1'.trans ((mkdirAt_step Q env w1 up.reverse name).mono ?_ (fun _ h => h))
          intro q hq
          simp only [List.reverse_cons]
          rcases hq with hq | hq
          · rw [hq]; exact List.prefix_append _ _
          · rw [hq]

theorem MkdirAll_step (Q : Event → Prop) (env : Env) (w : World) (p : Path) :
    Step (fun q => q <+: p) Q w (MkdirAll env w p).2 := by
  unfold MkdirAll
  split
  · exact Step.refl _ _ _
  · simpa using MkdirAllRev_step Q env p.reverse w

theorem EnsureDirectoryExists_step (Q : Event → Prop) (env : Env) (w : World) (p : Path) :
    Step (fun q => q <+: p) Q w (EnsureDirectoryExists env w p).2 := by
  unfold EnsureDirectoryExists
  split
  · split
    · exact MkdirAll_step Q env w p
    · exact Step.refl _ _ _
  · exact Step.refl _ _ _

theorem isPrefixOf_eq_false {p q : Path} (h : ¬ p <+: q) : p.isPrefixOf q = false := by
  cases hb : p.isPrefixOf q with
  | false => rfl
  | true => exact absurd (List.isPrefixOf_iff_prefix.mp hb) h

theorem mkdirTempAt_step (Q : Event → Prop) (env : Env) (w : World) (dir : Path)
    (pre suf : String) :
    Step (fun q => q = dir ∨ q = dir ++ [pre ++ env.tempDirRandom ++ suf]) Q w
      (mkdirTempAt env w dir pre suf).2 := by
  simp only [mkdirTempAt]
  have h := mkdirAt_step Q env w dir (pre ++ env.tempDirRandom ++ suf)
  cases hr : mkdirAt env w dir (pre ++ env.tempDirRandom ++ suf) with
  | mk e w1 =>
    rw [hr] at h
    cases e with
    | none => exact h
    | some err =>
      simp only []
      split
      · exact h
      · split
        · split
          · split <;> exact h
          · exact h
        · exact h

theorem MkdirTemp_step (Q : Event → Prop) (env : Env) (w : World) (dir : String)
    (pre suf : String) :
    Step (fun q => q = pathOf dir ∨ q = pathOf dir ++ [pre ++ env.tempDirRandom ++ suf]) Q w
      (MkdirTemp env w dir pre suf).2 := by
  simp only [MkdirTemp]
  split
  · exact Step.refl _ _ _
  · exact Step.refl _ _ _
  · exact mkdirTempAt_step Q env w (pathOf dir) pre suf

theorem createTempAt_step (Q : Event → Prop) (env : Env) (w : World) (dir : Path)
    (pre suf : String) :
    Step (fun q => q = dir ∨ q = dir ++ [pre ++ env.tempFileRandom ++ suf]) Q w
      (createTempAt env w dir pre suf).2 := by
  simp only [createTempAt]
  split
  · exact Step.refl _ _ _
  · split
    · refine Step.write Q w _ ?_
      intro q hq
      rw [not_or] at hq
      rw [setNode_ne _ _ _ _ hq.2, addName_ne _ _ _ _ _ hq.1]
    · exact Step.refl _ _ _

theorem CreateTemp_step (Q : Event → Prop) (env : Env) (w : World) (dir : String)
    (pre suf : String) :
    Step (fun q => q = pathOf dir ∨ q = pathOf dir ++ [pre ++ env.tempFileRandom ++ suf]) Q w
      (CreateTemp env w dir pre suf).2 := by
  simp only [CreateTemp]
  split
  · exact Step.refl _ _ _
  · exact createTempAt_step Q env w (pathOf dir) pre suf

theorem RemoveAll_step (Q : Event → Prop) (env : Env) (w : World) (p : Path) :
    Step (fun q => q = p.dropLast ∨ p <+: q) Q w (RemoveAll env w p) := by
  unfold RemoveAll
  split
  · refine Step.write Q w _ ?_
    intro q hq
    rw [not_or] at hq
    simp only [isPrefixOf_eq_false hq.2, Bool.false_eq_true, if_false]
    exact removeName_ne _ _ _ _ _ hq.1
  · exact Step.refl _ _ _

theorem Rename_step (Q : Event → Prop) (env : Env) (w : World) (oldpath newpath : Path) :
    Step (fun q => q = oldpath.dropLast ∨ q = newpath.dropLast ∨ oldpath <+: q ∨ newpath <+: q) Q w
      (Rename env w oldpath newpath).2 := by
  unfold Rename
  split
  · split
    · split
      · exact Step.refl _ _ _
      · exact Step.refl _ _ _
      · exact Step.refl _ _ _
      · refine Step.write Q w _ ?_
        intro q hq
        simp only [not_or] at hq
        simp only [isPrefixOf_eq_false hq.2.2.2, isPrefixOf_eq_false hq.2.2.1,
          Bool.false_eq_true, if_false]
        rw [addName_ne _ _ _ _ _ hq.2.1, removeName_ne _ _ _ _ _ hq.1]
    · exact Step.refl _ _ _
  · exact Step.refl _ _ _
  · exact Step.refl _ _ _

theorem graft_off (fs : FS) (dest : Path) (tree : Path → Option Node) (q : Path)
    (h : ¬ dest <+: q) : graft fs dest tree q = fs q := by
  simp [graft, isPrefixOf_eq_false h]

theorem Pull_step {Q : Event → Prop} (env : Env) (w : World) (options : PullOptions) (dest : Path)
    (hQ : Q (.pull options)) : Step (fun q => dest <+: q) Q w (Pull env w options dest).2 := by
  simp only [Pull]
  refine (Step.emit _ w _ hQ).trans (Step.write Q _ _ ?_)
  intro q hq
  exact graft_off _ _ _ _ hq

theorem unrawpack_step {Q : Event → Prop} (env : Env) (w : World) (rootless : Bool)
    (image rootfsPath : String) (rootfs : Path)
    (hQ : ∀ a b c d, Q (.unpack a b c d)) :
    Step (fun q => rootfs <+: q) Q w (unrawpack env w rootless image rootfsPath rootfs).2 := by
  simp only [unrawpack]
  refine (Step.emit _ w _ (hQ _ _ _ _)).trans (Step.write Q _ _ ?_)
  intro q hq
  exact graft_off _ _ _ _ hq

theorem DiskSizeBytes_step {Q : Event → Prop} (T : Path → Prop) (env : Env) (w : World)
    (inputDir : Path) (hQ : ∀ d, Q (.du d)) : Step T Q w (DiskSizeBytes env w inputDir).2 := by
  simp only [DiskSizeBytes]
  have h := Step.emit T w (.du (render inputDir)) (hQ _)
  split
  · exact h
  · split
    · split <;> exact h
    · exact h

theorem writeFile_off (fs : FS) (p q : Path) (content : String) (now : Int)
    (h1 : q ≠ p.dropLast) (h2 : q ≠ p) : writeFile fs p content now q = fs q := by
  unfold writeFile
  cases hd : fs p.dropLast with
  | none => rfl
  | some n =>
    cases n with
    | file c t => rfl
    | dir names t =>
      cases hl : p.getLast? with
      | none => rfl
      | some name =>
        show setNode (addName fs p.dropLast name now) p (some (.file content now)) q = fs q
        rw [setNode_ne _ _ _ _ h2, addName_ne _ _ _ _ _ h1]

theorem runMke2fs_step {Q : Event → Prop} (env : Env) (w : World) (args : List String)
    (outputFile : Path) (hQ : ∀ args, Q (.mke2fs args)) :
    Step (fun q => q = outputFile.dropLast ∨ q = outputFile) Q w
      (runMke2fs env w args outputFile).2 := by
  unfold runMke2fs
  split
  · refine (Step.emit _ w _ (hQ _)).trans (Step.write Q _ _ ?_)
    intro q hq
    rw [not_or] at hq
    exact writeFile_off _ _ _ _ _ hq.1 hq.2
  · exact Step.emit _ w _ (hQ _)

theorem DirectoryToImage_step {Q : Event → Prop} (env : Env) (w : World)
    (inputDir outputFile : Path) (sizeBytes : Int) (hQ : ∀ args, Q (.mke2fs args)) :
    Step (fun q => q = outputFile.dropLast ∨ q = outputFile) Q w
      (DirectoryToImage env w inputDir outputFile sizeBytes).2 := by
  unfold DirectoryToImage
  split
  · exact Step.refl _ _ _
  · have h := runMke2fs_step env w ["/sbin/mke2fs", "-L", "''", "-N", "0", "-d", render inputDir,
        "-m", "5", "-r", "1", render outputFile, sizeArg sizeBytes] outputFile hQ
    split <;> rename_i heq <;> rw [heq] at h <;> exact h

theorem DirectoryToImageAutoSize_step {Q : Event → Prop} (env : Env) (w : World)
    (inputDir outputFile : Path) (hQ1 : ∀ d, Q (.du d)) (hQ2 : ∀ args, Q (.mke2fs args)) :
    Step (fun q => q = outputFile.dropLast ∨ q = outputFile) Q w
      (DirectoryToImageAutoSize env w inputDir outputFile).2 := by
  simp only [DirectoryToImageAutoSize]
  have h := DiskSizeBytes_step (fun q => q = outputFile.dropLast ∨ q = outputFile) env w inputDir hQ1
  cases hr : DiskSizeBytes env w inputDir with
  | mk r w1 =>
    rw [hr] at h
    obtain ⟨size, e⟩ := r
    cases e with
    | some err => exact h
    | none => exact h.trans (DirectoryToImage_step env w1 inputDir outputFile _ hQ2)

theorem notInCache_of_prefix {workspaceDir : String} {q : Path} {t : String} {r : List String}
    (h : q <+: pathOf workspaceDir ++ t :: r) (ht : t ≠ "containers") :
    ¬ inCache workspaceDir q := by
  intro hc
  have h2 := List.IsPrefix.trans hc h
  rw [List.prefix_append_right_inj, List.cons_prefix_cons] at h2
  exact ht h2.1.symm

theorem notInCache_of_under {workspaceDir : String} {q : Path} {t : String}
    (h : (pathOf workspaceDir ++ [t]) <+: q) (ht : t ≠ "containers") :
    ¬ inCache workspaceDir q := by
  intro hc
  have h2 := List.prefix_of_prefix_length_le hc h (by simp)
  rw [List.prefix_append_right_inj, List.cons_prefix_cons] at h2
  exact ht h2.1.symm

theorem MkdirTemp_path (env : Env) (w : World) (dir : String) (pre suf : String) (p : Path)
    (w1 : World) (h : MkdirTemp env w dir pre suf = ((p, none), w1)) :
    p = pathOf dir ++ [pre ++ env.tempDirRandom ++ suf] := by
  simp only [MkdirTemp] at h
  split at h
  · simp at h
  · simp at h
  · simp only [mkdirTempAt] at h
    split at h
    · simp at h; exact h.1.symm
    · split at h
      · simp at h
      · split at h
        · split at h
          · split at h <;> simp at h
          · simp at h
        · simp at h

theorem CreateTemp_path (env : Env) (w : World) (dir : String) (pre suf : String) (p : Path)
    (w1 : World) (h : CreateTemp env w dir pre suf = ((p, none), w1)) :
    p = pathOf dir ++ [pre ++ env.tempFileRandom ++ suf] := by
  simp only [CreateTemp] at h
  split at h
  · simp at h
  · simp only [createTempAt] at h
    split at h
    · simp at h
    · split at h
      · simp at h; exact h.1.symm
      · simp at h

theorem pullContainerToExt4FSBody_step (env : Env) (w : World) (srcImage workspaceDir : String) :
    Step (fun q => ¬ inCache workspaceDir q) (pipelineCall env workspaceDir srcImage) w
      (pullContainerToExt4FSBody env w srcImage workspaceDir
        (pathOf workspaceDir ++ ["container-unpack-" ++ env.tempDirRandom ++ ""])).2 := by
  have hdir := tempDir_name_ne env.tempDirRandom ""
  have hfile := tempFile_name_ne env.tempFileRandom
  have hunder : ∀ (x : String) (q : Path),
      (pathOf workspaceDir ++ ["container-unpack-" ++ env.tempDirRandom ++ ""] ++ [x]) <+: q →
        ¬ inCache workspaceDir q := fun x q hq =>
    notInCache_of_under ((List.prefix_append _ _).trans hq) hdir
  have hpre : ∀ (x : String) (q : Path),
      q <+: (pathOf workspaceDir ++ ["container-unpack-" ++ env.tempDirRandom ++ ""] ++ [x]) →
        ¬ inCache workspaceDir q := fun x q hq =>
    notInCache_of_prefix (t := "container-unpack-" ++ env.tempDirRandom ++ "") (r := [x])
      (by simpa using hq) hdir
  simp only [pullContainerToExt4FSBody]
  have s1 := (EnsureDirectoryExists_step (pipelineCall env workspaceDir srcImage) env w
    (pathOf workspaceDir ++ ["container-unpack-" ++ env.tempDirRandom ++ ""] ++ ["image"])).mono
    (hpre "image") (fun _ h => h)
  cases h1 : EnsureDirectoryExists env w
    (pathOf workspaceDir ++ ["container-unpack-" ++ env.tempDirRandom ++ ""] ++ ["image"]) with
  | mk e1 w1 =>
  rw [h1] at s1
  cases e1 with
  | some err => exact s1
  | none =>
  simp only []
  have s2 := s1.trans ((Pull_step (Q := pipelineCall env workspaceDir srcImage) env w1
    (pipelinePullOptions env workspaceDir srcImage)
    (pathOf workspaceDir ++ ["container-unpack-" ++ env.tempDirRandom ++ ""] ++ ["image"])
    rfl).mono (hunder "image") (fun _ h => h))
  unfold pipelinePullOptions at s2
  cases h2 : Pull env w1 ⟨"", "linux", srcImage, "oci:" ++ render (pathOf workspaceDir ++
      ["container-unpack-" ++ env.tempDirRandom ++ ""] ++ ["image"]) ++ ":latest"⟩
    (pathOf workspaceDir ++ ["container-unpack-" ++ env.tempDirRandom ++ ""] ++ ["image"]) with
  | mk e2 w2 =>
  rw [h2] at s2
  cases e2 with
  | some err => exact s2
  | none =>
  simp only []
  have s3 := (s2.trans (Step.emit _ w2 (.logInfo "Unpacking OCI image" [("image", srcImage)])
    trivial)).trans ((EnsureDirectoryExists_step (pipelineCall env workspaceDir srcImage) env
    (w2.emit (.logInfo "Unpacking OCI image" [("image", srcImage)]))
    (pathOf workspaceDir ++ ["container-unpack-" ++ env.tempDirRandom ++ ""] ++ ["rootfs"])).mono
    (hpre "rootfs") (fun _ h => h))
  cases h3 : EnsureDirectoryExists env (w2.emit (.logInfo "Unpacking OCI image" [("image", srcImage)]))
    (pathOf workspaceDir ++ ["container-unpack-" ++ env.tempDirRandom ++ ""] ++ ["rootfs"]) with
  | mk e3 w3 =>
  rw [h3] at s3
  cases e3 with
  | some err => exact s3
  | none =>
  simp only []
  have s4 := s3.trans ((unrawpack_step (Q := pipelineCall env workspaceDir srcImage) env w3
    (!env.isRoot)
    (render (pathOf workspaceDir ++ ["container-unpack-" ++ env.tempDirRandom ++ ""] ++ ["image"]))
    (render (pathOf workspaceDir ++ ["container-unpack-" ++ env.tempDirRandom ++ ""] ++ ["rootfs"]))
    (pathOf workspaceDir ++ ["container-unpack-" ++ env.tempDirRandom ++ ""] ++ ["rootfs"])
    (fun _ _ _ _ => trivial)).mono (hunder "rootfs") (fun _ h => h))
  cases h4 : unrawpack env w3 (!env.isRoot)
    (render (pathOf workspaceDir ++ ["container-unpack-" ++ env.tempDirRandom ++ ""] ++ ["image"]))
    (render (pathOf workspaceDir ++ ["container-unpack-" ++ env.tempDirRandom ++ ""] ++ ["rootfs"]))
    (pathOf workspaceDir ++ ["container-unpack-" ++ env.tempDirRandom ++ ""] ++ ["rootfs"]) with
  | mk e4 w4 =>
  rw [h4] at s4
  cases e4 with
  | some err => exact s4
  | none =>
  simp only []
  have hnotW : ∀ q, q = pathOf workspaceDir ∨
      q = pathOf workspaceDir ++ ["containerfs-" ++ env.tempFileRandom ++ ".ext4"] →
        ¬ inCache workspaceDir q := by
    intro q hq
    refine notInCache_of_prefix (t := "containerfs-" ++ env.tempFileRandom ++ ".ext4") (r := [])
      ?_ hfile
    rcases hq with hq | hq
    · rw [hq]; exact List.prefix_append _ _
    · rw [hq]
  have s5 := s4.trans ((CreateTemp_step (pipelineCall env workspaceDir srcImage) env w4
    workspaceDir "containerfs-" ".ext4").mono hnotW (fun _ h => h))
  cases h5 : CreateTemp env w4 workspaceDir "containerfs-" ".ext4" with
  | mk r5 w5 =>
  rw [h5] at s5
  obtain ⟨imageFile, e5⟩ := r5
  cases e5 with
  | some err => exact s5
  | none =>
  simp only []
  have hp := CreateTemp_path env w4 _ _ _ _ _ h5
  subst hp
  have s6 := s5.trans ((DirectoryToImageAutoSize_step (Q := pipelineCall env workspaceDir srcImage)
    env w5 (pathOf workspaceDir ++ ["container-unpack-" ++ env.tempDirRandom ++ ""] ++ ["rootfs"])
    (pathOf workspaceDir ++ ["containerfs-" ++ env.tempFileRandom ++ ".ext4"])
    (fun _ => trivial) (fun _ => trivial)).mono (fun q hq => hnotW q (by simpa using hq))
    (fun _ h => h))
  cases h6 : DirectoryToImageAutoSize env w5
    (pathOf workspaceDir ++ ["container-unpack-" ++ env.tempDirRandom ++ ""] ++ ["rootfs"])
    (pathOf workspaceDir ++ ["containerfs-" ++ env.tempFileRandom ++ ".ext4"]) with
  | mk e6 w6 =>
  rw [h6] at s6
  cases e6 <;> exact s6

theorem pullContainerToExt4FS_step (env : Env) (w : World) (srcImage workspaceDir : String) :
    Step (fun q => ¬ inCache workspaceDir q) (pipelineCall env workspaceDir srcImage) w
      (pullContainerToExt4FS env w srcImage workspaceDir).2 := by
  have hdir := tempDir_name_ne env.tempDirRandom ""
  simp only [pullContainerToExt4FS]
  have hnotW : ∀ q, q = pathOf workspaceDir ∨
      q = pathOf workspaceDir ++ ["container-unpack-" ++ env.tempDirRandom ++ ""] →
        ¬ inCache workspaceDir q := by
    intro q hq
    refine notInCache_of_prefix (t := "container-unpack-" ++ env.tempDirRandom ++ "") (r := [])
      ?_ hdir
    rcases hq with hq | hq
    · rw [hq]; exact List.prefix_append _ _
    · rw [hq]
  have s1 := (Step.emit (fun q => ¬ inCache workspaceDir q) w
    (.logInfo "pull image" [("src", srcImage)])
    (show pipelineCall env workspaceDir srcImage _ from trivial)).trans
    ((MkdirTemp_step (pipelineCall env workspaceDir srcImage) env
      (w.emit (.logInfo "pull image" [("src", srcImage)])) workspaceDir
      "container-unpack-" "").mono hnotW (fun _ h => h))
  cases h1 : MkdirTemp env (w.emit (.logInfo "pull image" [("src", srcImage)]))
    workspaceDir "container-unpack-" "" with
  | mk r1 w1 =>
  rw [h1] at s1
  obtain ⟨root, e1⟩ := r1
  cases e1 with
  | some err => exact s1
  | none =>
  simp only []
  have hp := MkdirTemp_path env _ _ _ _ _ _ h1
  subst hp
  refine (s1.trans (pullContainerToExt4FSBody_step env w1 srcImage workspaceDir)).trans
    ((RemoveAll_step (pipelineCall env workspaceDir srcImage) env _ _).mono ?_ (fun _ h => h))
  intro q hq
  rcases hq with hq | hq
  · exact hnotW q (Or.inl (by simpa using hq))
  · exact notInCache_of_under hq hdir

theorem pullContainerToExt4FSBody_path (env : Env) (w : World) (srcImage workspaceDir : String)
    (root tmp : Path)
    (h : (pullContainerToExt4FSBody env w srcImage workspaceDir root).1 = (tmp, none)) :
    tmp = pathOf workspaceDir ++ ["containerfs-" ++ env.tempFileRandom ++ ".ext4"] := by
  simp only [pullContainerToExt4FSBody] at h
  split at h
  · simp at h
  · split at h
    · simp at h
    · split at h
      · simp at h
      · split at h
        · simp at h
        · split at h
          · simp at h
          · rename_i heq
            split at h
            · simp at h
            · simp at h
              rw [← h]
              exact CreateTemp_path env _ _ _ _ _ _ heq

theorem pullContainerToExt4FS_path (env : Env) (w : World) (srcImage workspaceDir : String)
    (tmp : Path) (h : (pullContainerToExt4FS env w srcImage workspaceDir).1 = (tmp, none)) :
    tmp = pathOf workspaceDir ++ ["containerfs-" ++ env.tempFileRandom ++ ".ext4"] := by
  simp only [pullContainerToExt4FS] at h
  split at h
  · simp at h
  · exact pullContainerToExt4FSBody_path env _ srcImage workspaceDir _ tmp h

theorem createExt4Image_step (env : Env) (w : World) (workspaceDir containerImage : String) :
    Step (fun _ => True) (pipelineCall env workspaceDir containerImage) w
      (createExt4Image env w workspaceDir containerImage).2 := by
  simp only [createExt4Image]
  have s1 := (pullContainerToExt4FS_step env w containerImage workspaceDir).mono
    (U := fun _ => True) (fun _ _ => trivial) (fun _ h => h)
  cases h1 : pullContainerToExt4FS env w containerImage workspaceDir with
  | mk r1 w1 =>
  rw [h1] at s1
  obtain ⟨tmp, e1⟩ := r1
  cases e1 with
  | some err => exact s1
  | none =>
  simp only []
  cases h2 : hashFile w1.fs tmp with
  | mk imageHash e2 =>
  cases e2 with
  | some err => exact s1
  | none =>
  simp only []
  have s3 := (s1.trans (Step.emit (fun _ => True) w1 (.logInfo "pulled image"
      [("path", render tmp), ("rootfs-path",
        render (getLocalImagePath workspaceDir containerImage ++ [imageHash]))])
    (show pipelineCall env workspaceDir containerImage _ from trivial))).trans
    ((EnsureDirectoryExists_step (pipelineCall env workspaceDir containerImage) env
      (w1.emit (.logInfo "pulled image" [("path", render tmp), ("rootfs-path",
        render (getLocalImagePath workspaceDir containerImage ++ [imageHash]))]))
      (getLocalImagePath workspaceDir containerImage ++ [imageHash])).mono
      (U := fun _ => True) (fun _ _ => trivial) (fun _ h => h))
  cases h3 : EnsureDirectoryExists env (w1.emit (.logInfo "pulled image"
      [("path", render tmp), ("rootfs-path",
        render (getLocalImagePath workspaceDir containerImage ++ [imageHash]))]))
      (getLocalImagePath workspaceDir containerImage ++ [imageHash]) with
  | mk e3 w3 =>
  rw [h3] at s3
  cases e3 with
  | some err => exact s3
  | none =>
  simp only []
  have s4 := s3.trans ((Rename_step (pipelineCall env workspaceDir containerImage) env w3 tmp
    (getLocalImagePath workspaceDir containerImage ++ [imageHash] ++ [diskImageFileName])).mono
    (U := fun _ => True) (fun _ _ => trivial) (fun _ h => h))
  cases h4 : Rename env w3 tmp
    (getLocalImagePath workspaceDir containerImage ++ [imageHash] ++ [diskImageFileName]) with
  | mk e4 w4 =>
  rw [h4] at s4
  cases e4 <;> exact s4

theorem cachedDiskImagePath_world (S : SliceSort) (w : World) (workspaceDir containerImage : String) :
    (cachedDiskImagePath S w workspaceDir containerImage).2 = w ∨
    ∃ p, (cachedDiskImagePath S w workspaceDir containerImage).2 =
      w.emit (.logInfo "check image cache" [("path", render p)]) := by
  simp only [cachedDiskImagePath]
  split
  · split <;> exact Or.inl rfl
  · split
    · exact Or.inl rfl
    · split
      · exact Or.inl rfl
      · split <;> exact Or.inr ⟨_, rfl⟩

/-- On a hit of the cache, `CreateDiskImage` returns the cached path and adds nothing but the
log line of the cache check. -/
theorem CreateDiskImage_on_hit (S : SliceSort) (env : Env) (w : World)
    (workspaceDir containerImage : String) (creds : PullCredentials) (p : Path)
    (hhit : (cachedDiskImagePath S w workspaceDir containerImage).1 = (p, none))
    (hp : p ≠ []) :
    (CreateDiskImage S env w workspaceDir containerImage creds).1 = (p, none) ∧
    (CreateDiskImage S env w workspaceDir containerImage creds).2.fs = w.fs ∧
    (CreateDiskImage S env w workspaceDir containerImage creds).2.history = w.history ∧
    (CreateDiskImage S env w workspaceDir containerImage creds).2.trace =
      w.trace ++ [.logInfo "check image cache" [("path", render p)]] := by
  have hw : (CreateDiskImage S env w workspaceDir containerImage creds) =
      ((p, none), (cachedDiskImagePath S w workspaceDir containerImage).2) := by
    simp only [CreateDiskImage]
    cases hc : cachedDiskImagePath S w workspaceDir containerImage with
    | mk r w1 =>
      rw [hc] at hhit
      simp only at hhit
      subst hhit
      simp [hp]
  rw [hw]
  refine ⟨rfl, ?_⟩
  simp only [cachedDiskImagePath] at hhit ⊢
  cases hr : ReadDir w.fs (getLocalImagePath workspaceDir containerImage) with
  | error err =>
    rw [hr] at hhit
    simp only at hhit
    split at hhit <;> simp at hhit
    all_goals exact absurd hhit hp
  | ok files =>
    rw [hr] at hhit
    simp only at hhit ⊢
    by_cases hlen : files.length = 0
    · simp [hlen] at hhit; exact absurd hhit hp
    · simp only [hlen, if_false] at hhit ⊢
      cases hl : (S.apply lessByModTime files).getLast? with
      | none => rw [hl] at hhit; simp at hhit; exact absurd hhit hp
      | some last =>
        rw [hl] at hhit
        simp only at hhit ⊢
        cases hfe : FileExists (w.emit (.logInfo "check image cache" [("path", render
            (getLocalImagePath workspaceDir containerImage ++ [last.name, diskImageFileName]))])).fs
            (getLocalImagePath workspaceDir containerImage ++ [last.name, diskImageFileName]) with
        | mk b e =>
          rw [hfe] at hhit
          cases e with
          | some err => simp at hhit
          | none =>
            cases b with
            | false => simp at hhit; exact absurd hhit hp
            | true =>
              simp at hhit
              simp [World.emit, hhit]

/-- Claim C6. When `cachedDiskImagePath` returns a non-empty path `p` and no error,
`CreateDiskImage` returns `(p, nil)` whatever the credentials, the collaborators and the state
of the caller's context are; the file system and its history are those of the start, and the
only call it adds is the log line of the cache check: no `DoChan`, no pipeline step. -/
theorem CreateDiskImage_fast_path (S : SliceSort) (env : Env) (w : World)
    (workspaceDir containerImage : String) (creds : PullCredentials) (p : Path)
    (hhit : (cachedDiskImagePath S w workspaceDir containerImage).1 = (p, none))
    (hp : p ≠ []) :
    (CreateDiskImage S env w workspaceDir containerImage creds).1 = (p, none) ∧
    (CreateDiskImage S env w workspaceDir containerImage creds).2.fs = w.fs ∧
    (CreateDiskImage S env w workspaceDir containerImage creds).2.history = w.history ∧
    (CreateDiskImage S env w workspaceDir containerImage creds).2.trace =
      w.trace ++ [.logInfo "check image cache" [("path", render p)]] :=
  CreateDiskImage_on_hit S env w workspaceDir containerImage creds p hhit hp

set_option maxRecDepth 100000 in
theorem CreateDiskImage_fast_path_witness :
    (CreateDiskImage goSort demoEnv (World.start cachedFS) "/ws" "img" ⟨"user", "secret"⟩).1 =
      (getLocalImagePath "/ws" "img" ++ ["aaa", diskImageFileName], none) ∧
    (CreateDiskImage goSort demoEnv (World.start cachedFS) "/ws" "img" ⟨"user", "secret"⟩).2.fs =
      (World.start cachedFS).fs ∧
    (CreateDiskImage goSort demoEnv (World.start cachedFS) "/ws" "img" ⟨"user", "secret"⟩).2.history =
      (World.start cachedFS).history ∧
    (CreateDiskImage goSort demoEnv (World.start cachedFS) "/ws" "img" ⟨"user", "secret"⟩).2.trace =
      (World.start cachedFS).trace ++ [.logInfo "check image cache"
        [("path", render (getLocalImagePath "/ws" "img" ++ ["aaa", diskImageFileName]))]] :=
  CreateDiskImage_fast_path goSort demoEnv (World.start cachedFS) "/ws" "img" ⟨"user", "secret"⟩
    (getLocalImagePath "/ws" "img" ++ ["aaa", diskImageFileName]) (by decide) (by simp)

theorem singleflightKey_eq (args : List String) :
    singleflightKey args = HashString (String.join (args.map HashString)) := by
  unfold singleflightKey String.join
  rw [List.foldl_map]

/-- Claim C8. `singleflightKey args` is `HashString` of the concatenation, in order, of
`HashString s` for the `s` in `args`; and on a cache miss the first call `CreateDiskImage`
adds is `DoChan` with the key `singleflightKey [workspaceDir, containerImage, creds.Username,
creds.Password]`, the only `DoChan` of the call. -/
theorem CreateDiskImage_key (S : SliceSort) (env : Env) (w : World)
    (workspaceDir containerImage : String) (creds : PullCredentials) (args : List String)
    (hmiss : (cachedDiskImagePath S w workspaceDir containerImage).1 = ([], none)) :
    singleflightKey args = HashString (String.join (args.map HashString)) ∧
    ∃ es, (CreateDiskImage S env w workspaceDir containerImage creds).2.trace =
        (cachedDiskImagePath S w workspaceDir containerImage).2.trace ++
          .doChan (singleflightKey [workspaceDir, containerImage, creds.Username, creds.Password])
            :: es ∧
      ∀ k, Event.doChan k ∉ es := by
  refine ⟨singleflightKey_eq args, ?_⟩
  cases hc : cachedDiskImagePath S w workspaceDir containerImage with
  | mk r w1 =>
    rw [hc] at hmiss
    simp only at hmiss
    subst hmiss
    obtain ⟨⟨es, hes, hq⟩, -, -⟩ := createExt4Image_step env
      (w1.emit (.doChan (singleflightKey [workspaceDir, containerImage, creds.Username,
        creds.Password]))) workspaceDir containerImage
    refine ⟨es, ?_, fun k hk => hq _ hk⟩
    have htr : (CreateDiskImage S env w workspaceDir containerImage creds).2.trace =
        (createExt4Image env (w1.emit (.doChan (singleflightKey [workspaceDir, containerImage,
          creds.Username, creds.Password]))) workspaceDir containerImage).2.trace := by
      simp only [CreateDiskImage, hc]
      simp only [ne_eq, not_true_eq_false, if_false]
      split
      · rfl
      · split <;> rfl
    rw [htr, hes]
    simp [World.emit]

set_option maxRecDepth 100000 in
theorem CreateDiskImage_key_witness :
    singleflightKey ["a", "b"] = HashString (String.join (["a", "b"].map HashString)) ∧
    ∃ es, (CreateDiskImage goSort demoEnv (World.start emptyWorkspaceFS) "/ws" "img"
        ⟨"user", "secret"⟩).2.trace =
        (cachedDiskImagePath goSort (World.start emptyWorkspaceFS) "/ws" "img").2.trace ++
          .doChan (singleflightKey ["/ws", "img", "user", "secret"]) :: es ∧
      ∀ k, Event.doChan k ∉ es :=
  CreateDiskImage_key goSort demoEnv (World.start emptyWorkspaceFS) "/ws" "img" ⟨"user", "secret"⟩
    ["a", "b"] (by decide)

/-- The image copies of `CreateDiskImage` carry the options of `pipelinePullOptions`, in
which no credential appears. -/
theorem CreateDiskImage_pull_options (S : SliceSort) (env : Env) (w : World)
    (workspaceDir containerImage : String) (creds : PullCredentials) :
    ∃ es, (CreateDiskImage S env w workspaceDir containerImage creds).2.trace = w.trace ++ es ∧
      ∀ o, Event.pull o ∈ es → o = pipelinePullOptions env workspaceDir containerImage := by
  have key : Step (fun _ => True)
      (fun e => ∀ o, e = Event.pull o → o = pipelinePullOptions env workspaceDir containerImage) w
      (CreateDiskImage S env w workspaceDir containerImage creds).2 := by
    have hc : Step (fun _ => True)
        (fun e => ∀ o, e = Event.pull o → o = pipelinePullOptions env workspaceDir containerImage) w
        (cachedDiskImagePath S w workspaceDir containerImage).2 := by
      rcases cachedDiskImagePath_world S w workspaceDir containerImage with h | ⟨p, h⟩
      · rw [h]; exact Step.refl _ _ _
      · rw [h]; exact Step.emit _ _ _ (fun o ho => by simp at ho)
    simp only [CreateDiskImage]
    cases hcp : cachedDiskImagePath S w workspaceDir containerImage with
    | mk r w1 =>
      rw [hcp] at hc
      obtain ⟨existing, e⟩ := r
      cases e with
      | some err => exact hc
      | none =>
        simp only []
        split
        · exact hc
        · have hrun := (createExt4Image_step env (w1.emit (.doChan (singleflightKey
            [workspaceDir, containerImage, creds.Username, creds.Password])))
            workspaceDir containerImage).mono (U := fun _ => True)
            (V := fun e => ∀ o, e = Event.pull o →
              o = pipelinePullOptions env workspaceDir containerImage)
            (fun _ h => h) (fun e he o ho => by subst ho; exact he)
          have hall := (hc.trans (Step.emit _ _ _ (fun o ho => by simp at ho))).trans hrun
          split
          · exact hall
          · split <;> exact hall
  obtain ⟨⟨es, hes, hq⟩, -, -⟩ := key
  exact ⟨es, hes, fun o ho => hq _ ho o rfl⟩

set_option maxRecDepth 100000 in
/-- Claim C9, at a failing input. `CreateDiskImage` misses the cache in the empty workspace
`/ws` and runs the pipeline with the credentials `user` and `secret`; the one image copy it
makes has the options `SrcImage = img`, `DestImage = oci:/ws/container-unpack-123/image:latest`,
`OS = linux` and an empty `Arch`, the same as with empty credentials, and nothing of the
credentials. -/
theorem CreateDiskImage_drops_credentials :
    pullCalls (CreateDiskImage goSort demoEnv (World.start emptyWorkspaceFS) "/ws" "img"
      ⟨"user", "secret"⟩).2.trace =
      [{ SrcImage := "img", DestImage := "oci:/ws/container-unpack-123/image:latest",
         OS := "linux", Arch := "" }] ∧
    pullCalls (CreateDiskImage goSort demoEnv (World.start emptyWorkspaceFS) "/ws" "img"
      ⟨"", ""⟩).2.trace =
      [{ SrcImage := "img", DestImage := "oci:/ws/container-unpack-123/image:latest",
         OS := "linux", Arch := "" }] := by
  decide

theorem isPrefixOf_self (p : Path) : p.isPrefixOf p = true :=
  List.isPrefixOf_iff_prefix.mpr (List.prefix_refl p)

theorem Rename_target (env : Env) (w w' : World) (oldpath newpath : Path)
    (h : Rename env w oldpath newpath = (none, w')) : w'.fs newpath = w.fs oldpath := by
  unfold Rename at h
  split at h
  · split at h
    · split at h
      · simp at h
      · simp at h
      · simp at h
      · simp only [Prod.mk.injEq, true_and] at h
        rw [← h]
        simp [World.write, isPrefixOf_self]
    · simp at h
  · simp at h
  · simp at h

theorem hashFile_ok (fs : FS) (p : Path) (hash : String) (h : hashFile fs p = (hash, none)) :
    ∃ content t, fs p = some (.file content t) ∧ hash = hexString (Sha256.sum (bytesOf content)) := by
  unfold hashFile at h
  split at h
  · rename_i content t heq
    simp at h
    exact ⟨content, t, heq, h.symm⟩
  · simp at h
  · simp at h

theorem tempFile_not_above (env : Env) (workspaceDir : String) (rest : List String) :
    ¬ (pathOf workspaceDir ++ ["containerfs-" ++ env.tempFileRandom ++ ".ext4"]) <+:
      (pathOf workspaceDir ++ "containers" :: rest) := by
  intro h
  rw [List.prefix_append_right_inj, List.cons_prefix_cons] at h
  exact tempFile_name_ne env.tempFileRandom h.1

/-- When `createExt4Image` succeeds, the conversion step (`pullContainerToExt4FS`)
has succeeded and left a file at the path it returned; with `content` the contents of that
file, the path `createExt4Image` returns is
`<workspace>/containers/<HashString image>/<sha256 of content, in hex>/containerfs.ext4`, it
is not empty, and after the call the file with these contents is at that path. -/
theorem createExt4Image_published (env : Env) (w : World) (workspaceDir containerImage : String)
    (p : Path) (hok : (createExt4Image env w workspaceDir containerImage).1 = (p, none)) :
    ∃ tmp content t,
      (pullContainerToExt4FS env w containerImage workspaceDir).1 = (tmp, none) ∧
      (pullContainerToExt4FS env w containerImage workspaceDir).2.fs tmp =
        some (.file content t) ∧
      p = pathOf workspaceDir ++ ["containers", HashString containerImage,
        hexString (Sha256.sum (bytesOf content)), "containerfs.ext4"] ∧
      p ≠ [] ∧
      (createExt4Image env w workspaceDir containerImage).2.fs p = some (.file content t) := by
  simp only [createExt4Image] at hok ⊢
  cases h1 : pullContainerToExt4FS env w containerImage workspaceDir with
  | mk r1 w1 =>
  obtain ⟨tmp, e1⟩ := r1
  rw [h1] at hok
  cases e1 with
  | some err => simp at hok
  | none =>
  simp only [] at hok ⊢
  have htmp := pullContainerToExt4FS_path env w containerImage workspaceDir tmp (by rw [h1])
  cases h2 : hashFile w1.fs tmp with
  | mk imageHash e2 =>
  rw [h2] at hok
  cases e2 with
  | some err => simp at hok
  | none =>
  simp only [] at hok ⊢
  obtain ⟨content, t, hfile, hhash⟩ := hashFile_ok _ _ _ h2
  have s3 := EnsureDirectoryExists_step (fun _ => True) env (w1.emit (.logInfo "pulled image"
      [("path", render tmp), ("rootfs-path",
        render (getLocalImagePath workspaceDir containerImage ++ [imageHash]))]))
      (getLocalImagePath workspaceDir containerImage ++ [imageHash])
  cases h3 : EnsureDirectoryExists env (w1.emit (.logInfo "pulled image"
      [("path", render tmp), ("rootfs-path",
        render (getLocalImagePath workspaceDir containerImage ++ [imageHash]))]))
      (getLocalImagePath workspaceDir containerImage ++ [imageHash]) with
  | mk e3 w3 =>
  rw [h3] at hok s3
  cases e3 with
  | some err => simp at hok
  | none =>
  simp only [] at hok ⊢
  cases h4 : Rename env w3 tmp
    (getLocalImagePath workspaceDir containerImage ++ [imageHash] ++ [diskImageFileName]) with
  | mk e4 w4 =>
  rw [h4] at hok
  cases e4 with
  | some err => simp at hok
  | none =>
  simp only [Prod.mk.injEq, and_true] at hok ⊢
  have h5 := Rename_target env w3 w4 _ _ h4
  have h6 : w3.fs tmp = w1.fs tmp := by
    have := s3.2.2 tmp (by
      rw [htmp]
      simpa [getLocalImagePath] using tempFile_not_above env workspaceDir
        [HashString containerImage, imageHash])
    simpa [World.emit] using this
  refine ⟨tmp, content, t, rfl, hfile, ?_, ?_, ?_⟩
  · rw [← hok, hhash]; simp [getLocalImagePath, diskImageFileName]
  · rw [← hok]; simp
  · rw [← hok, h5, h6, hfile]

/-- Claim C4. When `createExt4Image` succeeds, the conversion step (`pullContainerToExt4FS`)
has succeeded and left a file at the path it returned; with `content` the contents of that
file, the path `createExt4Image` returns is
`<workspace>/containers/<HashString image>/<sha256 of content, in hex>/containerfs.ext4`, it
is not empty, and after the call the file with these contents is at that path. -/
theorem createExt4Image_publishes (env : Env) (w : World) (workspaceDir containerImage : String)
    (p : Path) (hok : (createExt4Image env w workspaceDir containerImage).1 = (p, none)) :
    ∃ tmp content t,
      (pullContainerToExt4FS env w containerImage workspaceDir).1 = (tmp, none) ∧
      (pullContainerToExt4FS env w containerImage workspaceDir).2.fs tmp =
        some (.file content t) ∧
      p = pathOf workspaceDir ++ ["containers", HashString containerImage,
        hexString (Sha256.sum (bytesOf content)), "containerfs.ext4"] ∧
      p ≠ [] ∧
      (createExt4Image env w workspaceDir containerImage).2.fs p = some (.file content t) :=
  createExt4Image_published env w workspaceDir containerImage p hok

set_option maxRecDepth 100000 in
theorem createExt4Image_publishes_witness :
    ∃ tmp content t,
      (pullContainerToExt4FS demoEnv (World.start emptyWorkspaceFS) "img" "/ws").1 = (tmp, none) ∧
      (pullContainerToExt4FS demoEnv (World.start emptyWorkspaceFS) "img" "/ws").2.fs tmp =
        some (.file content t) ∧
      (pathOf "/ws" ++ ["containers", HashString "img", HashString "IMAGE", "containerfs.ext4"]) =
        pathOf "/ws" ++ ["containers", HashString "img",
          hexString (Sha256.sum (bytesOf content)), "containerfs.ext4"] ∧
      (pathOf "/ws" ++ ["containers", HashString "img", HashString "IMAGE", "containerfs.ext4"]) ≠ [] ∧
      (createExt4Image demoEnv (World.start emptyWorkspaceFS) "/ws" "img").2.fs
        (pathOf "/ws" ++ ["containers", HashString "img", HashString "IMAGE", "containerfs.ext4"]) =
        some (.file content t) :=
  createExt4Image_publishes demoEnv (World.start emptyWorkspaceFS) "/ws" "img"
    (pathOf "/ws" ++ ["containers", HashString "img", HashString "IMAGE", "containerfs.ext4"])
    (by decide)

theorem Step.agree {T : Path → Prop} {Q : Event → Prop} {w w' : World} (h : Step T Q w w')
    {R : Path → Prop} {fs0 : FS} (hR : ∀ q, R q → ¬ T q) (hfs : AgreeOn R fs0 w.fs)
    (hhist : ∀ fs ∈ w.history, AgreeOn R fs0 fs) :
    AgreeOn R fs0 w'.fs ∧ ∀ fs ∈ w'.history, AgreeOn R fs0 fs := by
  obtain ⟨-, ⟨hs, hh, hf⟩, hfinal⟩ := h
  refine ⟨fun q hq => by rw [hfinal q (hR q hq), hfs q hq], ?_⟩
  intro fs hmem q hq
  rw [hh] at hmem
  rcases List.mem_append.mp hmem with hmem | hmem
  · exact hhist fs hmem q hq
  · rw [hf fs hmem q (hR q hq), hfs q hq]

theorem otherSubdirPath_inCache (workspaceDir containerImage d : String) (q : Path)
    (h : otherSubdirPath (getLocalImagePath workspaceDir containerImage) d q) :
    ¬ ¬ inCache workspaceDir q := by
  obtain ⟨name, -, rfl | rfl⟩ := h <;> simp [inCache, getLocalImagePath]

theorem otherSubdirPath_not_above (entry : Path) (d : String) (q : Path)
    (h : otherSubdirPath entry d q) : ¬ q <+: entry ++ [d] := by
  obtain ⟨name, hne, rfl | rfl⟩ := h
  · intro hp
    rw [List.prefix_append_right_inj, List.cons_prefix_cons] at hp
    exact hne hp.1
  · intro hp
    rw [List.prefix_append_right_inj, List.cons_prefix_cons] at hp
    simp at hp

theorem otherSubdirPath_not_renamed (env : Env) (workspaceDir containerImage d : String)
    (q : Path) (h : otherSubdirPath (getLocalImagePath workspaceDir containerImage) d q) :
    ¬ (q = (pathOf workspaceDir ++ ["containerfs-" ++ env.tempFileRandom ++ ".ext4"]).dropLast ∨
      q = (getLocalImagePath workspaceDir containerImage ++ [d] ++ [diskImageFileName]).dropLast ∨
      (pathOf workspaceDir ++ ["containerfs-" ++ env.tempFileRandom ++ ".ext4"]) <+: q ∨
      (getLocalImagePath workspaceDir containerImage ++ [d] ++ [diskImageFileName]) <+: q) := by
  have hlen : ∀ {a b : Path}, a = b → a.length = b.length := fun h => congrArg _ h
  have hfile := tempFile_name_ne env.tempFileRandom
  obtain ⟨name, hne, rfl | rfl⟩ := h
  · rintro (h | h | h | h)
    · have := hlen h; simp [getLocalImagePath] at this
    · simp at h; exact hne h
    · simp only [getLocalImagePath, List.append_assoc, List.prefix_append_right_inj,
        List.cons_append, List.nil_append, List.cons_prefix_cons] at h
      exact hfile h.1
    · have := h.length_le; simp at this
  · rintro (h | h | h | h)
    · have := hlen h; simp [getLocalImagePath] at this
    · have := hlen h; simp at this
    · simp only [getLocalImagePath, List.append_assoc, List.prefix_append_right_inj,
        List.cons_append, List.nil_append, List.cons_prefix_cons] at h
      exact hfile h.1
    · simp only [List.append_assoc, List.prefix_append_right_inj,
        List.cons_append, List.nil_append, List.cons_prefix_cons] at h
      exact hne h.1.symm

theorem subdirsHoldImageBut_of_agree (d : String) (fs0 fs : FS) (entry : Path)
    (h0 : subdirsHoldImage fs0 entry) (h : AgreeOn (otherSubdirPath entry d) fs0 fs) :
    subdirsHoldImageBut d fs entry := by
  intro name hdir
  by_cases hn : name = d
  · exact Or.inr hn
  · left
    have h1 := h (entry ++ [name]) ⟨name, hn, Or.inl rfl⟩
    have h2 := h (entry ++ [name, diskImageFileName]) ⟨name, hn, Or.inr rfl⟩
    unfold isDirAt at hdir
    rw [h1] at hdir
    have := h0 name hdir
    unfold isFileAt at this ⊢
    rw [h2]
    exact this

/-- The states of a run of `createExt4Image` from `fs0` hold the nodes of `fs0` at the
subdirectories of the entry directory other than the content-digest directory of the run,
and at their image files. -/
theorem createExt4Image_agree (env : Env) (fs0 : FS) (workspaceDir containerImage : String) :
    AgreeOn (otherSubdirPath (getLocalImagePath workspaceDir containerImage)
        (builtImageHash env (World.start fs0) workspaceDir containerImage)) fs0
      (createExt4Image env (World.start fs0) workspaceDir containerImage).2.fs ∧
    ∀ fs ∈ (createExt4Image env (World.start fs0) workspaceDir containerImage).2.history,
      AgreeOn (otherSubdirPath (getLocalImagePath workspaceDir containerImage)
        (builtImageHash env (World.start fs0) workspaceDir containerImage)) fs0 fs := by
  have a0 : AgreeOn (otherSubdirPath (getLocalImagePath workspaceDir containerImage)
      (builtImageHash env (World.start fs0) workspaceDir containerImage)) fs0 (World.start fs0).fs :=
    fun _ _ => rfl
  have b0 : ∀ fs ∈ (World.start fs0).history,
      AgreeOn (otherSubdirPath (getLocalImagePath workspaceDir containerImage)
        (builtImageHash env (World.start fs0) workspaceDir containerImage)) fs0 fs := by
    intro fs hfs q _
    simp [World.start] at hfs
    rw [hfs]
  have s1 := (pullContainerToExt4FS_step env (World.start fs0) containerImage workspaceDir).agree
    (otherSubdirPath_inCache workspaceDir containerImage _) a0 b0
  unfold builtImageHash at s1 ⊢
  simp only [createExt4Image]
  cases h1 : pullContainerToExt4FS env (World.start fs0) containerImage workspaceDir with
  | mk r1 w1 =>
  obtain ⟨tmp, e1⟩ := r1
  rw [h1] at s1
  cases e1 with
  | some err => exact s1
  | none =>
  simp only [] at s1 ⊢
  have htmp := pullContainerToExt4FS_path env (World.start fs0) containerImage workspaceDir tmp
    (by rw [h1])
  cases h2 : hashFile w1.fs tmp with
  | mk imageHash e2 =>
  rw [h2] at s1
  cases e2 with
  | some err => exact s1
  | none =>
  simp only [] at s1 ⊢
  have s3 := (EnsureDirectoryExists_step (fun _ => True) env (w1.emit (.logInfo "pulled image"
      [("path", render tmp), ("rootfs-path",
        render (getLocalImagePath workspaceDir containerImage ++ [imageHash]))]))
      (getLocalImagePath workspaceDir containerImage ++ [imageHash])).agree
      (otherSubdirPath_not_above _ imageHash) s1.1 s1.2
  cases h3 : EnsureDirectoryExists env (w1.emit (.logInfo "pulled image"
      [("path", render tmp), ("rootfs-path",
        render (getLocalImagePath workspaceDir containerImage ++ [imageHash]))]))
      (getLocalImagePath workspaceDir containerImage ++ [imageHash]) with
  | mk e3 w3 =>
  rw [h3] at s3
  cases e3 with
  | some err => exact s3
  | none =>
  simp only [] at s3 ⊢
  subst htmp
  have s4 := (Rename_step (fun _ => True) env w3
    (pathOf workspaceDir ++ ["containerfs-" ++ env.tempFileRandom ++ ".ext4"])
    (getLocalImagePath workspaceDir containerImage ++ [imageHash] ++ [diskImageFileName])).agree
    (otherSubdirPath_not_renamed env workspaceDir containerImage imageHash) s3.1 s3.2
  cases h4 : Rename env w3 (pathOf workspaceDir ++ ["containerfs-" ++ env.tempFileRandom ++ ".ext4"])
    (getLocalImagePath workspaceDir containerImage ++ [imageHash] ++ [diskImageFileName]) with
  | mk e4 w4 =>
  rw [h4] at s4
  cases e4 <;> exact s4

set_option maxRecDepth 100000 in
theorem cachedFS_subdirsHoldImage : subdirsHoldImage cachedFS (getLocalImagePath "/ws" "img") := by
  intro name h
  have hp : pathOf "/ws" = ["", "ws"] := by decide
  by_cases hn : name = "aaa"
  · subst hn
    simp [isFileAt, cachedFS, fsOf, getLocalImagePath, List.lookup, hp]
  · have hb : (name == "aaa") = false := by simpa using hn
    simp [isDirAt, cachedFS, fsOf, getLocalImagePath, List.lookup, hp, hb] at h

set_option maxRecDepth 100000 in
/-- Claim C3, counterexample. The run of `createExt4Image` for `img` in the empty workspace
`/ws`, with collaborators that all succeed, succeeds; one of the states it goes through has
the content-digest directory in the entry directory and no `containerfs.ext4` in it. -/
theorem createExt4Image_empty_subdir_counterexample :
    (createExt4Image demoEnv (World.start emptyWorkspaceFS) "/ws" "img").1.2 = none ∧
    (createExt4Image demoEnv (World.start emptyWorkspaceFS) "/ws" "img").2.history.any
      (fun fs => isDirAt fs (getLocalImagePath "/ws" "img" ++ [HashString "IMAGE"]) &&
        (fs (getLocalImagePath "/ws" "img" ++ [HashString "IMAGE", diskImageFileName])).isNone) =
      true := by
  decide

theorem mkdirAt_inv (env : Env) (w w' : World) (parent : Path) (name : String)
    (h : mkdirAt env w parent name = (none, w')) :
    w'.fs = setNode (addName w.fs parent name env.now) (parent ++ [name])
      (some (.dir [] env.now)) := by
  unfold mkdirAt at h
  split at h
  · simp at h
  · split at h
    · simp only [Prod.mk.injEq, true_and] at h
      rw [← h]
      rfl
    · simp at h

theorem MkdirAllRev_cons_inv (env : Env) (w w' : World) (name : String) (up : List String)
    (h : MkdirAllRev env (name :: up) w = (none, w'))
    (hnone : w.fs (up.reverse ++ [name]) = none) :
    ∃ w1, MkdirAllRev env up w = (none, w1) ∧ mkdirAt env w1 up.reverse name = (none, w') := by
  unfold MkdirAllRev at h
  rw [hnone] at h
  simp only at h
  cases hr : MkdirAllRev env up w with
  | mk e w1 =>
    rw [hr] at h
    cases e with
    | some err => simp at h
    | none => exact ⟨w1, rfl, h⟩

theorem Rename_parent_dir (env : Env) (w w' : World) (oldpath newpath : Path)
    (h : Rename env w oldpath newpath = (none, w')) : isDirAt w.fs newpath.dropLast = true := by
  unfold Rename at h
  split at h
  · split at h
    · rename_i heq
      simp [isDirAt, heq]
    · simp at h
  · simp at h
  · simp at h

theorem EnsureDirectoryExists_inv (env : Env) (w w' : World) (p : Path)
    (h : EnsureDirectoryExists env w p = (none, w')) (hnone : w.fs p = none) :
    w' = w ∨ MkdirAll env w p = (none, w') := by
  unfold EnsureDirectoryExists at h
  simp only [Stat, hnone] at h
  split at h
  · exact Or.inr h
  · simp at h; exact Or.inl h.symm

theorem addName_eq_of_empty (fs : FS) (dir : Path) (name : String) (now t : Int)
    (h : fs dir = some (.dir [] t)) : addName fs dir name now dir = some (.dir [name] now) := by
  simp [addName, h, setNode]

/-- The entry directory after `EnsureDirectoryExists` made the content-digest directory `d`
in it, from a state in which the entry directory is absent or vacant. -/
theorem MkdirAll_fresh (env : Env) (w w' : World) (workspaceDir containerImage d : String)
    (hinit : entryAbsent w.fs (getLocalImagePath workspaceDir containerImage) ∨
      entryVacant w.fs (getLocalImagePath workspaceDir containerImage))
    (h : MkdirAll env w (getLocalImagePath workspaceDir containerImage ++ [d]) = (none, w')) :
    w'.fs (getLocalImagePath workspaceDir containerImage) = some (.dir [d] env.now) ∧
    (∀ q, ¬ q <+: getLocalImagePath workspaceDir containerImage ++ [d] → w'.fs q = w.fs q) := by
  have hstep := MkdirAll_step (fun _ => True) env w
    (getLocalImagePath workspaceDir containerImage ++ [d])
  rw [h] at hstep
  refine ⟨?_, hstep.2.2⟩
  have hhome : w.fs (getLocalImagePath workspaceDir containerImage ++ [d]) = none := by
    rcases hinit with ha | hv
    · exact ha _ (List.prefix_append _ _)
    · exact hv.2 _ (List.prefix_append _ _) (by
        intro hh
        have := congrArg List.length hh
        simp at this)
  unfold MkdirAll at h
  simp only [List.append_eq_nil, List.cons_ne_self, and_false, if_false, List.reverse_append,
    List.reverse_cons, List.reverse_nil, List.nil_append, List.singleton_append] at h
  obtain ⟨w2, h2, h3⟩ := MkdirAllRev_cons_inv env w w' d _ h (by simpa using hhome)
  have h3' := mkdirAt_inv env w2 w' _ d h3
  simp only [List.reverse_reverse] at h3'
  have hentry : ∃ t, w2.fs (getLocalImagePath workspaceDir containerImage) = some (.dir [] t) := by
    rcases hinit with ha | hv
    · have hnone : w.fs (getLocalImagePath workspaceDir containerImage) = none :=
        ha _ (List.prefix_refl _)
      simp only [getLocalImagePath, List.reverse_append, List.reverse_cons, List.reverse_nil,
        List.nil_append, List.singleton_append, List.cons_append] at h2
      obtain ⟨w1, h4, h5⟩ := MkdirAllRev_cons_inv env w w2 (HashString containerImage) _ h2 (by
        simpa [getLocalImagePath] using hnone)
      have h5' := mkdirAt_inv env w1 w2 _ _ h5
      refine ⟨env.now, ?_⟩
      rw [h5']
      simp [getLocalImagePath, setNode]
    · obtain ⟨t, ht⟩ := hv.1
      refine ⟨t, ?_⟩
      simp only [getLocalImagePath, List.reverse_append, List.reverse_cons, List.reverse_nil,
        List.nil_append, List.singleton_append, List.cons_append] at h2
      unfold MkdirAllRev at h2
      have ht' : w.fs ((("containers" :: (pathOf workspaceDir).reverse).reverse) ++
          [HashString containerImage]) = some (.dir [] t) := by
        simpa [getLocalImagePath] using ht
      rw [ht'] at h2
      simp only [Prod.mk.injEq, true_and] at h2
      rw [← h2]
      exact ht
  obtain ⟨t, ht⟩ := hentry
  rw [h3']
  have hne : getLocalImagePath workspaceDir containerImage ≠
      getLocalImagePath workspaceDir containerImage ++ [d] := by
    intro hh
    have := congrArg List.length hh
    simp at this
  rw [setNode_ne _ _ _ _ hne]
  exact addName_eq_of_empty _ _ _ _ t ht

theorem entry_inCache (workspaceDir containerImage : String) (q : Path)
    (h : getLocalImagePath workspaceDir containerImage <+: q) : ¬ ¬ inCache workspaceDir q := by
  intro hn
  apply hn
  unfold inCache
  refine List.IsPrefix.trans ?_ h
  simp [getLocalImagePath]

/-- A run of `createExt4Image` that succeeds from a state in which the entry directory is
absent or vacant leaves the entry directory with the one name of the content-digest
directory, and the image file below it. -/
theorem createExt4Image_fresh (env : Env) (w : World) (workspaceDir containerImage : String)
    (p : Path)
    (hinit : entryAbsent w.fs (getLocalImagePath workspaceDir containerImage) ∨
      entryVacant w.fs (getLocalImagePath workspaceDir containerImage))
    (hok : (createExt4Image env w workspaceDir containerImage).1 = (p, none)) :
    ∃ d, (createExt4Image env w workspaceDir containerImage).2.fs
        (getLocalImagePath workspaceDir containerImage) = some (.dir [d] env.now) ∧
      p = getLocalImagePath workspaceDir containerImage ++ [d, diskImageFileName] ∧
      ((createExt4Image env w workspaceDir containerImage).2.fs p).isSome = true := by
  obtain ⟨tmp0, content, t, -, -, hp, -, hfinal⟩ :=
    createExt4Image_published env w workspaceDir containerImage p hok
  refine ⟨hexString (Sha256.sum (bytesOf content)), ?_, ?_, ?_⟩
  rotate_left
  · rw [hp]; simp [getLocalImagePath, diskImageFileName]
  · rw [hfinal]; rfl
  simp only [createExt4Image] at hok ⊢
  have s1 := pullContainerToExt4FS_step env w containerImage workspaceDir
  cases h1 : pullContainerToExt4FS env w containerImage workspaceDir with
  | mk r1 w1 =>
  obtain ⟨tmp, e1⟩ := r1
  rw [h1] at hok s1
  cases e1 with
  | some err => simp at hok
  | none =>
  simp only [] at hok s1 ⊢
  have htmp := pullContainerToExt4FS_path env w containerImage workspaceDir tmp (by rw [h1])
  cases h2 : hashFile w1.fs tmp with
  | mk imageHash e2 =>
  rw [h2] at hok
  cases e2 with
  | some err => simp at hok
  | none =>
  simp only [] at hok ⊢
  cases h3 : EnsureDirectoryExists env (w1.emit (.logInfo "pulled image"
      [("path", render tmp), ("rootfs-path",
        render (getLocalImagePath workspaceDir containerImage ++ [imageHash]))]))
      (getLocalImagePath workspaceDir containerImage ++ [imageHash]) with
  | mk e3 w3 =>
  rw [h3] at hok
  cases e3 with
  | some err => simp at hok
  | none =>
  simp only [] at hok ⊢
  cases h4 : Rename env w3 tmp
    (getLocalImagePath workspaceDir containerImage ++ [imageHash] ++ [diskImageFileName]) with
  | mk e4 w4 =>
  rw [h4] at hok
  cases e4 with
  | some err => simp at hok
  | none =>
  simp only [Prod.mk.injEq, and_true] at hok ⊢
  -- the name of the directory is the digest of the contents
  have hd : imageHash = hexString (Sha256.sum (bytesOf content)) := by
    rw [hp] at hok
    simp [getLocalImagePath] at hok
    exact hok.1
  subst hd
  -- the state after the conversion step is that of the start on the entry directory
  have hinit1 : entryAbsent w1.fs (getLocalImagePath workspaceDir containerImage) ∨
      entryVacant w1.fs (getLocalImagePath workspaceDir containerImage) := by
    have hsame : ∀ q, getLocalImagePath workspaceDir containerImage <+: q → w1.fs q = w.fs q :=
      fun q hq => s1.2.2 q (entry_inCache workspaceDir containerImage q hq)
    rcases hinit with ha | hv
    · exact Or.inl (fun q hq => by rw [hsame q hq]; exact ha q hq)
    · refine Or.inr ⟨?_, fun q hq hne => by rw [hsame q hq]; exact hv.2 q hq hne⟩
      obtain ⟨t', ht'⟩ := hv.1
      exact ⟨t', by rw [hsame _ (List.prefix_refl _)]; exact ht'⟩
  have hhome : w1.fs (getLocalImagePath workspaceDir containerImage ++
      [hexString (Sha256.sum (bytesOf content))]) = none := by
    rcases hinit1 with ha | hv
    · exact ha _ (List.prefix_append _ _)
    · exact hv.2 _ (List.prefix_append _ _) (by
        intro hh
        have := congrArg List.length hh
        simp at this)
  have hdir := Rename_parent_dir env w3 w4 _ _ h4
  simp only [List.dropLast_concat] at hdir
  have hmk : MkdirAll env (w1.emit (.logInfo "pulled image"
      [("path", render tmp), ("rootfs-path", render (getLocalImagePath workspaceDir containerImage ++
        [hexString (Sha256.sum (bytesOf content))]))]))
      (getLocalImagePath workspaceDir containerImage ++
        [hexString (Sha256.sum (bytesOf content))]) = (none, w3) := by
    rcases EnsureDirectoryExists_inv env _ w3 _ h3 hhome with h | h
    · rw [h] at hdir
      simp [isDirAt, World.emit, hhome] at hdir
    · exact h
  obtain ⟨hentry, -⟩ := MkdirAll_fresh env _ w3 workspaceDir containerImage _
    (show entryAbsent (w1.emit (.logInfo "pulled image"
      [("path", render tmp), ("rootfs-path", render (getLocalImagePath workspaceDir containerImage ++
        [hexString (Sha256.sum (bytesOf content))]))])).fs
        (getLocalImagePath workspaceDir containerImage) ∨ _ from hinit1) hmk
  have s4 := Rename_step (fun _ => True) env w3 tmp
    (getLocalImagePath workspaceDir containerImage ++
      [hexString (Sha256.sum (bytesOf content))] ++ [diskImageFileName])
  rw [h4] at s4
  have hkeep := s4.2.2 (getLocalImagePath workspaceDir containerImage) (by
    have hlen : ∀ {a b : Path}, a = b → a.length = b.length := fun h => congrArg _ h
    rw [htmp]
    rintro (h | h | h | h)
    · have := hlen h; simp [getLocalImagePath] at this
    · have := hlen h; simp at this
    · exact tempFile_not_above env workspaceDir [HashString containerImage]
        (by simpa [getLocalImagePath] using h)
    · have := h.length_le; simp at this)
  rw [hkeep]
  exact hentry

theorem cachedDiskImagePath_of_init (S : SliceSort) (w : World)
    (workspaceDir containerImage : String)
    (hinit : entryAbsent w.fs (getLocalImagePath workspaceDir containerImage) ∨
      entryVacant w.fs (getLocalImagePath workspaceDir containerImage)) :
    (cachedDiskImagePath S w workspaceDir containerImage).1.1 = [] ∧
    (cachedDiskImagePath S w workspaceDir containerImage).2 = w := by
  simp only [cachedDiskImagePath]
  rcases hinit with ha | hv
  · have hnone := ha _ (List.prefix_refl _)
    simp only [ReadDir, hnone]
    split <;> exact ⟨rfl, rfl⟩
  · obtain ⟨t, ht⟩ := hv.1
    simp [ReadDir, ht]

theorem cachedDiskImagePath_single (S : SliceSort) (w : World)
    (workspaceDir containerImage d : String) (t : Int)
    (hentry : w.fs (getLocalImagePath workspaceDir containerImage) = some (.dir [d] t))
    (himage : (w.fs (getLocalImagePath workspaceDir containerImage ++
      [d, diskImageFileName])).isSome = true) :
    (cachedDiskImagePath S w workspaceDir containerImage).1 =
      (getLocalImagePath workspaceDir containerImage ++ [d, diskImageFileName], none) := by
  have hperm := S.perm lessByModTime
    [dirEntry w.fs (getLocalImagePath workspaceDir containerImage) d]
  rw [List.perm_singleton] at hperm
  obtain ⟨n, hn⟩ := Option.isSome_iff_exists.mp himage
  simp [cachedDiskImagePath, ReadDir, hentry, hperm, dirEntry_name, World.emit, FileExists, Stat,
    hn]

/-- Claim C5. When the entry directory of the image is absent or vacant (it lists nothing,
and nothing is below it) and `CreateDiskImage` succeeds with the path `p`, then in the state
it leaves `cachedDiskImagePath` returns `p`, and a second `CreateDiskImage` with the same
arguments, whatever its collaborators and the caller's context, returns `p`, leaves the file
system and its history as they are, and adds no call but the log line of the cache check: no
`DoChan`, no image copy, no unpack, no `du`, no `mke2fs`. -/
theorem CreateDiskImage_miss_then_hit (S : SliceSort) (env env2 : Env) (w : World)
    (workspaceDir containerImage : String) (creds : PullCredentials) (p : Path)
    (hinit : entryAbsent w.fs (getLocalImagePath workspaceDir containerImage) ∨
      entryVacant w.fs (getLocalImagePath workspaceDir containerImage))
    (hok : (CreateDiskImage S env w workspaceDir containerImage creds).1 = (p, none)) :
    (cachedDiskImagePath S (CreateDiskImage S env w workspaceDir containerImage creds).2
      workspaceDir containerImage).1 = (p, none) ∧
    (CreateDiskImage S env2 (CreateDiskImage S env w workspaceDir containerImage creds).2
      workspaceDir containerImage creds).1 = (p, none) ∧
    (CreateDiskImage S env2 (CreateDiskImage S env w workspaceDir containerImage creds).2
      workspaceDir containerImage creds).2.fs =
      (CreateDiskImage S env w workspaceDir containerImage creds).2.fs ∧
    (CreateDiskImage S env2 (CreateDiskImage S env w workspaceDir containerImage creds).2
      workspaceDir containerImage creds).2.history =
      (CreateDiskImage S env w workspaceDir containerImage creds).2.history ∧
    (CreateDiskImage S env2 (CreateDiskImage S env w workspaceDir containerImage creds).2
      workspaceDir containerImage creds).2.trace =
      (CreateDiskImage S env w workspaceDir containerImage creds).2.trace ++
        [.logInfo "check image cache" [("path", render p)]] := by
  obtain ⟨hc1, hc2⟩ := cachedDiskImagePath_of_init S w workspaceDir containerImage hinit
  have hrun : (CreateDiskImage S env w workspaceDir containerImage creds).2 =
      (createExt4Image env (w.emit (.doChan (singleflightKey [workspaceDir, containerImage,
        creds.Username, creds.Password]))) workspaceDir containerImage).2 ∧
      (createExt4Image env (w.emit (.doChan (singleflightKey [workspaceDir, containerImage,
        creds.Username, creds.Password]))) workspaceDir containerImage).1 = (p, none) := by
    simp only [CreateDiskImage] at hok ⊢
    cases hc : cachedDiskImagePath S w workspaceDir containerImage with
    | mk r w1 =>
      rw [hc] at hok hc1 hc2
      obtain ⟨existing, e⟩ := r
      simp only at hc1 hc2
      subst hc1 hc2
      cases e with
      | some err => simp at hok
      | none =>
        simp only [ne_eq, not_true_eq_false, if_false] at hok ⊢
        cases hctx : env.ctxDone with
        | some err => rw [hctx] at hok; simp at hok
        | none =>
          rw [hctx] at hok
          simp only at hok ⊢
          cases hres : (createExt4Image env (w1.emit (.doChan (singleflightKey [workspaceDir,
            containerImage, creds.Username, creds.Password]))) workspaceDir containerImage).1 with
          | mk val e2 =>
            rw [hres] at hok
            cases e2 with
            | some err => simp at hok
            | none =>
              simp only [Prod.mk.injEq, and_true] at hok
              subst hok
              exact ⟨rfl, rfl⟩
  obtain ⟨hw, hres⟩ := hrun
  obtain ⟨d, hentry, hp, himage⟩ := createExt4Image_fresh env _ workspaceDir containerImage p
    (show entryAbsent (w.emit (.doChan (singleflightKey [workspaceDir, containerImage,
      creds.Username, creds.Password]))).fs (getLocalImagePath workspaceDir containerImage) ∨ _
      from hinit) hres
  rw [← hw] at hentry himage
  have hhit : (cachedDiskImagePath S (CreateDiskImage S env w workspaceDir containerImage creds).2
      workspaceDir containerImage).1 = (p, none) := by
    rw [hp] at himage ⊢
    exact cachedDiskImagePath_single S _ workspaceDir containerImage d env.now hentry himage
  have hne : p ≠ [] := by rw [hp]; simp
  exact ⟨hhit, CreateDiskImage_on_hit S env2 _ workspaceDir containerImage creds p hhit hne⟩

set_option maxRecDepth 100000 in
theorem emptyWorkspaceFS_entryAbsent : entryAbsent emptyWorkspaceFS (getLocalImagePath "/ws" "img") := by
  intro q hq
  obtain ⟨r, rfl⟩ := hq
  have hp : pathOf "/ws" = ["", "ws"] := by decide
  simp [emptyWorkspaceFS, fsOf, getLocalImagePath, List.lookup, hp]

set_option maxRecDepth 100000 in
theorem CreateDiskImage_miss_then_hit_witness :
    (cachedDiskImagePath goSort (CreateDiskImage goSort demoEnv (World.start emptyWorkspaceFS)
      "/ws" "img" ⟨"user", "secret"⟩).2 "/ws" "img").1 =
      (getLocalImagePath "/ws" "img" ++ [HashString "IMAGE", diskImageFileName], none) ∧
    (CreateDiskImage goSort demoEnv (CreateDiskImage goSort demoEnv (World.start emptyWorkspaceFS)
      "/ws" "img" ⟨"user", "secret"⟩).2 "/ws" "img" ⟨"user", "secret"⟩).1 =
      (getLocalImagePath "/ws" "img" ++ [HashString "IMAGE", diskImageFileName], none) ∧
    (CreateDiskImage goSort demoEnv (CreateDiskImage goSort demoEnv (World.start emptyWorkspaceFS)
      "/ws" "img" ⟨"user", "secret"⟩).2 "/ws" "img" ⟨"user", "secret"⟩).2.fs =
      (CreateDiskImage goSort demoEnv (World.start emptyWorkspaceFS) "/ws" "img"
        ⟨"user", "secret"⟩).2.fs ∧
    (CreateDiskImage goSort demoEnv (CreateDiskImage goSort demoEnv (World.start emptyWorkspaceFS)
      "/ws" "img" ⟨"user", "secret"⟩).2 "/ws" "img" ⟨"user", "secret"⟩).2.history =
      (CreateDiskImage goSort demoEnv (World.start emptyWorkspaceFS) "/ws" "img"
        ⟨"user", "secret"⟩).2.history ∧
    (CreateDiskImage goSort demoEnv (CreateDiskImage goSort demoEnv (World.start emptyWorkspaceFS)
      "/ws" "img" ⟨"user", "secret"⟩).2 "/ws" "img" ⟨"user", "secret"⟩).2.trace =
      (CreateDiskImage goSort demoEnv (World.start emptyWorkspaceFS) "/ws" "img"
        ⟨"user", "secret"⟩).2.trace ++ [.logInfo "check image cache" [("path",
          render (getLocalImagePath "/ws" "img" ++ [HashString "IMAGE", diskImageFileName]))]] :=
  CreateDiskImage_miss_then_hit goSort demoEnv demoEnv (World.start emptyWorkspaceFS) "/ws" "img"
    ⟨"user", "secret"⟩ (getLocalImagePath "/ws" "img" ++ [HashString "IMAGE", diskImageFileName])
    (Or.inl emptyWorkspaceFS_entryAbsent) (by decide)

theorem bitLengthAux_eq (fuel n : Nat) (h : n ≤ fuel) :
    bitLengthAux fuel n = if n = 0 then 0 else Nat.log2 n + 1 := by
  induction fuel generalizing n with
  | zero =>
    have : n = 0 := by omega
    simp [bitLengthAux, this]
  | succ fuel ih =>
    unfold bitLengthAux
    by_cases h0 : n = 0
    · simp [h0]
    · simp only [h0, if_false]
      rw [ih (n / 2) (by omega)]
      by_cases h1 : n / 2 = 0
      · have hn1 : n = 1 := by omega
        subst hn1
        simp [Nat.log2]
      · simp only [h1, if_false]
        have h2 : 2 ≤ n := by omega
        conv_rhs => rw [Nat.log2]
        simp [h2]

theorem bitLength_eq (n : Nat) : bitLength n = if n = 0 then 0 else Nat.log2 n + 1 :=
  bitLengthAux_eq n n (Nat.le_refl n)

theorem roundF64_exact (n : Nat) (e : Int) (h : n < 2 ^ 53) : roundF64 n e = (n, e) := by
  unfold roundF64
  rw [bitLength_eq]
  by_cases h0 : n = 0
  · simp [h0]
  · have : Nat.log2 n < 53 := (Nat.log2_lt h0).mpr h
    simp only [h0, if_false]
    rw [if_pos (by omega)]

theorem roundF64_up (n : Nat) (e : Int) (L : Nat) (hL : 1 ≤ L) (hn : n ≠ 0)
    (hlog : Nat.log2 n = L + 52) (hr : 2 ^ (L - 1) < n % 2 ^ L) :
    roundF64 n e = (n / 2 ^ L + 1, e + L) := by
  unfold roundF64
  rw [bitLength_eq]
  simp only [hn, if_false, hlog]
  have h1 : ¬ (L + 52 + 1 ≤ 53) := by omega
  have h2 : L + 52 + 1 - 53 = L := by omega
  simp only [h1, if_false, h2]
  rw [if_pos (Or.inl hr)]

theorem three_not_dvd_two_pow (L : Nat) : ¬ 3 ∣ 2 ^ L := by
  intro h
  have := Nat.Prime.dvd_of_dvd_pow Nat.prime_three h
  omega

/-- The product of a multiple of 5 by the float64 constant `1.2` is exact below `2^53`. -/
theorem scaleBy1_2_exact (env : Env) (k : Nat) (hk : 6 * k < 2 ^ 53) :
    scaleBy1_2 env ((5 * k : Nat) : Int) = ((6 * k : Nat) : Int) := by
  have h5 : 5 * k < 2 ^ 53 := by omega
  unfold scaleBy1_2
  simp only [Int.natAbs_ofNat, roundF64_exact (5 * k) 0 h5, f64_1_2]
  by_cases hk0 : k = 0
  · subst hk0
    simp [roundF64_exact]
  · have hkpos : 0 < k := Nat.pos_of_ne_zero hk0
    have hN0 : 6 * k ≠ 0 := by omega
    -- the bit length of 6 * k
    obtain ⟨L, hLdef⟩ : ∃ L, Nat.log2 (6 * k) = L := ⟨_, rfl⟩
    have hlow : 2 ^ L ≤ 6 * k := by rw [← hLdef]; exact Nat.log2_self_le hN0
    have hhigh : 6 * k < 2 ^ (L + 1) := by rw [← hLdef]; exact Nat.lt_log2_self
    have hL52 : L ≤ 52 := by
      have : Nat.log2 (6 * k) < 53 := (Nat.log2_lt hN0).mpr hk
      omega
    have hL2 : 2 ≤ L := by
      have : 2 ≤ Nat.log2 (6 * k) := (Nat.le_log2 hN0).mpr (by omega)
      omega
    have hne : 2 ^ L ≠ 6 * k := by
      intro h
      exact three_not_dvd_two_pow L (h ▸ Dvd.intro (2 * k) (by ring))
    -- A = 2^L, B = 2^(52 - L), A * B = 2^52
    obtain ⟨A, hA⟩ : ∃ A, 2 ^ L = A := ⟨_, rfl⟩
    obtain ⟨B, hB⟩ : ∃ B, 2 ^ (52 - L) = B := ⟨_, rfl⟩
    obtain ⟨H, hH⟩ : ∃ H, 2 ^ (L - 1) = H := ⟨_, rfl⟩
    have hAB : A * B = 4503599627370496 := by
      rw [← hA, ← hB, ← Nat.pow_add]
      have : L + (52 - L) = 52 := by omega
      rw [this]
    have hAH : A = 2 * H := by
      rw [← hA, ← hH]
      have : L = (L - 1) + 1 := by omega
      conv_lhs => rw [this]
      rw [Nat.pow_succ]; ring
    have hA1 : 2 ^ (L + 1) = 2 * A := by rw [Nat.pow_succ, hA]; ring
    rw [hA] at hlow hne
    rw [hA1] at hhigh
    have hBpos : 0 < B := by rw [← hB]; positivity
    have hApos : 0 < A := by rw [← hA]; positivity
    -- the product, as a multiple of A and a remainder
    have hkA : k < H := by omega
    have hNB : 1 ≤ 6 * k * B := Nat.mul_pos (by omega) hBpos
    have hP : 5 * k * 5404319552844595 = (A - k) + A * (6 * k * B - 1) := by
      have e1 : A * (6 * k * B - 1) = 6 * k * (A * B) - A := by
        rw [Nat.mul_sub, Nat.mul_one]
        congr 1
        ring
      rw [e1, hAB]
      have : A ≤ 6 * k * 4503599627370496 := by nlinarith
      omega
    have hdm := (Nat.div_mod_unique (a := 5 * k * 5404319552844595) (b := A)
      (c := A - k) (d := 6 * k * B - 1) hApos).mpr ⟨hP.symm, by omega⟩
    have hPpos : 5 * k * 5404319552844595 ≠ 0 := by omega
    have hlogP : Nat.log2 (5 * k * 5404319552844595) = L + 52 := by
      have hle : L + 52 ≤ Nat.log2 (5 * k * 5404319552844595) := by
        rw [Nat.le_log2 hPpos, Nat.pow_add, hA]
        have : (2 : Nat) ^ 52 = 4503599627370496 := by norm_num
        rw [this]
        have : A + 1 ≤ 6 * k := by omega
        nlinarith
      have hlt : Nat.log2 (5 * k * 5404319552844595) < L + 53 := by
        rw [Nat.log2_lt hPpos]
        have : (2 : Nat) ^ (L + 53) = 2 * A * 4503599627370496 := by
          rw [show L + 53 = (L + 1) + 52 by omega, Nat.pow_add, hA1]
        rw [this]
        nlinarith
      omega
    have hup := roundF64_up (5 * k * 5404319552844595) (0 - 52) L (by omega) hPpos hlogP (by
      rw [hA, hH, hdm.2]; omega)
    rw [hup, hA, hdm.1]
    have hq : 6 * k * B - 1 + 1 = 6 * k * B := by omega
    simp only [hq]
    have hmag : (if (0 : Int) ≤ 0 - 52 + (L : Int) then 6 * k * B * 2 ^ (0 - 52 + (L : Int)).toNat
        else 6 * k * B / 2 ^ (-(0 - 52 + (L : Int))).toNat) = 6 * k := by
      by_cases hL' : L = 52
      · subst hL'
        have : B = 1 := by rw [← hB]; norm_num
        simp [this]
      · have hneg : ¬ (0 : Int) ≤ 0 - 52 + (L : Int) := by omega
        have hexp : (-(0 - 52 + (L : Int))).toNat = 52 - L := by omega
        rw [if_neg hneg, hexp, hB]
        exact Nat.mul_div_cancel _ hBpos
    rw [hmag]
    have hnn : ¬ (((5 * k : Nat) : Int) < 0) := by omega
    simp only [hnn, if_false]
    rw [if_neg]
    have : (2 : Nat) ^ 53 = 9007199254740992 := by norm_num
    omega

theorem DiskSizeBytes_world (env : Env) (w : World) (inputDir : Path) :
    (DiskSizeBytes env w inputDir).2 = w.emit (.du (render inputDir)) := by
  simp only [DiskSizeBytes]
  split
  · rfl
  · split
    · split <;> rfl
    · rfl

theorem runMke2fs_trace (env : Env) (w : World) (args : List String) (outputFile : Path) :
    (runMke2fs env w args outputFile).2.trace = w.trace ++ [.mke2fs args] := by
  unfold runMke2fs
  split <;> rfl

theorem imageSizeBytes_exact (env : Env) (D : Int) (h0 : 0 ≤ D) (hk : 1000 ∣ D)
    (hb : D < 7505999378950827) : imageSizeBytes env D = (12 * D + 5) / 10 + 1000000 := by
  obtain ⟨m, rfl⟩ := hk
  have hm : 0 ≤ m := by omega
  obtain ⟨n, rfl⟩ := Int.eq_ofNat_of_zero_le hm
  have hcast : (1000 * (n : Int)) = ((5 * (200 * n) : Nat) : Int) := by push_cast; ring
  unfold imageSizeBytes
  rw [hcast, scaleBy1_2_exact env (200 * n) (by norm_num; omega)]
  unfold wrap64
  push_cast
  omega

/-- Claim C10, as amended. When `DiskSizeBytes` measures `D` bytes, with `D` a multiple of
1000 (as it is unless the product by 1000 overflows) from 0 to 7,505,999,378,950,000 (so that
`D * 1.2` is below `2^53`), `DirectoryToImageAutoSize` picks the size
`round(D * 1.2) + 1,000,000`, and when the output path passes the check the calls it makes
are `du` and then `mke2fs` with the size argument `<that size divided by 1000, rounded
down>K`. -/
theorem DirectoryToImageAutoSize_size (env : Env) (w : World) (inputDir outputFile : Path)
    (D : Int) (hD : (DiskSizeBytes env w inputDir).1 = (D, none)) (h0 : 0 ≤ D)
    (hk : 1000 ∣ D) (hb : D < 7505999378950827)
    (hcheck : checkImageOutputPath w.fs outputFile = none) :
    imageSizeBytes env D = (12 * D + 5) / 10 + 1000000 ∧
    (DirectoryToImageAutoSize env w inputDir outputFile).2.trace =
      w.trace ++ [.du (render inputDir),
        .mke2fs ["/sbin/mke2fs", "-L", "''", "-N", "0", "-d", render inputDir, "-m", "5", "-r", "1",
          render outputFile, toString (((12 * D + 5) / 10 + 1000000) / 1000) ++ "K"]] := by
  have hsize := imageSizeBytes_exact env D h0 hk hb
  refine ⟨hsize, ?_⟩
  have hw := DiskSizeBytes_world env w inputDir
  simp only [DirectoryToImageAutoSize]
  cases hr : DiskSizeBytes env w inputDir with
  | mk r w1 =>
    rw [hr] at hD hw
    simp only at hD hw
    subst hD hw
    simp only [DirectoryToImage]
    have hc : checkImageOutputPath (w.emit (.du (render inputDir))).fs outputFile = none := hcheck
    rw [hc]
    simp only []
    have htr := runMke2fs_trace env (w.emit (.du (render inputDir)))
      ["/sbin/mke2fs", "-L", "''", "-N", "0", "-d", render inputDir, "-m", "5", "-r", "1",
        render outputFile, sizeArg (imageSizeBytes env D)] outputFile
    have harg : sizeArg (imageSizeBytes env D) =
        toString (((12 * D + 5) / 10 + 1000000) / 1000) ++ "K" := by
      unfold sizeArg
      rw [hsize, Int.tdiv_eq_ediv (by omega) (by omega)]
    rw [harg] at htr
    cases hm : runMke2fs env (w.emit (.du (render inputDir)))
      ["/sbin/mke2fs", "-L", "''", "-N", "0", "-d", render inputDir, "-m", "5", "-r", "1",
        render outputFile, sizeArg (imageSizeBytes env D)] outputFile with
    | mk e w2 =>
      rw [harg] at hm
      rw [hm] at htr
      cases e <;> simpa [World.emit] using htr

set_option maxRecDepth 100000 in
theorem DirectoryToImageAutoSize_size_witness :
    imageSizeBytes demoEnv 12000 = (12 * 12000 + 5) / 10 + 1000000 ∧
    (DirectoryToImageAutoSize demoEnv (World.start emptyWorkspaceFS) ["", "data"]
      ["", "ws", "out.ext4"]).2.trace =
      (World.start emptyWorkspaceFS).trace ++ [.du (render ["", "data"]),
        .mke2fs ["/sbin/mke2fs", "-L", "''", "-N", "0", "-d", render ["", "data"], "-m", "5", "-r",
          "1", render ["", "ws", "out.ext4"],
          toString (((12 * 12000 + 5) / 10 + 1000000) / 1000 : Int) ++ "K"]] :=
  DirectoryToImageAutoSize_size demoEnv (World.start emptyWorkspaceFS) ["", "data"]
    ["", "ws", "out.ext4"] 12000 (by decide) (by decide) (by decide) (by decide) (by decide)

set_option maxRecDepth 100000 in
/-- Claim C10, counterexample. `du` measures 100000000000005 blocks, so `DiskSizeBytes`
returns 100,000,000,000,005,000. The claim's size is 120,000,000,001,006,000 and its
`mke2fs` argument `120000000001006K`; `DirectoryToImageAutoSize` picks
120,000,000,001,005,984 and passes `120000000001005K`. -/
theorem DirectoryToImageAutoSize_size_counterexample :
    (DiskSizeBytes hugeDirEnv (World.start emptyWorkspaceFS) ["", "data"]).1 =
      (100000000000005000, none) ∧
    (12 * 100000000000005000 + 5) / 10 + 1000000 = (120000000001006000 : Int) ∧
    imageSizeBytes hugeDirEnv 100000000000005000 = 120000000001005984 ∧
    (DirectoryToImageAutoSize hugeDirEnv (World.start emptyWorkspaceFS) ["", "data"]
      ["", "ws", "out.ext4"]).2.trace =
      [.du "/data",
        .mke2fs ["/sbin/mke2fs", "-L", "''", "-N", "0", "-d", "/data", "-m", "5", "-r", "1",
          "/ws/out.ext4", "120000000001005K"]] := by
  decide

/-- An error of the precondition check ends `DirectoryToImage` and `MakeEmptyImage` with that
error, in the world they started in: no call of `mke2fs` is made. -/
theorem checkImageOutputPath_stops (env : Env) (w : World) (inputDir outputFile : Path)
    (sizeBytes : Int) (err : Err) (h : checkImageOutputPath w.fs outputFile = some err) :
    DirectoryToImage env w inputDir outputFile sizeBytes = (some err, w) ∧
    MakeEmptyImage env w outputFile sizeBytes = (some err, w) := by
  simp [DirectoryToImage, MakeEmptyImage, h]

/-- Claim C11. (1) When a node of size greater than 0 is at the output path,
`checkImageOutputPath` returns an error, and `DirectoryToImage` and `MakeEmptyImage` return
that error in the world they started in, so without a call of `mke2fs`. (2) The check
returns nil exactly when `os.Stat` fails with not-exist or succeeds with size 0. (3) When
`os.Stat` fails with an error other than not-exist, the check and both functions return an
error, again without a call of `mke2fs`. -/
theorem checkImageOutputPath_refusal (env : Env) (w : World) (inputDir outputFile : Path)
    (sizeBytes : Int) :
    (∀ n, w.fs outputFile = some n → 0 < n.info.size →
      ∃ err, checkImageOutputPath w.fs outputFile = some err ∧
        DirectoryToImage env w inputDir outputFile sizeBytes = (some err, w) ∧
        MakeEmptyImage env w outputFile sizeBytes = (some err, w)) ∧
    (checkImageOutputPath w.fs outputFile = none ↔
      (∃ e, Stat w.fs outputFile = .error e ∧ IsNotExist e = true) ∨
      (∃ fi, Stat w.fs outputFile = .ok fi ∧ fi.size = 0)) ∧
    (∀ e, Stat w.fs outputFile = .error e → IsNotExist e = false →
      ∃ err, checkImageOutputPath w.fs outputFile = some err ∧
        DirectoryToImage env w inputDir outputFile sizeBytes = (some err, w) ∧
        MakeEmptyImage env w outputFile sizeBytes = (some err, w)) := by
  refine ⟨?_, ?_, ?_⟩
  · intro n hn hsize
    have hc : checkImageOutputPath w.fs outputFile = some (.tool ("failed to stat output path: " ++
        render outputFile ++ ", file already exists")) := by
      simp [checkImageOutputPath, Stat, hn, hsize]
    exact ⟨_, hc, checkImageOutputPath_stops env w inputDir outputFile sizeBytes _ hc⟩
  · unfold checkImageOutputPath
    cases hs : Stat w.fs outputFile with
    | error e =>
      cases hne : IsNotExist e <;> simp [hne]
    | ok fi =>
      by_cases hz : fi.size = 0
      · simp [hz]
      · have : fi.size > 0 := Nat.pos_of_ne_zero hz
        simp [hz, this]
  · intro e he hne
    have hc : checkImageOutputPath w.fs outputFile =
        some (.wrapped ("failed to stat output path: " ++ render outputFile) e) := by
      simp [checkImageOutputPath, he, hne]
    exact ⟨_, hc, checkImageOutputPath_stops env w inputDir outputFile sizeBytes _ hc⟩

/-- In `/ws`, both functions refuse to write to `out.ext4`, which holds `IMAGE`, and to
`out.ext4/x`, where `os.Stat` fails with `ENOTDIR`, and leave the world as it was; the check
passes for the empty file `new.ext4` and for the absent `absent.ext4`, and there
`DirectoryToImage` does call `mke2fs`. -/
theorem checkImageOutputPath_refusal_witness :
    (∃ err, checkImageOutputPath outputFilesFS ["", "ws", "out.ext4"] = some err ∧
      DirectoryToImage demoEnv (World.start outputFilesFS) ["", "data"] ["", "ws", "out.ext4"]
        1000000 = (some err, World.start outputFilesFS) ∧
      MakeEmptyImage demoEnv (World.start outputFilesFS) ["", "ws", "out.ext4"] 1000000 =
        (some err, World.start outputFilesFS)) ∧
    (∃ err, checkImageOutputPath outputFilesFS ["", "ws", "out.ext4", "x"] = some err ∧
      DirectoryToImage demoEnv (World.start outputFilesFS) ["", "data"]
        ["", "ws", "out.ext4", "x"] 1000000 = (some err, World.start outputFilesFS) ∧
      MakeEmptyImage demoEnv (World.start outputFilesFS) ["", "ws", "out.ext4", "x"] 1000000 =
        (some err, World.start outputFilesFS)) ∧
    checkImageOutputPath outputFilesFS ["", "ws", "new.ext4"] = none ∧
    checkImageOutputPath outputFilesFS ["", "ws", "absent.ext4"] = none ∧
    (DirectoryToImage demoEnv (World.start outputFilesFS) ["", "data"] ["", "ws", "new.ext4"]
      1000000).2.trace = [.mke2fs ["/sbin/mke2fs", "-L", "''", "-N", "0", "-d", "/data", "-m", "5",
        "-r", "1", "/ws/new.ext4", "1000K"]] :=
  ⟨(checkImageOutputPath_refusal demoEnv (World.start outputFilesFS) ["", "data"]
      ["", "ws", "out.ext4"] 1000000).1 (.file "IMAGE" 0) (by decide) (by decide),
    (checkImageOutputPath_refusal demoEnv (World.start outputFilesFS) ["", "data"]
      ["", "ws", "out.ext4", "x"] 1000000).2.2
      (.path "stat" ["", "ws", "out.ext4", "x"] .ENOTDIR) (by rfl) (by decide),
    ((checkImageOutputPath_refusal demoEnv (World.start outputFilesFS) ["", "data"]
      ["", "ws", "new.ext4"] 1000000).2.1).mpr (Or.inr ⟨⟨false, 0, 0⟩, by rfl, by decide⟩),
    ((checkImageOutputPath_refusal demoEnv (World.start outputFilesFS) ["", "data"]
      ["", "ws", "absent.ext4"] 1000000).2.1).mpr
      (Or.inl ⟨.path "stat" ["", "ws", "absent.ext4"] .ENOENT, by rfl, by decide⟩),
    by decide⟩

/-- An error that `cachedDiskImagePath` returns is not a not-exist error, and it is the error
of the listing or the error of the `os.Stat` that `FileExists` runs on `containerfs.ext4`
under an entry that sorts last. -/
theorem cachedDiskImagePath_error_source (S : SliceSort) (w : World)
    (workspaceDir containerImage : String) (err : Err)
    (h : (cachedDiskImagePath S w workspaceDir containerImage).1.2 = some err) :
    IsNotExist err = false ∧
    (ReadDir w.fs (getLocalImagePath workspaceDir containerImage) = .error err ∨
      ∃ n, sortsLast w.fs (getLocalImagePath workspaceDir containerImage) n ∧
        Stat w.fs (getLocalImagePath workspaceDir containerImage ++ [n, diskImageFileName]) =
          .error err) := by
  simp only [cachedDiskImagePath] at h
  cases hr : ReadDir w.fs (getLocalImagePath workspaceDir containerImage) with
  | error e =>
    simp only [hr] at h
    cases hne : IsNotExist e with
    | true => simp [hne] at h
    | false =>
      simp [hne] at h
      subst h
      exact ⟨hne, Or.inl rfl⟩
  | ok files =>
    simp only [hr] at h
    by_cases hlen : files.length = 0
    · simp [hlen] at h
    · simp only [hlen, if_false] at h
      cases hl : (S.apply lessByModTime files).getLast? with
      | none => simp [hl] at h
      | some last =>
        obtain ⟨hmem, hmax⟩ := sorted_last_is_newest S files last hl
        simp only [hl, World.emit] at h
        -- the listing is that of a directory node
        unfold ReadDir at hr
        cases hfs : w.fs (getLocalImagePath workspaceDir containerImage) with
        | none => simp [hfs] at hr
        | some node =>
          cases node with
          | file c t => simp [hfs] at hr
          | dir names t =>
            simp only [hfs, Except.ok.injEq] at hr
            subst hr
            obtain ⟨n, hn, rfl⟩ := List.mem_map.mp hmem
            simp only [dirEntry_name] at h
            unfold FileExists at h
            cases hs : Stat w.fs
              (getLocalImagePath workspaceDir containerImage ++ [n, diskImageFileName]) with
            | ok fi => simp [hs] at h
            | error e =>
              cases hne : IsNotExist e with
              | true => simp [hs, hne] at h
              | false =>
                simp [hs, hne] at h
                subst h
                exact ⟨hne, Or.inr ⟨n, ⟨names, t, hfs, hn,
                  fun n' hn' => hmax _ (List.mem_map.mpr ⟨n', hn', rfl⟩)⟩, hs⟩⟩

/-- Claim C12, as amended. An error that `cachedDiskImagePath` returns is never a not-exist
error, and it is either the error of listing the entry directory or the error of the
`os.Stat` of `containerfs.ext4` under an entry that sorts last. Hence, in every state in
which the listing succeeds or fails with not-exist, and in which that `os.Stat` succeeds or
fails with not-exist for every entry that sorts last, the function returns a nil error. -/
theorem cachedDiskImagePath_errors (S : SliceSort) (w : World)
    (workspaceDir containerImage : String) :
    (∀ err, (cachedDiskImagePath S w workspaceDir containerImage).1.2 = some err →
      IsNotExist err = false ∧
      (ReadDir w.fs (getLocalImagePath workspaceDir containerImage) = .error err ∨
        ∃ n, sortsLast w.fs (getLocalImagePath workspaceDir containerImage) n ∧
          Stat w.fs (getLocalImagePath workspaceDir containerImage ++ [n, diskImageFileName]) =
            .error err)) ∧
    (((∃ files, ReadDir w.fs (getLocalImagePath workspaceDir containerImage) = .ok files) ∨
        (∃ e, ReadDir w.fs (getLocalImagePath workspaceDir containerImage) = .error e ∧
          IsNotExist e = true)) →
      (∀ n, sortsLast w.fs (getLocalImagePath workspaceDir containerImage) n →
        ∀ e, Stat w.fs (getLocalImagePath workspaceDir containerImage ++
          [n, diskImageFileName]) = .error e → IsNotExist e = true) →
      (cachedDiskImagePath S w workspaceDir containerImage).1.2 = none) := by
  refine ⟨cachedDiskImagePath_error_source S w workspaceDir containerImage, ?_⟩
  intro hlist hstat
  cases hres : (cachedDiskImagePath S w workspaceDir containerImage).1.2 with
  | none => rfl
  | some err =>
    obtain ⟨hne, hsrc⟩ := cachedDiskImagePath_error_source S w workspaceDir containerImage err hres
    rcases hsrc with hrd | ⟨n, hn, hs⟩
    · rcases hlist with ⟨files, hf⟩ | ⟨e, he, hex⟩
      · rw [hf] at hrd; cases hrd
      · rw [he] at hrd
        cases hrd
        rw [hex] at hne; cases hne
    · have := hstat n hn err hs
      rw [this] at hne; cases hne

set_option maxRecDepth 100000 in
theorem cachedDiskImagePath_errors_witness :
    (∃ files, ReadDir cachedFS (getLocalImagePath "/ws" "img") = .ok files) ∧
    (∀ n, sortsLast cachedFS (getLocalImagePath "/ws" "img") n →
      ∀ e, Stat cachedFS (getLocalImagePath "/ws" "img" ++ [n, diskImageFileName]) = .error e →
        IsNotExist e = true) ∧
    (cachedDiskImagePath goSort (World.start cachedFS) "/ws" "img").1.2 = none :=
  have hlist : ∃ files, ReadDir cachedFS (getLocalImagePath "/ws" "img") = .ok files :=
    ⟨[dirEntry cachedFS (getLocalImagePath "/ws" "img") "aaa"], by rfl⟩
  have hstat : ∀ n, sortsLast cachedFS (getLocalImagePath "/ws" "img") n →
      ∀ e, Stat cachedFS (getLocalImagePath "/ws" "img" ++ [n, diskImageFileName]) = .error e →
        IsNotExist e = true := by
    intro n hn e he
    obtain ⟨names, t, hfs, hmem, _⟩ := hn
    have hdir : cachedFS (getLocalImagePath "/ws" "img") = some (.dir ["aaa"] 0) := by decide
    rw [hdir] at hfs
    cases hfs
    have hn : n = "aaa" := by simpa using hmem
    subst hn
    have hok : Stat cachedFS (getLocalImagePath "/ws" "img" ++ ["aaa", diskImageFileName]) =
        .ok ⟨false, 5, 100000000000⟩ := by rfl
    rw [hok] at he
    cases he
  ⟨hlist, hstat,
    (cachedDiskImagePath_errors goSort (World.start cachedFS) "/ws" "img").2 (Or.inl hlist) hstat⟩

set_option maxRecDepth 100000 in
/-- Claim C12, counterexample. In `/ws`, the entry directory of `img` holds the regular file
`README` and nothing else. The listing succeeds, with that one entry, and
`cachedDiskImagePath` returns the error of the `os.Stat` of `README/containerfs.ext4`,
which is `ENOTDIR`. -/
theorem cachedDiskImagePath_stat_error_counterexample :
    ReadDir loneFileFS (getLocalImagePath "/ws" "img") =
      .ok [⟨"README", false, some ⟨false, 1, 100000000000⟩⟩] ∧
    (cachedDiskImagePath goSort (World.start loneFileFS) "/ws" "img").1 =
      ([], some (.path "stat" (getLocalImagePath "/ws" "img" ++ ["README", diskImageFileName])
        .ENOTDIR)) :=
  ⟨by rfl, by decide⟩

theorem Sha256.sum_length (msg : List Nat) : (Sha256.sum msg).length = 32 := by
  simp [Sha256.sum, Sha256.be32]

theorem hexDigit_isLowerHex (n : Nat) : isLowerHex (hexDigit n) = true := by
  unfold hexDigit
  rcases Nat.lt_or_ge n 16 with h | h
  · interval_cases n <;> rfl
  · have : "0123456789abcdef".data.getD n '0' = '0' := by
      rw [List.getD_eq_getElem?_getD, List.getElem?_eq_none (by simpa using h)]
      rfl
    rw [this]
    rfl

theorem hexString_length (digest : List Nat) : (hexString digest).length = 2 * digest.length := by
  unfold hexString
  rw [String.length]
  induction digest with
  | nil => rfl
  | cons b bs ih => simp only [List.flatMap_cons, List.length_append, ih, hexByte, List.length_cons,
      List.length_nil]; omega

theorem hexString_isLowerHex (digest : List Nat) :
    ∀ c ∈ (hexString digest).data, isLowerHex c = true := by
  intro c hc
  simp only [hexString, List.mem_flatMap, hexByte, List.mem_cons, List.mem_singleton,
    List.not_mem_nil, or_false] at hc
  obtain ⟨b, _, rfl | rfl⟩ := hc <;> exact hexDigit_isLowerHex _

theorem HashString_length (input : String) : (HashString input).length = 64 := by
  rw [HashString, hexString_length, Sha256.sum_length]

theorem foldl_digests_data (args : List String) (acc : String) :
    (args.foldl (fun h s => h ++ HashString s) acc).data =
      acc.data ++ args.flatMap (fun s => (HashString s).data) := by
  induction args generalizing acc with
  | nil => simp
  | cons x xs ih => simp [List.foldl_cons, ih, String.data_append, List.flatMap_cons]

theorem keyMaterial_data (args : List String) :
    (keyMaterial args).data = args.flatMap (fun s => (HashString s).data) := by
  simp [keyMaterial, foldl_digests_data]

/-- Digests of one width, written one after the other, can be read back one by one. -/
theorem digests_of_flatMap (a b : List String)
    (h : a.flatMap (fun s => (HashString s).data) = b.flatMap (fun s => (HashString s).data)) :
    a.map HashString = b.map HashString := by
  induction a generalizing b with
  | nil =>
    cases b with
    | nil => rfl
    | cons y ys =>
      have hl := congrArg List.length h
      have hy : (HashString y).data.length = 64 := HashString_length y
      simp only [List.flatMap_nil, List.flatMap_cons, List.length_nil, List.length_append] at hl
      omega
  | cons x xs ih =>
    cases b with
    | nil =>
      have hl := congrArg List.length h
      have hx : (HashString x).data.length = 64 := HashString_length x
      simp only [List.flatMap_nil, List.flatMap_cons, List.length_nil, List.length_append] at hl
      omega
    | cons y ys =>
      have hx : (HashString x).data.length = 64 := HashString_length x
      have hy : (HashString y).data.length = 64 := HashString_length y
      simp only [List.flatMap_cons] at h
      obtain ⟨h1, h2⟩ := List.append_inj h (hx.trans hy.symm)
      simp only [List.map_cons]
      rw [String.ext h1, ih ys h2]

theorem digests_of_keyMaterial (a b : List String) (h : keyMaterial a = keyMaterial b) :
    a.map HashString = b.map HashString := by
  apply digests_of_flatMap
  rw [← keyMaterial_data, ← keyMaterial_data, h]

set_option maxRecDepth 100000 in
/-- Claim C13. `HashString` returns 64 characters, each one of `0` to `9` or `a` to `f`.
`singleflightKey` is `HashString` of the digests of its arguments written one after the
other, and that string determines the digests: when it is the same for `a` and `b`, the two
lists have the same length and the digests of their arguments agree at every index, so that
`a` and `b` are equal or two different strings have the same digest. The lists
`["ab", "c"]` and `["a", "bc"]` give different strings. -/
theorem singleflightKey_material (input : String) (a b : List String) :
    ((HashString input).length = 64 ∧ ∀ c ∈ (HashString input).data, isLowerHex c = true) ∧
    singleflightKey a = HashString (keyMaterial a) ∧
    (keyMaterial a = keyMaterial b →
      a.length = b.length ∧
      (∀ i (ha : i < a.length) (hb : i < b.length),
        HashString (a.get ⟨i, ha⟩) = HashString (b.get ⟨i, hb⟩)) ∧
      (a ≠ b → ∃ x y, x ≠ y ∧ HashString x = HashString y)) ∧
    keyMaterial ["ab", "c"] ≠ keyMaterial ["a", "bc"] := by
  refine ⟨⟨HashString_length input, hexString_isLowerHex _⟩, rfl, ?_, by decide⟩
  intro h
  have hmap := digests_of_keyMaterial a b h
  have hlen : a.length = b.length := by
    have := congrArg List.length hmap
    simpa using this
  refine ⟨hlen, ?_, ?_⟩
  · intro i ha hb
    have := congrArg (fun l => l[i]?) hmap
    simpa [List.getElem?_map, List.getElem?_eq_getElem ha, List.getElem?_eq_getElem hb] using this
  · intro hab
    by_contra hno
    push_neg at hno
    apply hab
    have hinj : Function.Injective HashString := fun x y hxy => by
      by_contra hne
      exact hno x y hne hxy
    exact List.map_injective_iff.mpr hinj hmap

set_option maxRecDepth 100000 in
theorem singleflightKey_material_witness :
    (HashString "abc").length = 64 ∧
    singleflightKey ["/ws", "img", "user", "secret"] =
      HashString (keyMaterial ["/ws", "img", "user", "secret"]) ∧
    (["ab", "c"].length = ["ab", "c"].length ∧
      (∀ i (ha : i < ["ab", "c"].length) (hb : i < ["ab", "c"].length),
        HashString (["ab", "c"].get ⟨i, ha⟩) = HashString (["ab", "c"].get ⟨i, hb⟩)) ∧
      (["ab", "c"] ≠ ["ab", "c"] → ∃ x y, x ≠ y ∧ HashString x = HashString y)) ∧
    keyMaterial ["ab", "c"] ≠ keyMaterial ["a", "bc"] :=
  ⟨(singleflightKey_material "abc" [] []).1.1,
    (singleflightKey_material "" ["/ws", "img", "user", "secret"] []).2.1,
    (singleflightKey_material "" ["ab", "c"] ["ab", "c"]).2.2.1 rfl,
    (singleflightKey_material "" [] []).2.2.2⟩

/-- The split of `unrawpack` when a `:` is there: the text before the first one and the text
after it. -/
theorem splitImage_at_colon (before after : List Char) (h : ':' ∉ before) :
    splitImage (String.mk (before ++ ':' :: after)) = (String.mk before, String.mk after) := by
  have hb : ∀ a ∈ before, (decide (a ≠ ':')) = true := by
    intro a ha
    simp only [ne_eq, decide_not, Bool.not_eq_true', decide_eq_false_iff_not]
    rintro rfl
    exact h ha
  simp only [splitImage, List.span_eq_take_drop, List.takeWhile_append_of_pos hb,
    List.dropWhile_append_of_pos hb]
  simp

/-- The split of `unrawpack` when no `:` is there: the whole text, and `latest`. -/
theorem splitImage_no_colon (image : String) (h : ':' ∉ image.data) :
    splitImage image = (image, "latest") := by
  have hb : ∀ a ∈ image.data, (decide (a ≠ ':')) = true := by
    intro a ha
    simp only [ne_eq, decide_not, Bool.not_eq_true', decide_eq_false_iff_not]
    rintro rfl
    exact h ha
  have h1 : List.takeWhile (fun c => decide (c ≠ ':')) image.data = image.data :=
    List.takeWhile_eq_self_iff.mpr hb
  have h2 : List.dropWhile (fun c => decide (c ≠ ':')) image.data = [] := by
    have := List.takeWhile_append_dropWhile (fun c => decide (c ≠ ':')) image.data
    rw [h1] at this
    simpa using this
  simp only [splitImage, List.span_eq_take_drop, h1, h2]

/-- The image path that `unrawpack` opens never contains a `:`. -/
theorem splitImage_path_no_colon (image : String) : ':' ∉ (splitImage image).1.data := by
  have hmem : ∀ c ∈ List.takeWhile (fun c => decide (c ≠ ':')) image.data, c ≠ ':' := by
    intro c hc
    simpa using List.mem_takeWhile_imp hc
  intro hin
  have hfst : (splitImage image).1.data = List.takeWhile (fun c => decide (c ≠ ':')) image.data := by
    simp only [splitImage, List.span_eq_take_drop]
    split <;> rename_i heq <;> simp only [Prod.mk.injEq] at heq <;> rw [← heq.1]
  rw [hfst] at hin
  exact hmem _ hin rfl

theorem splitAt_chars (sep : Char) (cs cur : List Char) :
    ∀ s ∈ splitAt sep cs cur, ∀ c ∈ s.data, c ∈ cs ∨ c ∈ cur := by
  induction cs generalizing cur with
  | nil =>
    intro s hs c hc
    simp only [splitAt, List.mem_singleton] at hs
    subst hs
    exact Or.inr (by simpa using hc)
  | cons x xs ih =>
    intro s hs c hc
    simp only [splitAt] at hs
    split at hs
    · rcases List.mem_cons.mp hs with hs | hs
      · subst hs
        exact Or.inr (by simpa using hc)
      · rcases ih [] s hs c hc with h | h
        · exact Or.inl (List.mem_cons_of_mem _ h)
        · simp at h
    · rcases ih (x :: cur) s hs c hc with h | h
      · exact Or.inl (List.mem_cons_of_mem _ h)
      · rcases List.mem_cons.mp h with h | h
        · exact Or.inl (by rw [h]; exact List.mem_cons_self _ _)
        · exact Or.inr h

theorem cleanRev_mem (rooted : Bool) (cs rev : List String) :
    ∀ x ∈ cleanRev rooted cs rev, x ∈ cs ∨ x ∈ rev := by
  induction cs generalizing rev with
  | nil => intro x hx; exact Or.inr hx
  | cons c cs ih =>
    intro x hx
    simp only [cleanRev] at hx
    split at hx
    · rcases ih rev x hx with h | h
      · exact Or.inl (List.mem_cons_of_mem _ h)
      · exact Or.inr h
    · split at hx
      · rename_i hdots
        split at hx
        · rcases ih _ x hx with h | h
          · exact Or.inl (List.mem_cons_of_mem _ h)
          · split at h
            · simp at h
            · simp only [List.mem_singleton] at h
              exact Or.inl (by rw [h, hdots]; exact List.mem_cons_self _ _)
        · split at hx
          · rcases ih _ x hx with h | h
            · exact Or.inl (List.mem_cons_of_mem _ h)
            · rcases List.mem_cons.mp h with h | h
              · exact Or.inl (by rw [h, hdots]; exact List.mem_cons_self _ _)
              · exact Or.inr h
          · rcases ih _ x hx with h | h
            · exact Or.inl (List.mem_cons_of_mem _ h)
            · exact Or.inr (List.mem_cons_of_mem _ h)
      · rcases ih _ x hx with h | h
        · exact Or.inl (List.mem_cons_of_mem _ h)
        · rcases List.mem_cons.mp h with h | h
          · exact Or.inl (by rw [h]; exact List.mem_cons_self _ _)
          · exact Or.inr h

/-- The characters of the components of a path are characters of the string it was read
from. -/
theorem pathOf_chars (s : String) : ∀ x ∈ pathOf s, ∀ c ∈ x.data, c ∈ s.data := by
  intro x hx c hc
  have hpiece : ∀ (cs : List Char) (rooted : Bool),
      x ∈ (cleanRev rooted (splitAt '/' cs []) []).reverse → c ∈ cs := by
    intro cs rooted hmem
    rcases cleanRev_mem rooted _ [] x (List.mem_reverse.mp hmem) with h | h
    · rcases splitAt_chars '/' cs [] x h c hc with h2 | h2
      · exact h2
      · simp at h2
    · simp at h
  unfold pathOf at hx
  split at hx
  · rename_i cs heq
    rcases List.mem_cons.mp hx with hx | hx
    · subst hx
      simp at hc
    · rw [heq]
      exact List.mem_cons_of_mem _ (hpiece cs true hx)
  · exact hpiece _ false hx

theorem intercalate_go_chars (sep : String) (as : List String) (acc : String) :
    ∀ c ∈ (String.intercalate.go acc sep as).data,
      c ∈ acc.data ∨ c ∈ sep.data ∨ ∃ a ∈ as, c ∈ a.data := by
  induction as generalizing acc with
  | nil =>
    intro c hc
    exact Or.inl (by simpa [String.intercalate.go] using hc)
  | cons a as ih =>
    intro c hc
    simp only [String.intercalate.go] at hc
    rcases ih _ c hc with h | h | ⟨b, hb, h⟩
    · simp only [String.data_append, List.mem_append] at h
      rcases h with (h | h) | h
      · exact Or.inl h
      · exact Or.inr (Or.inl h)
      · exact Or.inr (Or.inr ⟨a, List.mem_cons_self _ _, h⟩)
    · exact Or.inr (Or.inl h)
    · exact Or.inr (Or.inr ⟨b, List.mem_cons_of_mem _ hb, h⟩)

/-- A character of the Go string of a path is `/` or a character of a component. -/
theorem render_chars (p : Path) : ∀ c ∈ (render p).data, c = '/' ∨ ∃ x ∈ p, c ∈ x.data := by
  intro c hc
  unfold render at hc
  split at hc
  · exact Or.inl (by simpa using hc)
  · cases p with
    | nil => simp [String.intercalate] at hc
    | cons a as =>
      simp only [String.intercalate] at hc
      rcases intercalate_go_chars "/" as a c hc with h | h | ⟨b, hb, h⟩
      · exact Or.inr ⟨a, List.mem_cons_self _ _, h⟩
      · exact Or.inl (by simpa using h)
      · exact Or.inr ⟨b, List.mem_cons_of_mem _ hb, h⟩

theorem unrawpack_call {Q : Event → Prop} (env : Env) (w : World) (rootless : Bool)
    (image rootfsPath : String) (rootfs : Path)
    (hQ : Q (.unpack rootless (splitImage image).1 (splitImage image).2 rootfsPath)) :
    Step (fun _ => True) Q w (unrawpack env w rootless image rootfsPath rootfs).2 := by
  simp only [unrawpack]
  exact (Step.emit _ w _ hQ).trans (Step.write Q _ _ (fun q hq => absurd trivial hq))

/-- The calls of the body of `pullContainerToExt4FS`: log lines, the image copy with the
options of the pipeline, the unpacker with the split of the image directory, `du` and
`mke2fs`. -/
theorem pullContainerToExt4FSBody_calls {Q : Event → Prop} (env : Env) (w : World)
    (srcImage workspaceDir : String)
    (hlog : ∀ m kv, Q (.logInfo m kv))
    (hpull : Q (.pull (pipelinePullOptions env workspaceDir srcImage)))
    (hunpack : Q (.unpack (!env.isRoot)
      (splitImage (render (stagingDir env workspaceDir ++ ["image"]))).1
      (splitImage (render (stagingDir env workspaceDir ++ ["image"]))).2
      (render (stagingDir env workspaceDir ++ ["rootfs"]))))
    (hdu : ∀ d, Q (.du d)) (hmke : ∀ a, Q (.mke2fs a)) :
    Step (fun _ => True) Q w
      (pullContainerToExt4FSBody env w srcImage workspaceDir (stagingDir env workspaceDir)).2 := by
  have wide : ∀ {T : Path → Prop} {w w' : World}, Step T Q w w' → Step (fun _ => True) Q w w' :=
    fun h => h.mono (fun _ _ => trivial) (fun _ h => h)
  simp only [pullContainerToExt4FSBody]
  have s1 := wide (EnsureDirectoryExists_step Q env w (stagingDir env workspaceDir ++ ["image"]))
  cases h1 : EnsureDirectoryExists env w (stagingDir env workspaceDir ++ ["image"]) with
  | mk e1 w1 =>
  rw [h1] at s1
  cases e1 with
  | some err => exact s1
  | none =>
  simp only []
  have s2 := s1.trans (wide (Pull_step env w1 (pipelinePullOptions env workspaceDir srcImage)
    (stagingDir env workspaceDir ++ ["image"]) hpull))
  simp only [pipelinePullOptions, stagingDir] at s2
  simp only [stagingDir]
  cases h2 : Pull env w1 ⟨"", "linux", srcImage, "oci:" ++ render (pathOf workspaceDir ++
      ["container-unpack-" ++ env.tempDirRandom ++ ""] ++ ["image"]) ++ ":latest"⟩
    (pathOf workspaceDir ++ ["container-unpack-" ++ env.tempDirRandom ++ ""] ++ ["image"]) with
  | mk e2 w2 =>
  rw [h2] at s2
  cases e2 with
  | some err => exact s2
  | none =>
  simp only []
  have s3 := (s2.trans (Step.emit _ w2 (.logInfo "Unpacking OCI image" [("image", srcImage)])
    (hlog _ _))).trans (wide (EnsureDirectoryExists_step Q env
    (w2.emit (.logInfo "Unpacking OCI image" [("image", srcImage)]))
    (pathOf workspaceDir ++ ["container-unpack-" ++ env.tempDirRandom ++ ""] ++ ["rootfs"])))
  cases h3 : EnsureDirectoryExists env (w2.emit (.logInfo "Unpacking OCI image" [("image", srcImage)]))
    (pathOf workspaceDir ++ ["container-unpack-" ++ env.tempDirRandom ++ ""] ++ ["rootfs"]) with
  | mk e3 w3 =>
  rw [h3] at s3
  cases e3 with
  | some err => exact s3
  | none =>
  simp only []
  have s4 := s3.trans (unrawpack_call env w3 (!env.isRoot)
    (render (pathOf workspaceDir ++ ["container-unpack-" ++ env.tempDirRandom ++ ""] ++ ["image"]))
    (render (pathOf workspaceDir ++ ["container-unpack-" ++ env.tempDirRandom ++ ""] ++ ["rootfs"]))
    (pathOf workspaceDir ++ ["container-unpack-" ++ env.tempDirRandom ++ ""] ++ ["rootfs"])
    hunpack)
  cases h4 : unrawpack env w3 (!env.isRoot)
    (render (pathOf workspaceDir ++ ["container-unpack-" ++ env.tempDirRandom ++ ""] ++ ["image"]))
    (render (pathOf workspaceDir ++ ["container-unpack-" ++ env.tempDirRandom ++ ""] ++ ["rootfs"]))
    (pathOf workspaceDir ++ ["container-unpack-" ++ env.tempDirRandom ++ ""] ++ ["rootfs"]) with
  | mk e4 w4 =>
  rw [h4] at s4
  cases e4 with
  | some err => exact s4
  | none =>
  simp only []
  have s5 := s4.trans (wide (CreateTemp_step Q env w4 workspaceDir "containerfs-" ".ext4"))
  cases h5 : CreateTemp env w4 workspaceDir "containerfs-" ".ext4" with
  | mk r5 w5 =>
  rw [h5] at s5
  obtain ⟨imageFile, e5⟩ := r5
  cases e5 with
  | some err => exact s5
  | none =>
  simp only []
  have s6 := s5.trans (wide (DirectoryToImageAutoSize_step env w5
    (pathOf workspaceDir ++ ["container-unpack-" ++ env.tempDirRandom ++ ""] ++ ["rootfs"])
    imageFile hdu hmke))
  cases h6 : DirectoryToImageAutoSize env w5
    (pathOf workspaceDir ++ ["container-unpack-" ++ env.tempDirRandom ++ ""] ++ ["rootfs"])
    imageFile with
  | mk e6 w6 =>
  rw [h6] at s6
  cases e6 <;> exact s6

theorem pullContainerToExt4FS_calls {Q : Event → Prop} (env : Env) (w : World)
    (srcImage workspaceDir : String)
    (hlog : ∀ m kv, Q (.logInfo m kv))
    (hpull : Q (.pull (pipelinePullOptions env workspaceDir srcImage)))
    (hunpack : Q (.unpack (!env.isRoot)
      (splitImage (render (stagingDir env workspaceDir ++ ["image"]))).1
      (splitImage (render (stagingDir env workspaceDir ++ ["image"]))).2
      (render (stagingDir env workspaceDir ++ ["rootfs"]))))
    (hdu : ∀ d, Q (.du d)) (hmke : ∀ a, Q (.mke2fs a)) :
    Step (fun _ => True) Q w (pullContainerToExt4FS env w srcImage workspaceDir).2 := by
  have wide : ∀ {T : Path → Prop} {w w' : World}, Step T Q w w' → Step (fun _ => True) Q w w' :=
    fun h => h.mono (fun _ _ => trivial) (fun _ h => h)
  simp only [pullContainerToExt4FS]
  have s1 := (Step.emit (fun _ => True) w (.logInfo "pull image" [("src", srcImage)])
    (hlog _ _)).trans (wide (MkdirTemp_step Q env
      (w.emit (.logInfo "pull image" [("src", srcImage)])) workspaceDir
      "container-unpack-" ""))
  cases h1 : MkdirTemp env (w.emit (.logInfo "pull image" [("src", srcImage)]))
    workspaceDir "container-unpack-" "" with
  | mk r1 w1 =>
  rw [h1] at s1
  obtain ⟨root, e1⟩ := r1
  cases e1 with
  | some err => exact s1
  | none =>
  simp only []
  have hp := MkdirTemp_path env _ _ _ _ _ _ h1
  subst hp
  exact (s1.trans (pullContainerToExt4FSBody_calls env w1 srcImage workspaceDir hlog hpull
    hunpack hdu hmke)).trans (wide (RemoveAll_step Q env _ _))

/-- No `:` is in the Go string of `<staging>/image` when none is in the workspace path and
none in the random part of the name of the staging directory. -/
theorem stagingImage_no_colon (env : Env) (workspaceDir : String)
    (hW : ':' ∉ workspaceDir.data) (hR : ':' ∉ env.tempDirRandom.data) :
    ':' ∉ (render (stagingDir env workspaceDir ++ ["image"])).data := by
  intro hin
  rcases render_chars _ _ hin with h | ⟨x, hx, hc⟩
  · cases h
  · simp only [stagingDir, List.append_assoc, List.mem_append, List.mem_cons, List.mem_singleton,
      List.not_mem_nil, or_false] at hx
    rcases hx with hx | hx | hx
    · exact hW (pathOf_chars workspaceDir x hx _ hc)
    · subst hx
      simp only [String.data_append, List.mem_append] at hc
      rcases hc with (hc | hc) | hc
      · revert hc; decide
      · exact hR hc
      · revert hc; decide
    · subst hx
      revert hc; decide

/-- When no `:` is in the workspace path, nor in the random part of the name of the staging
directory, the image copy and the unpacker of `pullContainerToExt4FS` agree: every image
copy of the run is told to write to `oci:<staging>/image:latest`, and every call of the
unpacker opens `<staging>/image` at the tag `latest`. -/
theorem pullContainerToExt4FS_fetch_unpack_agree (env : Env) (w : World)
    (srcImage workspaceDir : String)
    (hW : ':' ∉ workspaceDir.data) (hR : ':' ∉ env.tempDirRandom.data) :
    ∃ es, (pullContainerToExt4FS env w srcImage workspaceDir).2.trace = w.trace ++ es ∧
      ∀ e ∈ es, fetchUnpackAgree env workspaceDir e := by
  have hsplit := splitImage_no_colon _ (stagingImage_no_colon env workspaceDir hW hR)
  exact (pullContainerToExt4FS_calls (Q := fetchUnpackAgree env workspaceDir) env w srcImage
    workspaceDir (fun _ _ => trivial) rfl (by rw [hsplit]; exact ⟨rfl, rfl⟩)
    (fun _ => trivial) (fun _ => trivial)).1

set_option maxRecDepth 100000 in
/-- In the workspace `/ws` the run of `pullContainerToExt4FS` succeeds, the image copy is told
to write to `oci:/ws/container-unpack-123/image:latest`, and the unpacker opens
`/ws/container-unpack-123/image` at the tag `latest`. -/
theorem pullContainerToExt4FS_unpack_sample :
    (pullContainerToExt4FS demoEnv (World.start emptyWorkspaceFS) "img" "/ws").1 =
      (["", "ws", "containerfs-456.ext4"], none) ∧
    pullCalls (pullContainerToExt4FS demoEnv (World.start emptyWorkspaceFS) "img" "/ws").2.trace =
      [⟨"", "linux", "img", "oci:/ws/container-unpack-123/image:latest"⟩] ∧
    unpackCalls (pullContainerToExt4FS demoEnv (World.start emptyWorkspaceFS) "img" "/ws").2.trace =
      [(true, "/ws/container-unpack-123/image", "latest", "/ws/container-unpack-123/rootfs")] := by
  decide

set_option maxRecDepth 100000 in
/-- Claim C14, at a failing input. In the workspace `/tmp/a:b` the staging directory is
`/tmp/a:b/container-unpack-123`, and the image copy is told to write to
`oci:/tmp/a:b/container-unpack-123/image:latest`; the unpacker is given
`/tmp/a:b/container-unpack-123/image`, splits it at the first `:`, and opens the directory
`/tmp/a` at the tag `b/container-unpack-123/image`, not `<staging>/image` at `latest`. -/
theorem pullContainerToExt4FS_unpack_elsewhere :
    render (stagingDir demoEnv "/tmp/a:b") = "/tmp/a:b/container-unpack-123" ∧
    pullCalls
        (pullContainerToExt4FS demoEnv (World.start colonWorkspaceFS) "img" "/tmp/a:b").2.trace =
      [⟨"", "linux", "img", "oci:/tmp/a:b/container-unpack-123/image:latest"⟩] ∧
    unpackCalls
        (pullContainerToExt4FS demoEnv (World.start colonWorkspaceFS) "img" "/tmp/a:b").2.trace =
      [(true, "/tmp/a", "b/container-unpack-123/image", "/tmp/a:b/container-unpack-123/rootfs")] := by
  decide

theorem Run.stay {R : FS → FS → Prop} (w : World) (h : R w.fs w.fs) : Run R w w :=
  ⟨⟨[], by simp, by simp⟩, h⟩

theorem Step.run {T : Path → Prop} {Q : Event → Prop} {w w' : World} (h : Step T Q w w') :
    Run (fun a b => ∀ q, ¬ T q → b q = a q) w w' :=
  ⟨h.2.1, h.2.2⟩

theorem Run.weaken {R V : FS → FS → Prop} {w w' : World} (h : Run R w w')
    (hR : ∀ b, R w.fs b → V w.fs b) : Run V w w' := by
  obtain ⟨⟨hs, hh, hf⟩, hfinal⟩ := h
  exact ⟨⟨hs, hh, fun fs hfs => hR fs (hf fs hfs)⟩, hR _ hfinal⟩

/-- A property of the states of `w` that `R` carries over holds of the states of a world
that continues `w`. -/
theorem Run.keeps {R : FS → FS → Prop} {P : FS → Prop} {w w' : World} (h : Run R w w')
    (hP : ∀ b, R w.fs b → P b) (hw : ∀ fs ∈ w.history, P fs) :
    P w'.fs ∧ ∀ fs ∈ w'.history, P fs := by
  obtain ⟨⟨hs, hh, hf⟩, hfinal⟩ := h
  refine ⟨hP _ hfinal, ?_⟩
  intro fs hfs
  rw [hh] at hfs
  rcases List.mem_append.mp hfs with h | h
  · exact hw fs h
  · exact hP fs (hf fs h)

theorem madeDir_refl (now : Int) (p : Path) (a : FS) : madeDir now p a a := ⟨rfl, Or.inl rfl⟩

theorem Run.extend {R : FS → FS → Prop} {w w' : World} (h : Run R w w') (fs : FS)
    (hfs : R w.fs fs) : Run R w (w'.write fs) := by
  obtain ⟨⟨hs, hh, hf⟩, -⟩ := h
  refine ⟨⟨hs ++ [fs], by simp [World.write, hh], ?_⟩, hfs⟩
  intro b hb
  rcases List.mem_append.mp hb with h | h
  · exact hf b h
  · simp only [List.mem_singleton] at h
    rw [h]
    exact hfs

theorem not_prefix_of_longer {p q : Path} (h : q.length < p.length) : ¬ p <+: q :=
  fun hp => absurd hp.length_le (by omega)

/-- The states `os.MkdirAll` goes through on its way to the directory `p`: nothing changes
at `p/containerfs.ext4`, and the node at `p` stays, or `p` was absent and is made. -/
theorem MkdirAllRev_made (env : Env) (name : String) (up : List String) (w : World) :
    Run (madeDir env.now (up.reverse ++ [name])) w (MkdirAllRev env (name :: up) w).2 := by
  unfold MkdirAllRev
  cases hfs : w.fs (up.reverse ++ [name]) with
  | some node =>
    cases node <;> exact Run.stay _ (madeDir_refl _ _ _)
  | none =>
    simp only []
    have st := MkdirAllRev_step (fun _ => True) env up w
    cases hr : MkdirAllRev env up w with
    | mk e w1 =>
    rw [hr] at st
    have run1 : Run (madeDir env.now (up.reverse ++ [name])) w w1 :=
      st.run.weaken (fun b hb =>
        ⟨hb _ (not_prefix_of_longer (by simp)), Or.inl (hb _ (not_prefix_of_longer (by simp)))⟩)
    cases e with
    | some err => exact run1
    | none =>
      simp only []
      unfold mkdirAt
      split
      · exact run1
      · split
        · refine run1.extend _ ⟨?_, Or.inr ⟨hfs, ?_⟩⟩
          · have h1 : up.reverse ++ [name] ++ [diskImageFileName] ≠ up.reverse ++ [name] := by
              intro h
              have := congrArg List.length h
              simp at this
            have h2 : up.reverse ++ [name] ++ [diskImageFileName] ≠ up.reverse := by
              intro h
              have := congrArg List.length h
              simp at this
            rw [setNode_ne _ _ _ _ h1, addName_ne _ _ _ _ _ h2]
            exact st.2.2 _ (not_prefix_of_longer (by simp))
          · simp [setNode]
        · exact run1

theorem EnsureDirectoryExists_made (env : Env) (w : World) (p : Path) :
    Run (madeDir env.now p) w (EnsureDirectoryExists env w p).2 := by
  unfold EnsureDirectoryExists
  split
  · split
    · unfold MkdirAll
      split
      · exact Run.stay _ (madeDir_refl _ _ _)
      · rename_i hp
        obtain ⟨q, name, rfl⟩ : ∃ q name, p = q ++ [name] := by
          rcases List.eq_nil_or_concat p with h | ⟨q, name, h⟩
          · exact absurd h hp
          · exact ⟨q, name, by simpa using h⟩
        have := MkdirAllRev_made env name q.reverse w
        simpa using this
    · exact Run.stay _ (madeDir_refl _ _ _)
  · exact Run.stay _ (madeDir_refl _ _ _)

theorem Rename_outcome (env : Env) (w : World) (oldpath newpath : Path) :
    (∃ err, Rename env w oldpath newpath = (some err, w)) ∨
    (∃ w', Rename env w oldpath newpath = (none, w') ∧ w'.history = w.history ++ [w'.fs]) := by
  unfold Rename
  split
  · split
    · split
      · exact Or.inl ⟨_, rfl⟩
      · exact Or.inl ⟨_, rfl⟩
      · exact Or.inl ⟨_, rfl⟩
      · exact Or.inr ⟨_, rfl, rfl⟩
    · exact Or.inl ⟨_, rfl⟩
  · exact Or.inl ⟨_, rfl⟩
  · exact Or.inl ⟨_, rfl⟩

theorem addName_keeps_dir (fs : FS) (dir q : Path) (name : String) (now : Int)
    (h : isDirAt fs q = true) : isDirAt (addName fs dir name now) q = true := by
  unfold addName
  split
  · by_cases hq : q = dir
    · subst hq
      simp [isDirAt, setNode]
    · rw [show isDirAt (setNode fs dir _ ) q = isDirAt fs q from by
        unfold isDirAt; rw [setNode_ne _ _ _ _ hq]]
      exact h
  · exact h

theorem removeName_keeps_dir (fs : FS) (dir q : Path) (name : String) (now : Int)
    (h : isDirAt fs q = true) : isDirAt (removeName fs dir name now) q = true := by
  unfold removeName
  split
  · by_cases hq : q = dir
    · subst hq
      simp [isDirAt, setNode]
    · rw [show isDirAt (setNode fs dir _ ) q = isDirAt fs q from by
        unfold isDirAt; rw [setNode_ne _ _ _ _ hq]]
      exact h
  · exact h

/-- After `os.Rename`, the directory that holds the new path is a directory still. -/
theorem Rename_parent_after (env : Env) (w w' : World) (oldpath newpath : Path)
    (h : Rename env w oldpath newpath = (none, w')) (hne : newpath ≠ [])
    (hold : ¬ oldpath <+: newpath.dropLast) : isDirAt w'.fs newpath.dropLast = true := by
  have hdir := Rename_parent_dir env w w' oldpath newpath h
  unfold Rename at h
  split at h
  · split at h
    · split at h
      · simp at h
      · simp at h
      · simp at h
      · simp only [Prod.mk.injEq, true_and] at h
        rw [← h]
        simp only [World.write]
        have h1 : newpath.isPrefixOf newpath.dropLast = false := by
          cases hb : newpath.isPrefixOf newpath.dropLast with
          | false => rfl
          | true =>
            have hp := List.isPrefixOf_iff_prefix.mp hb
            have hl := hp.length_le
            have hpos : 0 < newpath.length := List.length_pos.mpr hne
            simp at hl
            omega
        have h2 : oldpath.isPrefixOf newpath.dropLast = false := by
          cases hb : oldpath.isPrefixOf newpath.dropLast with
          | false => rfl
          | true => exact absurd (List.isPrefixOf_iff_prefix.mp hb) hold
        unfold isDirAt
        simp only [h1, h2, Bool.false_eq_true, if_false]
        exact addName_keeps_dir _ _ _ _ _ (removeName_keeps_dir _ _ _ _ _ hdir)
    · simp at h
  · simp at h
  · simp at h

/-- The states of a run of `createExt4Image` from `fs0`, at the content-digest directory of
the run: each holds what `fs0` holds there, or the directory `EnsureDirectoryExists` made,
or the image that was built; and the final state of a run that succeeds holds the image. -/
theorem createExt4Image_digest_dir (env : Env) (fs0 : FS) (workspaceDir containerImage : String) :
    digestDirState env.now (builtImageNode env (World.start fs0) workspaceDir containerImage)
      (builtImageHash env (World.start fs0) workspaceDir containerImage) fs0
      (createExt4Image env (World.start fs0) workspaceDir containerImage).2.fs
      (getLocalImagePath workspaceDir containerImage) ∧
    (∀ fs ∈ (createExt4Image env (World.start fs0) workspaceDir containerImage).2.history,
      digestDirState env.now (builtImageNode env (World.start fs0) workspaceDir containerImage)
        (builtImageHash env (World.start fs0) workspaceDir containerImage) fs0 fs
        (getLocalImagePath workspaceDir containerImage)) ∧
    ((createExt4Image env (World.start fs0) workspaceDir containerImage).1.2 = none →
      publishedIn (builtImageNode env (World.start fs0) workspaceDir containerImage)
        (builtImageHash env (World.start fs0) workspaceDir containerImage)
        (createExt4Image env (World.start fs0) workspaceDir containerImage).2.fs
        (getLocalImagePath workspaceDir containerImage)) := by
  have hin : ∀ (d : String) (q : Path),
      (q = getLocalImagePath workspaceDir containerImage ++ [d] ∨
        q = getLocalImagePath workspaceDir containerImage ++ [d, diskImageFileName]) →
      ¬ ¬ inCache workspaceDir q := by
    intro d q hq
    apply entry_inCache workspaceDir containerImage
    rcases hq with rfl | rfl <;> exact List.prefix_append _ _
  have hasIs : ∀ (d : String) (built : Option Node) (fs : FS),
      AgreeOn (fun q => q = getLocalImagePath workspaceDir containerImage ++ [d] ∨
        q = getLocalImagePath workspaceDir containerImage ++ [d, diskImageFileName]) fs0 fs →
      digestDirState env.now built d fs0 fs (getLocalImagePath workspaceDir containerImage) :=
    fun d built fs h => Or.inl ⟨h _ (Or.inl rfl), h _ (Or.inr rfl)⟩
  have s1 : ∀ d : String,
      AgreeOn (fun q => q = getLocalImagePath workspaceDir containerImage ++ [d] ∨
          q = getLocalImagePath workspaceDir containerImage ++ [d, diskImageFileName]) fs0
        (pullContainerToExt4FS env (World.start fs0) containerImage workspaceDir).2.fs ∧
      ∀ fs ∈ (pullContainerToExt4FS env (World.start fs0) containerImage workspaceDir).2.history,
        AgreeOn (fun q => q = getLocalImagePath workspaceDir containerImage ++ [d] ∨
          q = getLocalImagePath workspaceDir containerImage ++ [d, diskImageFileName]) fs0 fs :=
    fun d => (pullContainerToExt4FS_step env (World.start fs0) containerImage
      workspaceDir).agree (hin d) (fun _ _ => rfl) (by
        intro fs hfs q _
        simp [World.start] at hfs
        rw [hfs])
  unfold builtImageHash builtImageNode
  simp only [createExt4Image]
  cases h1 : pullContainerToExt4FS env (World.start fs0) containerImage workspaceDir with
  | mk r1 w1 =>
  obtain ⟨tmp, e1⟩ := r1
  simp only [h1] at s1
  cases e1 with
  | some err =>
    exact ⟨hasIs _ _ _ (s1 _).1, fun fs hfs => hasIs _ _ _ ((s1 _).2 fs hfs), by simp⟩
  | none =>
  simp only []
  have htmp := pullContainerToExt4FS_path env (World.start fs0) containerImage workspaceDir tmp
    (by rw [h1])
  cases h2 : hashFile w1.fs tmp with
  | mk imageHash e2 =>
  cases e2 with
  | some err =>
    exact ⟨hasIs _ _ _ (s1 _).1, fun fs hfs => hasIs _ _ _ ((s1 _).2 fs hfs), by simp⟩
  | none =>
  simp only []
  obtain ⟨content, t, hfile, hhash⟩ := hashFile_ok _ _ _ h2
  have happ : getLocalImagePath workspaceDir containerImage ++ [imageHash] ++ [diskImageFileName] =
      getLocalImagePath workspaceDir containerImage ++ [imageHash, diskImageFileName] := by simp
  -- the states up to the end of `EnsureDirectoryExists`
  have hmade : ∀ b, madeDir env.now (getLocalImagePath workspaceDir containerImage ++ [imageHash])
      w1.fs b →
      (b (getLocalImagePath workspaceDir containerImage ++ [imageHash]) =
          fs0 (getLocalImagePath workspaceDir containerImage ++ [imageHash]) ∧
        b (getLocalImagePath workspaceDir containerImage ++ [imageHash, diskImageFileName]) =
          fs0 (getLocalImagePath workspaceDir containerImage ++ [imageHash, diskImageFileName])) ∨
      (fs0 (getLocalImagePath workspaceDir containerImage ++ [imageHash]) = none ∧
        b (getLocalImagePath workspaceDir containerImage ++ [imageHash]) = some (.dir [] env.now) ∧
        b (getLocalImagePath workspaceDir containerImage ++ [imageHash, diskImageFileName]) =
          fs0 (getLocalImagePath workspaceDir containerImage ++ [imageHash, diskImageFileName])) := by
    intro b hb
    have a1 := (s1 imageHash).1 _ (Or.inl rfl)
    have a2 := (s1 imageHash).1 _ (Or.inr rfl)
    obtain ⟨hb1, hb2⟩ := hb
    rw [happ, a2] at hb1
    rcases hb2 with hb2 | ⟨hb2, hb3⟩
    · exact Or.inl ⟨by rw [hb2, a1], hb1⟩
    · exact Or.inr ⟨by rw [← a1]; exact hb2, hb3, hb1⟩
  have r3 := EnsureDirectoryExists_made env (w1.emit (.logInfo "pulled image"
      [("path", render tmp), ("rootfs-path",
        render (getLocalImagePath workspaceDir containerImage ++ [imageHash]))]))
      (getLocalImagePath workspaceDir containerImage ++ [imageHash])
  have s3 := EnsureDirectoryExists_step (fun _ => True) env (w1.emit (.logInfo "pulled image"
      [("path", render tmp), ("rootfs-path",
        render (getLocalImagePath workspaceDir containerImage ++ [imageHash]))]))
      (getLocalImagePath workspaceDir containerImage ++ [imageHash])
  cases h3 : EnsureDirectoryExists env (w1.emit (.logInfo "pulled image"
      [("path", render tmp), ("rootfs-path",
        render (getLocalImagePath workspaceDir containerImage ++ [imageHash]))]))
      (getLocalImagePath workspaceDir containerImage ++ [imageHash]) with
  | mk e3 w3 =>
  rw [h3] at r3 s3
  have k3 := r3.keeps (P := fun b =>
      (b (getLocalImagePath workspaceDir containerImage ++ [imageHash]) =
          fs0 (getLocalImagePath workspaceDir containerImage ++ [imageHash]) ∧
        b (getLocalImagePath workspaceDir containerImage ++ [imageHash, diskImageFileName]) =
          fs0 (getLocalImagePath workspaceDir containerImage ++ [imageHash, diskImageFileName])) ∨
      (fs0 (getLocalImagePath workspaceDir containerImage ++ [imageHash]) = none ∧
        b (getLocalImagePath workspaceDir containerImage ++ [imageHash]) = some (.dir [] env.now) ∧
        b (getLocalImagePath workspaceDir containerImage ++ [imageHash, diskImageFileName]) =
          fs0 (getLocalImagePath workspaceDir containerImage ++ [imageHash, diskImageFileName])))
    hmade (fun fs hfs => Or.inl ⟨(s1 imageHash).2 fs hfs _ (Or.inl rfl),
      (s1 imageHash).2 fs hfs _ (Or.inr rfl)⟩)
  have lift : ∀ (built : Option Node) (b : FS),
      ((b (getLocalImagePath workspaceDir containerImage ++ [imageHash]) =
          fs0 (getLocalImagePath workspaceDir containerImage ++ [imageHash]) ∧
        b (getLocalImagePath workspaceDir containerImage ++ [imageHash, diskImageFileName]) =
          fs0 (getLocalImagePath workspaceDir containerImage ++ [imageHash, diskImageFileName])) ∨
      (fs0 (getLocalImagePath workspaceDir containerImage ++ [imageHash]) = none ∧
        b (getLocalImagePath workspaceDir containerImage ++ [imageHash]) = some (.dir [] env.now) ∧
        b (getLocalImagePath workspaceDir containerImage ++ [imageHash, diskImageFileName]) =
          fs0 (getLocalImagePath workspaceDir containerImage ++ [imageHash, diskImageFileName]))) →
      digestDirState env.now built imageHash fs0 b
        (getLocalImagePath workspaceDir containerImage) := by
    intro built b hb
    rcases hb with hb | hb
    · exact Or.inl hb
    · exact Or.inr (Or.inl hb)
  cases e3 with
  | some err =>
    exact ⟨lift _ _ k3.1, fun fs hfs => lift _ _ (k3.2 fs hfs), by simp⟩
  | none =>
  simp only []
  rcases Rename_outcome env w3 tmp
    (getLocalImagePath workspaceDir containerImage ++ [imageHash] ++ [diskImageFileName]) with
    ⟨err, h4⟩ | ⟨w4, h4, hhist⟩
  · rw [h4]
    exact ⟨lift _ _ k3.1, fun fs hfs => lift _ _ (k3.2 fs hfs), by simp⟩
  · rw [h4]
    simp only []
    have h5 := Rename_target env w3 w4 _ _ h4
    have hnot : ¬ tmp <+: getLocalImagePath workspaceDir containerImage ++ [imageHash] := by
      rw [htmp]
      simpa [getLocalImagePath] using tempFile_not_above env workspaceDir
        [HashString containerImage, imageHash]
    have h6 : w3.fs tmp = w1.fs tmp := by
      have := s3.2.2 tmp hnot
      simpa [World.emit] using this
    have hpub : publishedIn (w1.fs tmp) imageHash w4.fs
        (getLocalImagePath workspaceDir containerImage) := by
      refine ⟨?_, ?_, content, t, hfile, hhash.symm⟩
      · have := Rename_parent_after env w3 w4 tmp _ h4 (by simp) (by simpa using hnot)
        simpa using this
      · rw [← happ, h5, h6]
    refine ⟨Or.inr (Or.inr hpub), ?_, fun _ => hpub⟩
    intro fs hfs
    rw [hhist] at hfs
    rcases List.mem_append.mp hfs with h | h
    · exact lift _ _ (k3.2 fs h)
    · simp only [List.mem_singleton] at h
      rw [h]
      exact Or.inr (Or.inr hpub)

theorem entryState_of_parts (now : Int) (built : Option Node) (d : String) (fs0 fs : FS)
    (entry : Path) (hinit : subdirsHoldImage fs0 entry)
    (hagree : AgreeOn (otherSubdirPath entry d) fs0 fs)
    (hd : digestDirState now built d fs0 fs entry) : entryState now built d fs0 fs entry := by
  refine ⟨hagree, hd, ?_⟩
  intro name hdir
  by_cases hn : name = d
  · subst hn
    rcases hd with ⟨h1, h2⟩ | ⟨h0, h1, -⟩ | ⟨-, h2, content, t, hb, -⟩
    · left
      unfold isDirAt at hdir
      rw [h1] at hdir
      have := hinit name hdir
      unfold isFileAt at this ⊢
      rw [h2]
      exact this
    · exact Or.inr ⟨rfl, h0, h1⟩
    · left
      unfold isFileAt
      rw [h2, hb]
  · rcases subdirsHoldImageBut_of_agree d fs0 fs entry hinit hagree name hdir with h | h
    · exact Or.inl h
    · exact absurd h hn

/-- Claim C3, as amended. From a state `fs0` in which every subdirectory of the entry
directory holds a file `containerfs.ext4`, every state a run of `createExt4Image` goes
through, a run that ends in an error included, and the state it ends in, have the
subdirectories other than the content-digest directory `d` of the run, and their image
files, as they are in `fs0`; the directory `d` is as it is in `fs0`, or it was absent and is
the directory `EnsureDirectoryExists` has made, listing nothing, or it holds the image that
was built, the file the conversion step left, whose SHA-256 digest in hexadecimal is `d`. So
every subdirectory holds the file, the new and empty `d` apart; and when the run succeeds,
its final state has the image that was built in `d`, and the file in every subdirectory. -/
theorem createExt4Image_entry_subdirs (env : Env) (fs0 : FS)
    (workspaceDir containerImage : String)
    (hinit : subdirsHoldImage fs0 (getLocalImagePath workspaceDir containerImage)) :
    (∀ fs ∈ (createExt4Image env (World.start fs0) workspaceDir containerImage).2.history,
      entryState env.now (builtImageNode env (World.start fs0) workspaceDir containerImage)
        (builtImageHash env (World.start fs0) workspaceDir containerImage) fs0 fs
        (getLocalImagePath workspaceDir containerImage)) ∧
    entryState env.now (builtImageNode env (World.start fs0) workspaceDir containerImage)
      (builtImageHash env (World.start fs0) workspaceDir containerImage) fs0
      (createExt4Image env (World.start fs0) workspaceDir containerImage).2.fs
      (getLocalImagePath workspaceDir containerImage) ∧
    ((createExt4Image env (World.start fs0) workspaceDir containerImage).1.2 = none →
      publishedIn (builtImageNode env (World.start fs0) workspaceDir containerImage)
        (builtImageHash env (World.start fs0) workspaceDir containerImage)
        (createExt4Image env (World.start fs0) workspaceDir containerImage).2.fs
        (getLocalImagePath workspaceDir containerImage) ∧
      subdirsHoldImage (createExt4Image env (World.start fs0) workspaceDir containerImage).2.fs
        (getLocalImagePath workspaceDir containerImage)) := by
  obtain ⟨hfinal, hhist⟩ := createExt4Image_agree env fs0 workspaceDir containerImage
  obtain ⟨dfinal, dhist, dpub⟩ := createExt4Image_digest_dir env fs0 workspaceDir containerImage
  have efinal := entryState_of_parts _ _ _ _ _ _ hinit hfinal dfinal
  refine ⟨fun fs hfs => entryState_of_parts _ _ _ _ _ _ hinit (hhist fs hfs) (dhist fs hfs),
    efinal, ?_⟩
  intro hok
  have hpub := dpub hok
  refine ⟨hpub, ?_⟩
  intro name hdir
  rcases efinal.2.2 name hdir with h | ⟨hn, -, -⟩
  · exact h
  · subst hn
    obtain ⟨-, h2, content, t, hb, -⟩ := hpub
    unfold isFileAt
    rw [h2, hb]

set_option maxRecDepth 100000 in
theorem createExt4Image_entry_subdirs_witness :
    subdirsHoldImage cachedFS (getLocalImagePath "/ws" "img") ∧
    (createExt4Image demoEnv (World.start cachedFS) "/ws" "img").1.2 = none ∧
    (∀ fs ∈ (createExt4Image demoEnv (World.start cachedFS) "/ws" "img").2.history,
      entryState demoEnv.now (builtImageNode demoEnv (World.start cachedFS) "/ws" "img")
        (builtImageHash demoEnv (World.start cachedFS) "/ws" "img") cachedFS fs
        (getLocalImagePath "/ws" "img")) ∧
    publishedIn (builtImageNode demoEnv (World.start cachedFS) "/ws" "img")
      (builtImageHash demoEnv (World.start cachedFS) "/ws" "img")
      (createExt4Image demoEnv (World.start cachedFS) "/ws" "img").2.fs
      (getLocalImagePath "/ws" "img") ∧
    subdirsHoldImage (createExt4Image demoEnv (World.start cachedFS) "/ws" "img").2.fs
      (getLocalImagePath "/ws" "img") :=
  have hok : (createExt4Image demoEnv (World.start cachedFS) "/ws" "img").1.2 = none := by decide
  have h := createExt4Image_entry_subdirs demoEnv cachedFS "/ws" "img" cachedFS_subdirsHoldImage
  ⟨cachedFS_subdirsHoldImage, hok, h.1, (h.2.2 hok).1, (h.2.2 hok).2⟩

set_option maxRecDepth 100000 in
/-- The embedding of `filepath.Clean` and `filepath.Join` on names that are not clean: `.`
and empty components go, `..` takes the component before it away. The entry directory of
`img` is the same for `/ws/.` as for `/ws`, so that the cached image of `/ws` is found from
`/ws/.`, and the file `README` that is alone in the entry directory gives the error of
`os.Stat` from there as well. -/
theorem pathOf_samples :
    pathOf "/ws/." = ["", "ws"] ∧ pathOf "./ws" = ["ws"] ∧ pathOf "/ws/../tmp" = ["", "tmp"] ∧
    pathOf "/ws//x/" = ["", "ws", "x"] ∧ pathOf "a/../.." = [".."] ∧ pathOf "/.." = [""] ∧
    pathOf "" = [] ∧ pathOf "." = [] ∧
    getLocalImagePath "/ws/." "img" = getLocalImagePath "/ws" "img" ∧
    render (getLocalImagePath "./ws" "img") = "ws/containers/" ++ HashString "img" ∧
    render (getLocalImagePath "/ws/../tmp" "img") = "/tmp/containers/" ++ HashString "img" ∧
    (cachedDiskImagePath goSort (World.start cachedFS) "/ws/." "img").1 =
      (getLocalImagePath "/ws" "img" ++ ["aaa", diskImageFileName], none) ∧
    (cachedDiskImagePath goSort (World.start loneFileFS) "/ws/." "img").1 =
      ([], some (.path "stat" (getLocalImagePath "/ws" "img" ++ ["README", diskImageFileName])
        .ENOTDIR)) := by
  decide

set_option maxRecDepth 100000 in
/-- The embedding of the lookup of a workspace name that is not clean. From `/ws/../ws/.`
the run of `createExt4Image` is the run from `/ws`; from `/nope/../ws`, where `/nope` is not
there, `os.MkdirTemp` fails with the not-exist error of `os.Stat`, as it does from the
missing directory `/ws/x`. -/
theorem lookupErr_samples :
    lookupErr emptyWorkspaceFS "/ws/../ws/." = none ∧
    lookupErr emptyWorkspaceFS "/nope/../ws" = some .ENOENT ∧
    (createExt4Image demoEnv (World.start emptyWorkspaceFS) "/ws/../ws/." "img").1 =
      (getLocalImagePath "/ws" "img" ++ [HashString "IMAGE", diskImageFileName], none) ∧
    (createExt4Image demoEnv (World.start emptyWorkspaceFS) "/nope/../ws" "img").1 =
      ([], some (.path "stat" ["", "ws"] .ENOENT)) ∧
    (createExt4Image demoEnv (World.start emptyWorkspaceFS) "/ws/x" "img").1 =
      ([], some (.path "stat" ["", "ws", "x"] .ENOENT)) := by
  decide

end Buildfs
